import Mathlib

/-!
# The Hamlet duel game: turn and state orchestration

A shallow embedding of `src/js/characters.js`, `src/js/combat.js`, `src/js/dialogue.js`,
`src/js/endings.js` and the state-carrying part of `src/js/game.js`.

Modelling conventions.

* The mutable `game` singleton and the three systems hanging off it are one record `Game`;
  every method is a function from `Game` to `Game` (or to `Option Game`, see below).
* Closures stored in dialogue entries and choice options are defunctionalised: `Callback`
  and `ChoiceCallback` enumerate every closure the source ever builds.
* `Math.floor(Math.random() * n)` is an integer in `0 .. n-1`; it is an explicit argument of
  type `Fin n` (`Fin 10` for the damage roll, `Fin 8` for the flavour line, `Fin 4` for the
  hesitation sequence).
* Health and damage are integers (`Int`), so that the clamps `Math.max(0, .)` and
  `Math.min(maxHealth, .)` are visible; `Math.floor(damage / 5)` on the non-negative integer
  `damage` is integer division by 5.
* An `async` method is one state transformer, run to completion with no other handler in
  between. The `await` on the attack animation is a delay. The `await` on
  `showSystemMessage` in `performAttack` ends with a click on the continue button; the
  listener registered first on that button is `() => this.next()` (constructor of
  `DialogueSystem`), the one-time `resume` listener comes second, so `next()` runs before
  the awaiting method resumes. An attack is therefore: the hit and its message, then
  `next()`, then the status check. `performDefend` drops the promise of `showSystemMessage`
  and nothing waits for it.
* `setTimeout(() => this.enemyTurn(), 1000)` is a counter of pending timers (`enemyTimers`);
  the input `Input.timer` consumes one and runs `enemyTurn`.
* Inputs are not filtered by what the page lets the user click (hidden menu, disabled
  buttons): `step` hands every input to its handler, as a direct call would. What holds on
  all runs holds on the runs the page allows.
* `next()` calls a stored callback, a callback may call `nextTurn()`, and `nextTurn()` may
  call `triggerEnding`/`triggerEvent`, which call `next()` again. The functions below take
  the nested `next` as a parameter, and `DialogueSystem.next` closes the knot with a bound on
  the nesting depth: `none` means the bound was hit. The nested call always meets a literal
  sequence whose first entry does not call `nextTurn`, so depth 2 is always enough
  (`next_reach`, `step_reach`, `run_reach`: every handler returns).
* `game.turnCount` is `undefined` until the first `nextTurn()`; every read is
  `this.game.turnCount || 0` or follows the assignment, so `undefined` is `0 : Nat`.
  `playerDefending` and `warnedQueen` are `undefined` until first written and only tested for
  truthiness, so `undefined` is `false`.
* Canvas drawing, image loading, health-bar widths and animation timing are presentation and
  are not modelled; the list of active animations keeps the kind and the actor only.
* `trace` is a history of the calls made so far (endings and events triggered, callbacks
  invoked, lines shown, hits applied). No modelled code reads it.
-/

namespace Hamlet

/-! ## characters.js -/

/-- The class `Character`. -/
structure Character where
  name : String
  maxHealth : Int
  currentHealth : Int
  isPlayer : Bool
  isDead : Bool
  isPoisoned : Bool
deriving DecidableEq, Repr

namespace Character

/-- The constructor `new Character(name, maxHealth, isPlayer)`. -/
def new (name : String) (maxHealth : Int) (isPlayer : Bool) : Character :=
  { name := name, maxHealth := maxHealth, currentHealth := maxHealth,
    isPlayer := isPlayer, isDead := false, isPoisoned := false }

/-- The method `takeDamage(amount)`. -/
def takeDamage (c : Character) (amount : Int) : Character :=
  let c1 := { c with currentHealth := max 0 (c.currentHealth - amount) }
  if c1.currentHealth ≤ 0 then { c1 with isDead := true } else c1

/-- The method `heal(amount)`. -/
def heal (c : Character) (amount : Int) : Character :=
  { c with currentHealth := min c.maxHealth (c.currentHealth + amount) }

/-- The method `poison()`. -/
def poison (c : Character) : Character :=
  { c with isPoisoned := true }

end Character

/-! ## The game state -/

/-- The values of `game.state`. -/
inductive Phase where
  | START
  | DIALOGUE
  | COMBAT
  | END
deriving DecidableEq, Repr

/-- The values of `combatSystem.turn`. -/
inductive Turn where
  | PLAYER
  | ENEMY
deriving DecidableEq, Repr

/-- A reference to one of the four character objects held by the game. -/
inductive Role where
  | player
  | opponent
  | king
  | queen
deriving DecidableEq, Repr

/-- Every closure stored as `callback` of a dialogue entry. -/
inductive Callback where
  /-- Closure `() => this.nextTurn()` and `() => { this.game.combatSystem.nextTurn(); }` -/
  | nextTurn
  /-- Closure `() => { this.game.triggerDrinkAnimation(this.game.queen); }` -/
  | queenLiftsCup
  /-- Closure `() => { this.game.queen.isDead = true; this.game.clearDrinkAnimation(this.game.queen); }` -/
  | queenDies
  /-- Closure `() => { this.game.opponent.isDead = true; }` -/
  | opponentDies
  /-- Closure `() => { this.game.king.isDead = true; }` -/
  | kingDies
  /-- Closure `() => { this.game.player.isDead = true; }` -/
  | playerDies
deriving DecidableEq, Repr

/-- Every closure stored as `callback` of a choice option. -/
inductive ChoiceCallback where
  /-- Option "Warn Mother about the cup" in `performSpeak` -/
  | warnQueen
  /-- Option "Taunt Laertes" in `performSpeak` -/
  | tauntLaertes
  /-- Option "Play Again" in `endDialogue`: `() => location.reload()` -/
  | playAgain
deriving DecidableEq, Repr

/-- An entry of the dialogue queue: `{ speaker?, text, callback? }`. -/
structure Entry where
  speaker : Option String
  text : String
  callback : Option Callback
deriving DecidableEq, Repr

/-- An option handed to `showChoice`: `{ text, callback }`. -/
structure ChoiceOption where
  text : String
  callback : ChoiceCallback
deriving DecidableEq, Repr

/-- The two texts handed to `showSystemMessage`. -/
inductive SystemMessage where
  /-- The template "NAME strikes! Deals DAMAGE damage." -/
  | strikes (name : String) (damage : Int)
  /-- The template "NAME raises their guard." -/
  | raisesGuard (name : String)
deriving DecidableEq, Repr

/-- The content of the element `dialogue-text`. -/
inductive Display where
  /-- content of the page as loaded -/
  | initial
  /-- Left by `innerHTML = ''` -/
  | empty
  /-- written by `showSystemMessage` -/
  | system (message : SystemMessage)
  /-- written by `next()`, with or without a speaker -/
  | line (speaker : Option String) (text : String)
  /-- the choice container appended by `showChoice` -/
  | choice (options : List ChoiceOption)
deriving DecidableEq, Repr

/-- The `type` of an animation record. -/
inductive AnimationType where
  | attack
  | defend
  | drink
deriving DecidableEq, Repr

/-- An entry of `activeAnimations` (timing fields left out). -/
structure Animation where
  type : AnimationType
  actor : Role
deriving DecidableEq, Repr

/-- The `disabled` property of the action buttons, by the three classes `enableButtons`
distinguishes: the button with `data-action` `kill-king`, the one with `speak`, all others. -/
structure Buttons where
  killKingDisabled : Bool
  speakDisabled : Bool
  othersDisabled : Bool
deriving DecidableEq, Repr

/-- An item of the history of calls. -/
inductive TraceItem where
  /-- Entry into `triggerEnding(type)` -/
  | ending (type : String)
  /-- Entry into `triggerEvent(type)` -/
  | event (type : String)
  /-- Invocation by `next()` of the callback of the entry it took from the queue -/
  | called (callback : Callback)
  /-- Writing of this entry to the dialogue text by `next()` -/
  | shown (entry : Entry)
  /-- Application of `defender.takeDamage(damage)` by `performAttack`; `reduced` tells whether the
  defend reduction was applied -/
  | hit (attacker defender : Role) (damage : Int) (reduced : Bool)
deriving DecidableEq, Repr

/-- The state of the program: the `Game` object with its three systems and the part of the
page they read and write. -/
structure Game where
  /-- Field `game.state` -/
  state : Phase
  player : Character
  opponent : Character
  king : Character
  queen : Character
  /-- Field `game.turnCount` -/
  turnCount : Nat
  /-- Field `combatSystem.turn` -/
  turn : Turn
  /-- Field `combatSystem.playerDefending` -/
  playerDefending : Bool
  /-- Field `combatSystem.warnedQueen` -/
  warnedQueen : Bool
  /-- Field `dialogueSystem.queue` -/
  queue : List Entry
  /-- Field `dialogueSystem.isShowing` -/
  isShowing : Bool
  /-- class `hidden` on `ui.actionMenu` -/
  actionMenuHidden : Bool
  /-- class `hidden` on `ui.dialogueBox` -/
  dialogueBoxHidden : Bool
  /-- class `hidden` on the button `dialogue-next` -/
  nextBtnHidden : Bool
  buttons : Buttons
  /-- content of `dialogue-text` -/
  textElement : Display
  activeAnimations : List Animation
  /-- number of pending `setTimeout(() => this.enemyTurn(), 1000)` -/
  enemyTimers : Nat
  /-- Set once `location.reload()` was called: the page and this state are discarded -/
  reloaded : Bool
  /-- history of calls -/
  trace : List TraceItem
deriving DecidableEq, Repr

namespace Game

/-- Dereference a character. -/
def char (g : Game) : Role → Character
  | Role.player => g.player
  | Role.opponent => g.opponent
  | Role.king => g.king
  | Role.queen => g.queen

/-- Store a character. -/
def setChar (g : Game) (r : Role) (c : Character) : Game :=
  match r with
  | Role.player => { g with player := c }
  | Role.opponent => { g with opponent := c }
  | Role.king => { g with king := c }
  | Role.queen => { g with queen := c }

/-- Append an item to the history. -/
def record (g : Game) (item : TraceItem) : Game :=
  { g with trace := g.trace ++ [item] }

/-- The method `triggerAttackAnimation(attacker, defender)` of `game.js` (the returned promise
resolves on a timer). -/
def triggerAttackAnimation (g : Game) (attacker _defender : Role) : Game :=
  { g with activeAnimations := g.activeAnimations ++ [⟨AnimationType.attack, attacker⟩] }

/-- The method `triggerDefendAnimation(actor)` of `game.js`. -/
def triggerDefendAnimation (g : Game) (actor : Role) : Game :=
  { g with activeAnimations := g.activeAnimations ++ [⟨AnimationType.defend, actor⟩] }

/-- The method `triggerDrinkAnimation(actor)` of `game.js`. -/
def triggerDrinkAnimation (g : Game) (actor : Role) : Game :=
  { g with activeAnimations := g.activeAnimations ++ [⟨AnimationType.drink, actor⟩] }

/-- The method `clearDrinkAnimation(actor)` of `game.js`. -/
def clearDrinkAnimation (g : Game) (actor : Role) : Game :=
  let remaining := g.activeAnimations.filter
    (fun anim => !(anim.type == AnimationType.drink && anim.actor == actor))
  { g with activeAnimations := remaining }

end Game

/-! ## dialogue.js: the parts that do not advance the queue -/

namespace DialogueSystem

/-- The method `showSystemMessage(text)`; the promise it returns resolves at the next click
on the continue button. -/
def showSystemMessage (message : SystemMessage) (g : Game) : Game :=
  { g with
    dialogueBoxHidden := false
    textElement := Display.system message
    nextBtnHidden := false
    isShowing := true }

/-- The method `showChoice(options)`. -/
def showChoice (options : List ChoiceOption) (g : Game) : Game :=
  { g with
    dialogueBoxHidden := false
    textElement := Display.choice options
    nextBtnHidden := true
    isShowing := true }

end DialogueSystem

/-! ## combat.js: buttons and combat start -/

namespace CombatSystem

/-- The method `disableButtons()`. -/
def disableButtons (g : Game) : Game :=
  { g with buttons := ⟨true, true, true⟩ }

/-- The method `enableButtons()`: `kill-king` is always enabled, `speak` is disabled while
`turnCount < 3`, every other button is enabled. -/
def enableButtons (g : Game) : Game :=
  { g with buttons := ⟨false, decide (g.turnCount < 3), false⟩ }

/-- The method `updateButtons()`. -/
def updateButtons (g : Game) : Game :=
  enableButtons g

/-- The method `startCombat()`. -/
def startCombat (g : Game) : Game :=
  updateButtons
    { g with
      state := Phase.COMBAT
      actionMenuHidden := false
      dialogueBoxHidden := true
      turn := Turn.PLAYER }

end CombatSystem

namespace DialogueSystem

/-- The method `endDialogue()`. -/
def endDialogue (g : Game) : Game :=
  let g1 := { g with isShowing := false, dialogueBoxHidden := true, nextBtnHidden := true }
  if g1.state = Phase.DIALOGUE then
    CombatSystem.startCombat g1
  else if g1.state = Phase.COMBAT then
    { g1 with actionMenuHidden := false }
  else if g1.state = Phase.END then
    showChoice [⟨"Play Again", ChoiceCallback.playAgain⟩] g1
  else
    g1

end DialogueSystem

/-! ## endings.js -/

namespace EndingSystem

/-- The method `getCanonicalEnding()`. -/
def getCanonicalEnding : List Entry :=
  [ ⟨none, "Laertes falls, wounded by your hand.", some Callback.opponentDies⟩,
    ⟨some "Laertes", "I am justly killed with mine own treachery...", none⟩,
    ⟨some "Hamlet", "The point!--envenom'd too! Then, venom, to thy work.", none⟩,
    ⟨none, "Hamlet wounds the King.", some Callback.kingDies⟩,
    ⟨some "Hamlet", "Here, thou incestuous, murderous, damned Dane, Drink off this potion. Is thy union here? Follow my mother.", none⟩,
    ⟨some "Laertes", "Exchange forgiveness with me, noble Hamlet...", none⟩,
    ⟨some "Hamlet", "Heaven make thee free of it! I follow thee.", some Callback.playerDies⟩,
    ⟨none, "The rest is silence.", none⟩ ]

/-- The method `getQueenEnding()` (never called). -/
def getQueenEnding : List Entry :=
  [ ⟨some "Hamlet", "Mother, do not drink!", none⟩,
    ⟨some "Queen Gertrude", "I will, my lord; I pray you, pardon me.", none⟩,
    ⟨none, "She drinks. It is too late to save her, but she knows.", none⟩,
    ⟨some "Queen Gertrude", "Come, let me wipe thy face.", none⟩,
    ⟨none, "ENDING 2: A MOTHER'S SACRIFICE", none⟩ ]

/-- The method `getRedemptionEnding()`. -/
def getRedemptionEnding : List Entry :=
  [ ⟨none, "You lower your sword, refusing to strike the killing blow.", none⟩,
    ⟨some "Laertes", "Why do you not strike? I... I cannot do it against my conscience.", none⟩,
    ⟨some "Laertes", "My lord, I will hit you now... And yet 'tis almost 'against my conscience.", none⟩,
    ⟨none, "Laertes drops his sword. The plot is revealed early.", none⟩,
    ⟨none, "ENDING 3: FORGIVENESS", none⟩ ]

/-- The method `getDelayedEnding()`. -/
def getDelayedEnding : List Entry :=
  [ ⟨none, "You wait too long. Your hesitation consumes you.", none⟩,
    ⟨some "Hamlet", "O, I die, Horatio; The potent poison quite o'er-crows my spirit.", some Callback.playerDies⟩,
    ⟨none, "In your last breath, you finally strike at the King.", some Callback.kingDies⟩,
    ⟨some "Hamlet", "Here, thou incestuous, murderous, damned Dane, Drink off this potion. Is thy union here? Follow my mother.", none⟩,
    ⟨none, "The rest is silence.", none⟩ ]

/-- The literal sequence of the `DEATH` and `default` branch of `triggerEnding`. -/
def deathSequence : List Entry :=
  [ ⟨none, "The rest is silence.", none⟩,
    ⟨none, "GAME OVER", none⟩ ]

/-- The literal sequence of `triggerEvent('WARN_QUEEN')`. -/
def warnQueenSequence : List Entry :=
  [ ⟨some "Hamlet", "Mother, do not drink!", none⟩,
    ⟨none, "Gertrude lowers the cup. She waits, watching the duel with concern.", none⟩,
    ⟨none, "Laertes prepares to strike while you are distracted...", some Callback.nextTurn⟩ ]

/-- The literal sequence of `triggerEvent('QUEEN_DRINKS_NATURAL')`. -/
def queenDrinksSequence : List Entry :=
  [ ⟨some "Queen Gertrude", "The Queen carouses to thy fortune, Hamlet.", none⟩,
    ⟨none, "She lifts the cup to her lips...", some Callback.queenLiftsCup⟩,
    ⟨some "King Claudius", "Gertrude, do not drink!", none⟩,
    ⟨some "Queen Gertrude", "I will, my lord; I pray you, pardon me.", none⟩,
    ⟨some "Queen Gertrude", "The drink, the drink! I am poison'd.", none⟩,
    ⟨none, "She drinks. The poison works instantly.", some Callback.queenDies⟩,
    ⟨none, "Queen Gertrude has died.", none⟩,
    ⟨none, "Laertes prepares to strike while you are distracted...", some Callback.nextTurn⟩ ]

/-- The `switch (type)` of `triggerEnding`: `POISON_WAIT` falls through to `CANONICAL`, and
`DEATH` shares its body with `default`. -/
def endingSequence (type : String) : List Entry :=
  if type = "POISON_WAIT" ∨ type = "CANONICAL" then getCanonicalEnding
  else if type = "SPARE_LAERTES" then getRedemptionEnding
  else if type = "DELAY_STRIKE" then getDelayedEnding
  else deathSequence

/-- The method `triggerEnding(type)`; `next` is `dialogueSystem.next`. -/
def triggerEnding (next : Game → Option Game) (type : String) (g : Game) : Option Game :=
  let g1 := g.record (TraceItem.ending type)
  let g2 := { g1 with state := Phase.END, actionMenuHidden := true, dialogueBoxHidden := false }
  next { g2 with queue := endingSequence type }

/-- The two `if (type === ...)` of `triggerEvent`, starting from `sequence = []`. -/
def eventSequence (type : String) : List Entry :=
  let sequence : List Entry := []
  let sequence := if type = "WARN_QUEEN" then warnQueenSequence else sequence
  let sequence := if type = "QUEEN_DRINKS_NATURAL" then queenDrinksSequence else sequence
  sequence

/-- The method `triggerEvent(type)`; `next` is `dialogueSystem.next`. -/
def triggerEvent (next : Game → Option Game) (type : String) (g : Game) : Option Game :=
  let g1 := g.record (TraceItem.event type)
  let g2 := { g1 with actionMenuHidden := true, dialogueBoxHidden := false }
  next { g2 with queue := eventSequence type }

end EndingSystem

/-! ## combat.js: the turn advance -/

namespace CombatSystem

/-- The method `nextTurn()`; `next` is `dialogueSystem.next`. -/
def nextTurn (next : Game → Option Game) (g : Game) : Option Game :=
  let g1 := { g with turnCount := g.turnCount + 1 }
  let g2 := { g1 with turn := if g1.turn = Turn.PLAYER then Turn.ENEMY else Turn.PLAYER }
  if g2.turnCount > 25 then
    EndingSystem.triggerEnding next "DELAY_STRIKE" g2
  else if g2.turnCount = 8 ∧ g2.warnedQueen = false ∧ g2.queen.isDead = false then
    (EndingSystem.triggerEvent next "WARN_QUEEN" g2).bind
      (EndingSystem.triggerEvent next "QUEEN_DRINKS_NATURAL")
  else if g2.turn = Turn.ENEMY then
    some { g2 with enemyTimers := g2.enemyTimers + 1 }
  else
    some (enableButtons { g2 with playerDefending := false })

end CombatSystem

/-! ## dialogue.js: advancing the queue -/

namespace DialogueSystem

/-- The body of each closure of `Callback`; `next` is `dialogueSystem.next`. -/
def runCallback (next : Game → Option Game) (callback : Callback) (g : Game) : Option Game :=
  match callback with
  | Callback.nextTurn => CombatSystem.nextTurn next g
  | Callback.queenLiftsCup => some (g.triggerDrinkAnimation Role.queen)
  | Callback.queenDies =>
      some (Game.clearDrinkAnimation { g with queen := { g.queen with isDead := true } } Role.queen)
  | Callback.opponentDies => some { g with opponent := { g.opponent with isDead := true } }
  | Callback.kingDies => some { g with king := { g.king with isDead := true } }
  | Callback.playerDies => some { g with player := { g.player with isDead := true } }

/-- The body of the method `next()`, with the nested calls of `next()` (made by a callback
through `nextTurn` and `triggerEnding`/`triggerEvent`) going to `inner`. The callback runs
before the text is written; an empty speaker string is falsy. -/
def nextBody (inner : Game → Option Game) (g : Game) : Option Game :=
  match g.queue with
  | [] => some (endDialogue g)
  | line :: rest =>
      let g1 := { g with queue := rest, isShowing := true, dialogueBoxHidden := false,
                         nextBtnHidden := false }
      let afterCallback : Option Game :=
        match line.callback with
        | some callback => runCallback inner callback (g1.record (TraceItem.called callback))
        | none => some g1
      afterCallback.map fun g2 =>
        Game.record
          { g2 with textElement := Display.line (line.speaker.filter (fun s => s ≠ "")) line.text }
          (TraceItem.shown line)

/-- The method `next()`, with at most `depth` nested activations (`none` beyond). -/
def next : Nat → Game → Option Game
  | 0, _ => none
  | depth + 1, g => nextBody (next depth) g

/-- The method `showDialogue(speaker, text)`; `next` is `this.next`. -/
def showDialogue (next : Game → Option Game) (speaker text : String) (g : Game) : Option Game :=
  let g1 := { g with queue := g.queue ++ [⟨some speaker, text, none⟩] }
  if g1.isShowing = false then next g1 else some g1

/-- The literal `lines` of `triggerCombatDialogue`. -/
def combatLines : Fin 8 → String × String
  | 0 => ("Hamlet", "Come on, sir.")
  | 1 => ("Laertes", "Come, my lord.")
  | 2 => ("Hamlet", "One.")
  | 3 => ("Laertes", "No.")
  | 4 => ("Hamlet", "Judgment.")
  | 5 => ("Osric", "A hit, a very palpable hit.")
  | 6 => ("Hamlet", "Another hit; what say you?")
  | 7 => ("Laertes", "A touch, a touch, I do confess.")

/-- The method `triggerCombatDialogue()`; `pick` is `Math.floor(Math.random() * lines.length)`. -/
def triggerCombatDialogue (next : Game → Option Game) (pick : Fin 8) (g : Game) : Option Game :=
  let line := combatLines pick
  showDialogue next line.1 line.2 g

/-- The literal queue of `startIntro`. -/
def introSequence : List Entry :=
  [ ⟨some "Osric", "The King and Queen and all are coming down.", none⟩,
    ⟨some "King Claudius", "Come, Hamlet, come, and take this hand from me.", none⟩,
    ⟨some "Laertes", "I am satisfied in nature, whose motive, in this case, should stir me most to my revenge.", none⟩,
    ⟨some "Hamlet", "I embrace it freely; and will this brother's wager frankly play.", none⟩,
    ⟨some "King Claudius", "Give them the foils, young Osric.", none⟩ ]

/-- The method `startIntro()`. -/
def startIntro (next : Game → Option Game) (g : Game) : Option Game :=
  next { g with dialogueBoxHidden := false, actionMenuHidden := true, queue := introSequence }

end DialogueSystem

/-! ## combat.js: actions -/

namespace CombatSystem

/-- The local `damage` of `performAttack` after the attacker bonus:
`Math.floor(Math.random() * 10) + 5`, plus 1 when the attacker is not the player. -/
def rawDamage (attacker : Character) (roll : Fin 10) : Int :=
  let damage : Int := (roll.val : Int) + 5
  if attacker.isPlayer = false then damage + 1 else damage

/-- The condition `defender.isPlayer && this.playerDefending` of `performAttack`. -/
def defendApplies (defender : Character) (playerDefending : Bool) : Bool :=
  defender.isPlayer && playerDefending

/-- The local `damage` of `performAttack` when `takeDamage` is called: with the defend
reduction `Math.floor(damage / 5)` when it applies (the quotient of a non-negative integer
by 5, rounded down). -/
def damage (attacker defender : Character) (playerDefending : Bool) (roll : Fin 10) : Int :=
  if defendApplies defender playerDefending then rawDamage attacker roll / 5
  else rawDamage attacker roll

/-- The method `performAttack(attacker, defender)`; `roll` is
`Math.floor(Math.random() * 10)`. `updateHealthUI` writes bar widths only. -/
def performAttack (attacker defender : Role) (roll : Fin 10) (g : Game) : Game :=
  let g1 := g.triggerAttackAnimation attacker defender
  let dealt := damage (g1.char attacker) (g1.char defender) g1.playerDefending roll
  let reduced := defendApplies (g1.char defender) g1.playerDefending
  let g2 := g1.setChar defender ((g1.char defender).takeDamage dealt)
  let g3 := g2.record (TraceItem.hit attacker defender dealt reduced)
  DialogueSystem.showSystemMessage (SystemMessage.strikes (g3.char attacker).name dealt) g3

/-- The method `performDefend(character)`; the promise of `showSystemMessage` is not
awaited. -/
def performDefend (character : Role) (g : Game) : Game :=
  let g1 := g.triggerDefendAnimation character
  DialogueSystem.showSystemMessage (SystemMessage.raisesGuard (g1.char character).name) g1

/-- The entry pushed by the first branch of `performSpeak`. -/
def wantonLine : Entry :=
  ⟨some "Hamlet", "I am afeard you make a wanton of me.", some Callback.nextTurn⟩

/-- The entry pushed by the "Taunt Laertes" option. -/
def dallyLine : Entry :=
  ⟨some "Hamlet", "Come, for the third, Laertes: you but dally.", some Callback.nextTurn⟩

/-- The two options handed to `showChoice` by `performSpeak`. -/
def speakOptions : List ChoiceOption :=
  [ ⟨"Warn Mother about the cup", ChoiceCallback.warnQueen⟩,
    ⟨"Taunt Laertes", ChoiceCallback.tauntLaertes⟩ ]

/-- The method `performSpeak()`; `pick` is the random index of `triggerCombatDialogue`. -/
def performSpeak (next : Game → Option Game) (pick : Fin 8) (g : Game) : Option Game :=
  let turn := g.turnCount
  if g.warnedQueen = true ∨ g.queen.isDead = true then
    next { g with queue := g.queue ++ [wantonLine] }
  else if turn ≥ 2 ∧ g.warnedQueen = false then
    some (DialogueSystem.showChoice speakOptions g)
  else
    (DialogueSystem.triggerCombatDialogue next pick g).bind (nextTurn next)

/-- The literal `sequences` of `triggerHesitation`. -/
def hesitationSequences : Fin 4 → String × String
  | 0 => ("Now might I do it pat, now he is praying...",
          "And now I'll do't. And so he goes to heaven; And so am I revenged.")
  | 1 => ("A villain kills my father; and for that, I, his sole son, do this same villain send to heaven.",
          "O, this is hire and salary, not revenge.")
  | 2 => ("The spirit that I have seen may be the devil...",
          "And the devil hath power to assume a pleasing shape.")
  | 3 => ("Thus conscience does make cowards of us all...",
          "And thus the native hue of resolution Is sicklied o'er with the pale cast of thought.")

/-- The two entries `triggerHesitation` pushes for the sequence `pick`. -/
def hesitationLines (pick : Fin 4) : List Entry :=
  let seq := hesitationSequences pick
  [ ⟨none, "(Hesitation) \"" ++ seq.1 ++ "\"", none⟩,
    ⟨none, "(Hesitation) \"" ++ seq.2 ++ "\"", none⟩ ]

/-- The method `triggerHesitation()`; `pick` is
`Math.floor(Math.random() * sequences.length)`. -/
def triggerHesitation (next : Game → Option Game) (pick : Fin 4) (g : Game) : Option Game :=
  (next { g with queue := g.queue ++ hesitationLines pick }).map enableButtons

/-- The method `checkCombatStatus()`: the returned boolean and the state it leaves. -/
def checkCombatStatus (next : Game → Option Game) (g : Game) : Option (Bool × Game) :=
  if g.player.currentHealth ≤ 0 then
    (EndingSystem.triggerEnding next "DEATH" g).map fun g1 => (false, g1)
  else if g.opponent.currentHealth ≤ 0 then
    (EndingSystem.triggerEnding next "CANONICAL" g).map fun g1 => (false, g1)
  else
    some (true, g)

/-- The common tail of `playerAction` and `enemyTurn`:
`if (this.checkCombatStatus()) { this.nextTurn(); }`. -/
def checkAndAdvance (next : Game → Option Game) (g : Game) : Option Game :=
  (checkCombatStatus next g).bind fun r => if r.1 = true then nextTurn next r.2 else some r.2

/-- The random draws one call of `playerAction` may consume. -/
structure Draw where
  /-- Value of `Math.floor(Math.random() * 10)` in `performAttack` -/
  roll : Fin 10
  /-- Value of `Math.floor(Math.random() * lines.length)` in `triggerCombatDialogue` -/
  line : Fin 8
  /-- Value of `Math.floor(Math.random() * sequences.length)` in `triggerHesitation` -/
  sequence : Fin 4
deriving DecidableEq, Repr

/-- The method `playerAction(action)`. In the `attack` case the method awaits
`performAttack`, which ends on the message resolved by the click on the continue button:
the `next()` of that click runs before the status check. The `defend` case awaits nothing.
An action string matching no `case` falls out of the `switch` to the status check. -/
def playerAction (next : Game → Option Game) (action : String) (draw : Draw) (g : Game) :
    Option Game :=
  if g.turn ≠ Turn.PLAYER then some g
  else
    let g1 := disableButtons g
    let g2 := { g1 with playerDefending := false }
    if action = "attack" then
      (next (performAttack Role.player Role.opponent draw.roll g2)).bind (checkAndAdvance next)
    else if action = "defend" then
      checkAndAdvance next (performDefend Role.player { g2 with playerDefending := true })
    else if action = "speak" then
      performSpeak next draw.line g2
    else if action = "kill-king" then
      triggerHesitation next draw.sequence g2
    else
      checkAndAdvance next g2

/-- The method `enemyTurn()`: it awaits `performAttack`, so the `next()` of the click that
resolves the message runs before the status check. -/
def enemyTurn (next : Game → Option Game) (roll : Fin 10) (g : Game) : Option Game :=
  (next (performAttack Role.opponent Role.player roll g)).bind (checkAndAdvance next)

end CombatSystem

/-! ## Choices, game start and inputs -/

namespace DialogueSystem

/-- The body of each closure of `ChoiceCallback`; `next` is `dialogueSystem.next`. -/
def runChoice (next : Game → Option Game) (callback : ChoiceCallback) (g : Game) :
    Option Game :=
  match callback with
  | ChoiceCallback.warnQueen =>
      EndingSystem.triggerEvent next "WARN_QUEEN" { g with warnedQueen := true }
  | ChoiceCallback.tauntLaertes =>
      next { g with queue := g.queue ++ [CombatSystem.dallyLine] }
  | ChoiceCallback.playAgain => some { g with reloaded := true }

/-- The `onclick` of the button of option `index` created by `showChoice`: the choice
container is removed, then the callback of the option runs. Without a displayed choice
there is no such button. -/
def selectChoice (next : Game → Option Game) (index : Nat) (g : Game) : Option Game :=
  match g.textElement with
  | Display.choice options =>
      match options.get? index with
      | some option => runChoice next option.callback { g with textElement := Display.empty }
      | none => some g
  | _ => some g

end DialogueSystem

namespace Game

/-- The state built by `new Game()`. The fields `player`, `opponent`, `king` and `queen` do
not exist yet in the source: `startGame` creates them, and a method that reads one before
that throws a `TypeError`. The four values held here are placeholders that no game reads:
a game begins with the start button, and `startGame` overwrites them
(`run_ignores_placeholders`); an input handled before the start button meets the
placeholders here, where the source throws. `index.html` is not among the sources: the action menu and
the dialogue box are taken to start hidden, the buttons enabled. -/
def new : Game :=
  { state := Phase.START
    player := Character.new "Hamlet" 100 true
    opponent := Character.new "Laertes" 80 false
    king := Character.new "Claudius" 60 false
    queen := Character.new "Gertrude" 50 false
    turnCount := 0
    turn := Turn.PLAYER
    playerDefending := false
    warnedQueen := false
    queue := []
    isShowing := false
    actionMenuHidden := true
    dialogueBoxHidden := true
    nextBtnHidden := false
    buttons := ⟨false, false, false⟩
    textElement := Display.initial
    activeAnimations := []
    enemyTimers := 0
    reloaded := false
    trace := [] }

/-- The method `startGame()`; `next` is `dialogueSystem.next`. -/
def startGame (next : Game → Option Game) (g : Game) : Option Game :=
  DialogueSystem.startIntro next
    { g with
      state := Phase.DIALOGUE
      player := Character.new "Hamlet" 100 true
      opponent := Character.new "Laertes" 80 false
      king := Character.new "Claudius" 60 false
      queen := Character.new "Gertrude" 50 false }

end Game

/-- What the page can deliver to the program. -/
inductive Input where
  /-- a click on the start button: `startGame()` -/
  | start
  /-- a click on the continue button: `dialogueSystem.next()` -/
  | advance
  /-- a click on the action button with this `data-action`: `playerAction(action)`, together
  with the click on the continue button that an attack waits for -/
  | action (name : String) (draw : CombatSystem.Draw)
  /-- a pending enemy-turn timer fires: `enemyTurn()`, together with the click on the continue
  button that the attack waits for -/
  | timer (roll : Fin 10)
  /-- a click on the button of a displayed choice -/
  | select (index : Nat)
deriving DecidableEq, Repr

/-- The nesting bound used when the program is run: two activations of `next()`. -/
def depth : Nat := 2

/-- One input handled to completion. A timer fires only if one is pending. -/
def step (g : Game) : Input → Option Game
  | Input.start => Game.startGame (DialogueSystem.next depth) g
  | Input.advance => DialogueSystem.next depth g
  | Input.action name draw => CombatSystem.playerAction (DialogueSystem.next depth) name draw g
  | Input.timer roll =>
      if g.enemyTimers = 0 then some g
      else CombatSystem.enemyTurn (DialogueSystem.next depth) roll
        { g with enemyTimers := g.enemyTimers - 1 }
  | Input.select index => DialogueSystem.selectChoice (DialogueSystem.next depth) index g

/-- A sequence of inputs handled in order. -/
def run (g : Game) : List Input → Option Game
  | [] => some g
  | input :: rest => (step g input).bind fun g1 => run g1 rest

/-! ## The program as a transition system -/

open CombatSystem DialogueSystem EndingSystem

/-- The straight-line pieces of the program: every handler is a sequence of these. Each
constructor names the place in the source it comes from and keeps the test that guards
it. -/
inductive Prim : Game → Game → Prop where
  /-- From `next()` on an empty queue -/
  | finish (g : Game) : g.queue = [] → Prim g (endDialogue g)
  /-- From `next()` on an entry without callback or with one that does not call `nextTurn` -/
  | advance (g g1 : Game) (e : Entry) (rest : List Entry) :
      g.queue = e :: rest → e.callback ≠ some Callback.nextTurn → next 1 g = some g1 →
      Prim g g1
  /-- From `next()` up to the call of a callback that is `nextTurn` -/
  | take (g : Game) (e : Entry) (rest : List Entry) :
      g.queue = e :: rest → e.callback = some Callback.nextTurn →
      Prim g
        (Game.record
          { g with queue := rest, isShowing := true, dialogueBoxHidden := false,
                   nextBtnHidden := false }
          (TraceItem.called Callback.nextTurn))
  /-- From `next()` after the callback returned: the text is written -/
  | write (g : Game) (e : Entry) :
      Prim g
        (Game.record
          { g with textElement := Display.line (e.speaker.filter (fun s => s ≠ "")) e.text }
          (TraceItem.shown e))
  /-- From `nextTurn()` -/
  | turn (g g1 : Game) : nextTurn (next 1) g = some g1 → Prim g g1
  /-- From `checkCombatStatus()`, first branch -/
  | endDeath (g g1 : Game) :
      g.player.currentHealth ≤ 0 → triggerEnding (next 1) "DEATH" g = some g1 → Prim g g1
  /-- From `checkCombatStatus()`, second branch -/
  | endCanonical (g g1 : Game) :
      0 < g.player.currentHealth → g.opponent.currentHealth ≤ 0 →
      triggerEnding (next 1) "CANONICAL" g = some g1 → Prim g g1
  /-- From `playerAction`, up to the `switch` -/
  | act (g : Game) :
      g.turn = Turn.PLAYER → Prim g { disableButtons g with playerDefending := false }
  /-- From `case 'attack'`: `performAttack`, up to the message it waits on -/
  | attack (g : Game) (roll : Fin 10) :
      g.turn = Turn.PLAYER → Prim g (performAttack Role.player Role.opponent roll g)
  /-- From `case 'defend'` -/
  | defend (g : Game) :
      g.turn = Turn.PLAYER →
      Prim g (performDefend Role.player { g with playerDefending := true })
  /-- From `enemyTurn()`: `performAttack`, up to the message it waits on -/
  | enemyAttack (g : Game) (roll : Fin 10) :
      Prim g (performAttack Role.opponent Role.player roll g)
  /-- a pending timer is consumed -/
  | timerFires (g : Game) :
      g.enemyTimers ≠ 0 → Prim g { g with enemyTimers := g.enemyTimers - 1 }
  /-- From `performSpeak()`, first branch, up to `next()` -/
  | wanton (g : Game) :
      g.turn = Turn.PLAYER → (g.warnedQueen = true ∨ g.queen.isDead = true) →
      Prim g { g with queue := g.queue ++ [wantonLine] }
  /-- From `performSpeak()`, second branch -/
  | offer (g : Game) :
      g.turn = Turn.PLAYER → ¬ (g.warnedQueen = true ∨ g.queen.isDead = true) →
      2 ≤ g.turnCount → Prim g (showChoice speakOptions g)
  /-- From `performSpeak()`, default branch: the push of `showDialogue` -/
  | flavor (g : Game) (pick : Fin 8) :
      g.turn = Turn.PLAYER → ¬ (g.warnedQueen = true ∨ g.queen.isDead = true) →
      g.turnCount < 2 →
      Prim g { g with queue := g.queue ++ [⟨some (combatLines pick).1, (combatLines pick).2, none⟩] }
  /-- From `triggerHesitation()`, the two pushes -/
  | hesitate (g : Game) (pick : Fin 4) :
      g.turn = Turn.PLAYER → Prim g { g with queue := g.queue ++ hesitationLines pick }
  /-- From `enableButtons()` at the end of `triggerHesitation()` -/
  | enable (g : Game) : Prim g (enableButtons g)
  /-- the option "Warn Mother about the cup" is clicked -/
  | warn (g g1 : Game) (options : List ChoiceOption) (index : Nat) (option : ChoiceOption) :
      g.textElement = Display.choice options → options.get? index = some option →
      option.callback = ChoiceCallback.warnQueen →
      triggerEvent (next 1) "WARN_QUEEN"
        { g with textElement := Display.empty, warnedQueen := true } = some g1 →
      Prim g g1
  /-- the option "Taunt Laertes" is clicked, up to `next()` -/
  | taunt (g : Game) (options : List ChoiceOption) (index : Nat) (option : ChoiceOption) :
      g.textElement = Display.choice options → options.get? index = some option →
      option.callback = ChoiceCallback.tauntLaertes →
      Prim g { g with textElement := Display.empty, queue := g.queue ++ [dallyLine] }
  /-- the option "Play Again" is clicked -/
  | restart (g : Game) (options : List ChoiceOption) (index : Nat) (option : ChoiceOption) :
      g.textElement = Display.choice options → options.get? index = some option →
      option.callback = ChoiceCallback.playAgain →
      Prim g { g with textElement := Display.empty, reloaded := true }
  /-- From `startGame()` -/
  | start (g g1 : Game) : Game.startGame (next 1) g = some g1 → Prim g g1

/-- Reachability by straight-line pieces. -/
def Reach : Game → Game → Prop := Relation.ReflTransGen Prim

/-- How often the natural-poisoning event has been started so far. -/
def naturalPoisonings (g : Game) : Nat :=
  g.trace.count (TraceItem.event "QUEEN_DRINKS_NATURAL")

/-- The hits applied so far, oldest first. -/
def hits (g : Game) : List TraceItem :=
  g.trace.filter fun item =>
    match item with
    | TraceItem.hit _ _ _ _ => true
    | _ => false

/-! ## Concrete games -/

namespace Scenario

/-- The draws used in the concrete games: the highest damage roll. -/
def draw : CombatSystem.Draw := ⟨9, 0, 0⟩

/-- The start button, then the five clicks that play the intro and start the combat. -/
def intro : List Input :=
  Input.start :: List.replicate 5 Input.advance

/-- One action of the player followed by the enemy turn it schedules. -/
def exchange (name : String) : List Input :=
  [Input.action name draw, Input.timer 9]

/-- Three exchanges of attacks: turn count 6, the player to move. -/
def threeExchanges : List Input :=
  intro ++ exchange "attack" ++ exchange "attack" ++ exchange "attack"

/-- The player defends at turn count 6. -/
def defendAtSix : List Input :=
  threeExchanges ++ [Input.action "defend" draw]

/-- The enemy attack that follows the defend; it raises the turn count to 8. -/
def firstHit : List Input :=
  defendAtSix ++ [Input.timer 9]

/-- The seven clicks that play the natural-poisoning event to its end. -/
def eventPlayed : List Input :=
  firstHit ++ List.replicate 7 Input.advance

/-- The enemy attack scheduled by the last entry of the event. -/
def secondHit : List Input :=
  eventPlayed ++ [Input.timer 9]

/-- Two exchanges of attacks, then the player speaks, warns the queen and clicks through the
event, and the enemy takes the turn the event scheduled: turn count 6, the player to move,
the queen warned. -/
def queenWarned : List Input :=
  intro ++ exchange "attack" ++ exchange "attack" ++
    [Input.action "speak" draw, Input.select 0, Input.advance, Input.advance, Input.timer 9]

/-- Two exchanges of attacks, then the player speaks: the choice is on display. -/
def choiceOffered : List Input :=
  intro ++ exchange "attack" ++ exchange "attack" ++ [Input.action "speak" draw]

/-- Four exchanges of attacks with the natural-poisoning event in between, a fifth attack
of the player and the enemy's answer: the opponent is left with 10 health, the player to
move. -/
def beforeLastBlow : List Input :=
  intro ++ exchange "attack" ++ exchange "attack" ++ exchange "attack" ++ exchange "attack" ++
    List.replicate 7 Input.advance ++ [Input.timer 9] ++ exchange "attack"

end Scenario

/-- No entry of the queue carries a callback that calls `nextTurn`. -/
def noTurnCallback (queue : List Entry) : Prop :=
  ∀ e ∈ queue, e.callback ≠ some Callback.nextTurn

instance (queue : List Entry) : Decidable (noTurnCallback queue) := by
  unfold noTurnCallback
  infer_instance

namespace Scenario

/-- The player defends every turn: four exchanges, the natural-poisoning event and the enemy
turn it schedules, then seven more exchanges and a last defend. Turn count 25, the enemy to
move. -/
def alwaysDefending : List Input :=
  intro ++ exchange "defend" ++ exchange "defend" ++ exchange "defend" ++ exchange "defend" ++
    List.replicate 7 Input.advance ++ [Input.timer 9] ++
    exchange "defend" ++ exchange "defend" ++ exchange "defend" ++ exchange "defend" ++
    exchange "defend" ++ exchange "defend" ++ exchange "defend" ++
    [Input.action "defend" draw]

end Scenario

/-- No entry of the queue carries the callback that sets `queen.isDead`. -/
def noQueenDeath (queue : List Entry) : Prop :=
  ∀ e ∈ queue, e.callback ≠ some Callback.queenDies

instance (queue : List Entry) : Decidable (noQueenDeath queue) :=
  inferInstanceAs (Decidable (∀ e ∈ queue, e.callback ≠ some Callback.queenDies))

/-- The page shows a choice with an option whose callback warns the queen. -/
def offersWarn (g : Game) : Bool :=
  match g.textElement with
  | Display.choice options =>
      options.any fun option => decide (option.callback = ChoiceCallback.warnQueen)
  | _ => false

/-- A warned queen is alive with nothing queued that kills her, and a dead queen is not
offered the warning. -/
def queenSafe (g : Game) : Prop :=
  (g.warnedQueen = true → g.queen.isDead = false ∧ noQueenDeath g.queue) ∧
  (g.queen.isDead = true → offersWarn g = false)

instance (g : Game) : Decidable (queenSafe g) :=
  inferInstanceAs (Decidable (_ ∧ _))

namespace Scenario

/-- From the start of combat: two exchanges of attacks, then the player speaks, warns the
queen and clicks through the event, and the enemy takes the turn the event scheduled. -/
def warnFromCombat : List Input :=
  exchange "attack" ++ exchange "attack" ++
    [Input.action "speak" draw, Input.select 0, Input.advance, Input.advance, Input.timer 9]

/-- Six exchanges in which the player defends. -/
def sixExchanges : List Input :=
  exchange "defend" ++ exchange "defend" ++ exchange "defend" ++ exchange "defend" ++
    exchange "defend" ++ exchange "defend"

end Scenario

/-- Outside the intro, the turn is the player's exactly when the turn count is even. -/
def turnParity (g : Game) : Prop :=
  g.state ≠ Phase.DIALOGUE ∧ (g.turn = Turn.PLAYER ↔ g.turnCount % 2 = 0)

instance (g : Game) : Decidable (turnParity g) :=
  inferInstanceAs (Decidable (_ ∧ _))

namespace Scenario

/-- From the start of combat: three exchanges of attacks, a defend and the enemy attack
that raises the turn count to 8. -/
def toTurnEight : List Input :=
  exchange "attack" ++ exchange "attack" ++ exchange "attack" ++ exchange "defend"

end Scenario

/-- Whether the callback, run in this state, assigns the dialogue queue. Only `nextTurn`
does: through `triggerEnding` when the turn count it reaches is above 25, through
`triggerEvent` when it reaches 8 with the queen neither warned nor dead. -/
def Callback.writesQueue (callback : Callback) (g : Game) : Bool :=
  match callback with
  | Callback.nextTurn =>
      decide (g.turnCount + 1 > 25 ∨
        (g.turnCount + 1 = 8 ∧ g.warnedQueen = false ∧ g.queen.isDead = false))
  | _ => false

/-- During the next `n` calls of `next()` from this state no callback that is run assigns
the queue. -/
def quiet : Nat → Game → Bool
  | 0, _ => true
  | n + 1, g =>
      match g.queue with
      | [] => true
      | line :: _ =>
          (match line.callback with
            | some callback => !callback.writesQueue g
            | none => true) &&
          (match DialogueSystem.next depth g with
            | some g1 => quiet n g1
            | none => false)

/-- What one call of `next()` adds to the history for this entry: the invocation of its
callback, if it has one, then the display of the entry. -/
def playedItems (line : Entry) : List TraceItem :=
  (match line.callback with
    | some callback => [TraceItem.called callback]
    | none => []) ++ [TraceItem.shown line]

/-- The game is over or the player has health left. -/
def playerStands (g : Game) : Prop :=
  g.state = Phase.END ∨ 0 < g.player.currentHealth

instance (g : Game) : Decidable (playerStands g) :=
  inferInstanceAs (Decidable (_ ∨ _))

/-! # Verification -/

open CombatSystem DialogueSystem EndingSystem

set_option maxRecDepth 8192

/-! ## Evaluation of the branches -/

theorem endingSequence_delay : endingSequence "DELAY_STRIKE" = getDelayedEnding := by decide

theorem endingSequence_death : endingSequence "DEATH" = deathSequence := by decide

theorem endingSequence_canonical : endingSequence "CANONICAL" = getCanonicalEnding := by decide

theorem eventSequence_warn : eventSequence "WARN_QUEEN" = warnQueenSequence := by decide

theorem eventSequence_drinks : eventSequence "QUEEN_DRINKS_NATURAL" = queenDrinksSequence := by
  decide

/-- On a turn count of 25 or more `nextTurn` ends the game with the delayed ending: the state
it returns, field by field. -/
theorem nextTurn_delay (d : Nat) (g : Game) (h : 25 ≤ g.turnCount) :
    nextTurn (next (d + 1)) g = some
      { g with
        turnCount := g.turnCount + 1
        turn := if g.turn = Turn.PLAYER then Turn.ENEMY else Turn.PLAYER
        state := Phase.END
        actionMenuHidden := true
        dialogueBoxHidden := false
        nextBtnHidden := false
        isShowing := true
        queue := getDelayedEnding.tail
        textElement := Display.line none "You wait too long. Your hesitation consumes you."
        trace := g.trace ++ [TraceItem.ending "DELAY_STRIKE",
          TraceItem.shown ⟨none, "You wait too long. Your hesitation consumes you.", none⟩] } := by
  have h1 : g.turnCount + 1 > 25 := by omega
  simp [nextTurn, h1, triggerEnding, endingSequence_delay, getDelayedEnding, next, nextBody,
    Game.record]

/-- On turn count 7 with the queen alive and not warned `nextTurn` starts the poisoning
event: the state it returns, field by field. -/
theorem nextTurn_event (d : Nat) (g : Game) (h : g.turnCount = 7) (hw : g.warnedQueen = false)
    (hq : g.queen.isDead = false) :
    nextTurn (next (d + 1)) g = some
      { g with
        turnCount := 8
        turn := if g.turn = Turn.PLAYER then Turn.ENEMY else Turn.PLAYER
        actionMenuHidden := true
        dialogueBoxHidden := false
        nextBtnHidden := false
        isShowing := true
        queue := queenDrinksSequence.tail
        textElement :=
          Display.line (some "Queen Gertrude") "The Queen carouses to thy fortune, Hamlet."
        trace := g.trace ++ [TraceItem.event "WARN_QUEEN",
          TraceItem.shown ⟨some "Hamlet", "Mother, do not drink!", none⟩,
          TraceItem.event "QUEEN_DRINKS_NATURAL",
          TraceItem.shown
            ⟨some "Queen Gertrude", "The Queen carouses to thy fortune, Hamlet.", none⟩] } := by
  simp [nextTurn, h, hw, hq, triggerEvent, eventSequence_warn, eventSequence_drinks,
    warnQueenSequence, queenDrinksSequence, next, nextBody, Game.record]

/-- Outside the two special branches `nextTurn` only counts, flips the turn and either
schedules the enemy or hands the turn to the player. -/
theorem nextTurn_plain (nx : Game → Option Game) (g : Game) (h1 : g.turnCount < 25)
    (h2 : ¬ (g.turnCount = 7 ∧ g.warnedQueen = false ∧ g.queen.isDead = false)) :
    nextTurn nx g = some
      (if g.turn = Turn.PLAYER then
        { g with turnCount := g.turnCount + 1, turn := Turn.ENEMY,
                 enemyTimers := g.enemyTimers + 1 }
      else
        { g with turnCount := g.turnCount + 1, turn := Turn.PLAYER, playerDefending := false,
                 buttons := ⟨false, decide (g.turnCount + 1 < 3), false⟩ }) := by
  have h3 : ¬ (g.turnCount + 1 > 25) := by omega
  have h4 : ¬ (g.turnCount + 1 = 8 ∧ g.warnedQueen = false ∧ g.queen.isDead = false) := by
    intro h; exact h2 ⟨by omega, h.2⟩
  unfold nextTurn
  simp only []
  rw [if_neg h3, if_neg h4]
  cases ht : g.turn <;> simp [enableButtons]

/-- What every branch of `nextTurn` has in common. -/
theorem nextTurn_frame (d : Nat) (g : Game) :
    ∃ g1, nextTurn (next (d + 1)) g = some g1 ∧ g1.turnCount = g.turnCount + 1 ∧
      g1.turn = (if g.turn = Turn.PLAYER then Turn.ENEMY else Turn.PLAYER) ∧
      g1.player = g.player ∧ g1.opponent = g.opponent ∧ g1.king = g.king ∧
      g1.queen = g.queen ∧ g1.warnedQueen = g.warnedQueen ∧ g1.reloaded = g.reloaded := by
  by_cases h1 : 25 ≤ g.turnCount
  · exact ⟨_, nextTurn_delay d g h1, by simp⟩
  · by_cases h2 : g.turnCount = 7 ∧ g.warnedQueen = false ∧ g.queen.isDead = false
    · exact ⟨_, nextTurn_event d g h2.1 h2.2.1 h2.2.2, by simp [h2.1]⟩
    · refine ⟨_, nextTurn_plain _ g (by omega) h2, ?_⟩
      cases ht : g.turn <;> simp

/-- The state `triggerEnding('DEATH')` returns, field by field. -/
theorem triggerEnding_death (d : Nat) (g : Game) :
    triggerEnding (next (d + 1)) "DEATH" g = some
      { g with
        state := Phase.END
        actionMenuHidden := true
        dialogueBoxHidden := false
        nextBtnHidden := false
        isShowing := true
        queue := deathSequence.tail
        textElement := Display.line none "The rest is silence."
        trace := g.trace ++ [TraceItem.ending "DEATH",
          TraceItem.shown ⟨none, "The rest is silence.", none⟩] } := by
  simp [triggerEnding, endingSequence_death, deathSequence, next, nextBody, Game.record]

/-- The state `triggerEnding('CANONICAL')` returns, field by field: the first entry of the
canonical sequence is shown and its callback has marked the opponent dead. -/
theorem triggerEnding_canonical (d : Nat) (g : Game) :
    triggerEnding (next (d + 1)) "CANONICAL" g = some
      { g with
        state := Phase.END
        actionMenuHidden := true
        dialogueBoxHidden := false
        nextBtnHidden := false
        isShowing := true
        opponent := { g.opponent with isDead := true }
        queue := getCanonicalEnding.tail
        textElement := Display.line none "Laertes falls, wounded by your hand."
        trace := g.trace ++ [TraceItem.ending "CANONICAL",
          TraceItem.called Callback.opponentDies,
          TraceItem.shown
            ⟨none, "Laertes falls, wounded by your hand.", some Callback.opponentDies⟩] } := by
  simp [triggerEnding, endingSequence_canonical, getCanonicalEnding, next, nextBody,
    Game.record, runCallback]

/-- The state `triggerEvent('WARN_QUEEN')` returns, field by field. -/
theorem triggerEvent_warn (d : Nat) (g : Game) :
    triggerEvent (next (d + 1)) "WARN_QUEEN" g = some
      { g with
        actionMenuHidden := true
        dialogueBoxHidden := false
        nextBtnHidden := false
        isShowing := true
        queue := warnQueenSequence.tail
        textElement := Display.line (some "Hamlet") "Mother, do not drink!"
        trace := g.trace ++ [TraceItem.event "WARN_QUEEN",
          TraceItem.shown ⟨some "Hamlet", "Mother, do not drink!", none⟩] } := by
  simp [triggerEvent, eventSequence_warn, warnQueenSequence, next, nextBody, Game.record]

/-- With the player at 0 health the status check triggers the `DEATH` ending and the turn is
not advanced. -/
theorem checkAndAdvance_playerDown (d : Nat) (g : Game) (h : g.player.currentHealth ≤ 0) :
    checkAndAdvance (next (d + 1)) g = triggerEnding (next (d + 1)) "DEATH" g := by
  simp [checkAndAdvance, checkCombatStatus, h, triggerEnding_death]

/-- With the player standing and the opponent at 0 health the status check triggers the
`CANONICAL` ending and the turn is not advanced. -/
theorem checkAndAdvance_opponentDown (d : Nat) (g : Game) (hp : 0 < g.player.currentHealth)
    (h : g.opponent.currentHealth ≤ 0) :
    checkAndAdvance (next (d + 1)) g = triggerEnding (next (d + 1)) "CANONICAL" g := by
  have hp1 : ¬ g.player.currentHealth ≤ 0 := by omega
  simp [checkAndAdvance, checkCombatStatus, hp1, h, triggerEnding_canonical]

/-- With both fighters standing the status check passes and the turn is advanced. -/
theorem checkAndAdvance_standing (nx : Game → Option Game) (g : Game)
    (hp : 0 < g.player.currentHealth) (ho : 0 < g.opponent.currentHealth) :
    checkAndAdvance nx g = nextTurn nx g := by
  have hp1 : ¬ g.player.currentHealth ≤ 0 := by omega
  have ho1 : ¬ g.opponent.currentHealth ≤ 0 := by omega
  simp [checkAndAdvance, checkCombatStatus, hp1, ho1]

/-- The status check and the turn advance change no health value, and they advance the turn
exactly when both fighters stand. -/
theorem checkAndAdvance_frame (d : Nat) (g : Game) :
    ∃ g1, checkAndAdvance (next (d + 1)) g = some g1 ∧
      g1.player.currentHealth = g.player.currentHealth ∧
      g1.opponent.currentHealth = g.opponent.currentHealth ∧
      ((0 < g.player.currentHealth ∧ 0 < g.opponent.currentHealth) →
        g1.turnCount = g.turnCount + 1 ∧
        g1.turn = (if g.turn = Turn.PLAYER then Turn.ENEMY else Turn.PLAYER)) ∧
      (¬ (0 < g.player.currentHealth ∧ 0 < g.opponent.currentHealth) →
        g1.turnCount = g.turnCount ∧ g1.turn = g.turn ∧ g1.state = Phase.END) := by
  by_cases hp : g.player.currentHealth ≤ 0
  · rw [checkAndAdvance_playerDown d g hp, triggerEnding_death]
    refine ⟨_, rfl, rfl, rfl, ?_, ?_⟩
    · intro h; omega
    · intro _; simp
  · by_cases ho : g.opponent.currentHealth ≤ 0
    · rw [checkAndAdvance_opponentDown d g (by omega) ho, triggerEnding_canonical]
      refine ⟨_, rfl, rfl, rfl, ?_, ?_⟩
      · intro h; omega
      · intro _; simp
    · rw [checkAndAdvance_standing _ g (by omega) (by omega)]
      obtain ⟨g1, h1, hc, ht, hpl, hop, -⟩ := nextTurn_frame d g
      refine ⟨g1, h1, by rw [hpl], by rw [hop], ?_, ?_⟩
      · intro _; exact ⟨hc, ht⟩
      · intro h; exact absurd ⟨by omega, by omega⟩ h

/-- On an empty queue `next()` ends the dialogue. -/
theorem next_nil (d : Nat) (g : Game) (h : g.queue = []) :
    next (d + 1) g = some (endDialogue g) := by
  simp [next, nextBody, h]

/-- On an entry without callback `next()` takes it from the queue and shows it. -/
theorem next_cons_none (d : Nat) (g : Game) (e : Entry) (rest : List Entry)
    (h : g.queue = e :: rest) (hc : e.callback = none) :
    next (d + 1) g = some
      (Game.record
        { g with queue := rest, isShowing := true, dialogueBoxHidden := false,
                 nextBtnHidden := false,
                 textElement := Display.line (e.speaker.filter (fun s => s ≠ "")) e.text }
        (TraceItem.shown e)) := by
  simp [next, nextBody, h, hc]

/-- A click on the continue button with an entry without callback at the head of the
queue. -/
theorem step_advance_plain (g : Game) (e : Entry) (rest : List Entry)
    (h : g.queue = e :: rest) (hc : e.callback = none) :
    step g Input.advance = some
      (Game.record
        { g with queue := rest, isShowing := true, dialogueBoxHidden := false,
                 nextBtnHidden := false,
                 textElement := Display.line (e.speaker.filter (fun s => s ≠ "")) e.text }
        (TraceItem.shown e)) :=
  next_cons_none 1 g e rest h hc

/-- On an entry whose callback is `nextTurn`, `next()` advances the turn by one. -/
theorem next_turn_line (d : Nat) (g : Game) (e : Entry) (rest : List Entry)
    (hq : g.queue = e :: rest) (hc : e.callback = some Callback.nextTurn) :
    ∃ g1, next (d + 2) g = some g1 ∧ g1.turnCount = g.turnCount + 1 ∧
      g1.turn = (if g.turn = Turn.PLAYER then Turn.ENEMY else Turn.PLAYER) ∧
      g1.warnedQueen = g.warnedQueen := by
  obtain ⟨g2, h2, c2, t2, -, -, -, -, w2, -⟩ := nextTurn_frame d
    (Game.record
      { g with queue := rest, isShowing := true, dialogueBoxHidden := false,
               nextBtnHidden := false }
      (TraceItem.called Callback.nextTurn))
  refine ⟨Game.record
      { g2 with textElement := Display.line (e.speaker.filter (fun s => s ≠ "")) e.text }
      (TraceItem.shown e), ?_, ?_, ?_, ?_⟩
  · show nextBody (next (d + 1)) g = _
    simp only [nextBody, hq, hc, runCallback, h2, Option.map_some']
  · simpa [Game.record] using c2
  · simpa [Game.record] using t2
  · simpa [Game.record] using w2

/-- On the player's turn `playerAction('kill-king')` is the hesitation interlude. -/
theorem playerAction_killKing (nx : Game → Option Game) (draw : Draw) (g : Game)
    (hturn : g.turn = Turn.PLAYER) :
    playerAction nx "kill-king" draw g =
      triggerHesitation nx draw.sequence { disableButtons g with playerDefending := false } := by
  simp [playerAction, hturn]

/-- On the player's turn `playerAction('speak')` is `performSpeak`. -/
theorem playerAction_speak (nx : Game → Option Game) (draw : Draw) (g : Game)
    (hturn : g.turn = Turn.PLAYER) :
    playerAction nx "speak" draw g =
      performSpeak nx draw.line { disableButtons g with playerDefending := false } := by
  simp [playerAction, hturn]

/-! ## Every handler returns and is a sequence of straight-line pieces -/

/-- Totality of `triggerEnding`. -/
theorem triggerEnding_isSome (d : Nat) (type : String) (g : Game) :
    ∃ g1, triggerEnding (next (d + 1)) type g = some g1 := by
  unfold triggerEnding endingSequence
  split_ifs <;> simp [next, nextBody, getCanonicalEnding, getRedemptionEnding,
    getDelayedEnding, deathSequence, runCallback]

/-- Totality of `triggerEvent`. -/
theorem triggerEvent_isSome (d : Nat) (type : String) (g : Game) :
    ∃ g1, triggerEvent (next (d + 1)) type g = some g1 := by
  unfold triggerEvent eventSequence
  simp only []
  split_ifs <;> simp [next, nextBody, warnQueenSequence, queenDrinksSequence, runCallback]

/-- Totality of `nextTurn`. -/
theorem nextTurn_isSome (d : Nat) (g : Game) : ∃ g1, nextTurn (next (d + 1)) g = some g1 := by
  obtain ⟨g1, h, -⟩ := nextTurn_frame d g
  exact ⟨g1, h⟩

/-- Every callback returns. -/
theorem runCallback_isSome (d : Nat) (cb : Callback) (g : Game) :
    ∃ g1, runCallback (next (d + 1)) cb g = some g1 := by
  cases cb
  · exact nextTurn_isSome d g
  all_goals exact ⟨_, rfl⟩

theorem Reach.refl (g : Game) : Reach g g := Relation.ReflTransGen.refl

theorem Reach.trans {a b c : Game} (h1 : Reach a b) (h2 : Reach b c) : Reach a c :=
  Relation.ReflTransGen.trans h1 h2

theorem Reach.single {a b : Game} (h : Prim a b) : Reach a b :=
  Relation.ReflTransGen.single h

/-- The nested `next()` of `triggerEnding` never looks deeper than one activation. -/
theorem triggerEnding_depth (d : Nat) (type : String) (g : Game) :
    triggerEnding (next (d + 1)) type g = triggerEnding (next 1) type g := by
  unfold triggerEnding endingSequence
  split_ifs <;> simp [next, nextBody, getCanonicalEnding, getRedemptionEnding,
    getDelayedEnding, deathSequence, runCallback]

/-- The nested `next()` of `triggerEvent` never looks deeper than one activation. -/
theorem triggerEvent_depth (d : Nat) (type : String) (g : Game) :
    triggerEvent (next (d + 1)) type g = triggerEvent (next 1) type g := by
  unfold triggerEvent eventSequence
  simp only []
  split_ifs <;> simp [next, nextBody, warnQueenSequence, queenDrinksSequence, runCallback]

/-- The result of `nextTurn` does not depend on the depth left to the nested `next()`. -/
theorem nextTurn_depth (d : Nat) (g : Game) :
    nextTurn (next (d + 1)) g = nextTurn (next 1) g := by
  unfold nextTurn
  simp only [triggerEnding_depth d, triggerEvent_depth d]

/-- An entry whose callback is not `nextTurn` is handled without a nested `next()`. -/
theorem next_depth_of_basic (d : Nat) (g : Game) (e : Entry) (rest : List Entry)
    (hq : g.queue = e :: rest) (hc : e.callback ≠ some Callback.nextTurn) :
    next (d + 1) g = next 1 g := by
  cases hcb : e.callback with
  | none => simp [next, nextBody, hq, hcb]
  | some cb =>
    cases cb
    · exact absurd hcb hc
    all_goals simp [next, nextBody, hq, hcb, runCallback]

/-- Totality of `next()`: it returns, and what it does is a sequence of straight-line
pieces. -/
theorem next_reach (d : Nat) (g : Game) : ∃ g1, next (d + 2) g = some g1 ∧ Reach g g1 := by
  cases hq : g.queue with
  | nil => exact ⟨_, next_nil (d + 1) g hq, Reach.single (Prim.finish g hq)⟩
  | cons e rest =>
    by_cases hc : e.callback = some Callback.nextTurn
    · obtain ⟨g2, h2⟩ := nextTurn_isSome d
        (Game.record
          { g with queue := rest, isShowing := true, dialogueBoxHidden := false,
                   nextBtnHidden := false }
          (TraceItem.called Callback.nextTurn))
      refine ⟨_, ?_, (Reach.single (Prim.take g e rest hq hc)).trans
        ((Reach.single (Prim.turn _ g2 (by rw [← nextTurn_depth d]; exact h2))).trans
          (Reach.single (Prim.write g2 e)))⟩
      show nextBody (next (d + 1)) g = _
      simp [nextBody, hq, hc, runCallback, h2]
    · obtain ⟨g1, h1⟩ : ∃ g1, next 1 g = some g1 := by
        cases hcb : e.callback with
        | none => exact ⟨_, next_cons_none 0 g e rest hq hcb⟩
        | some cb =>
          cases cb
          · exact absurd hcb hc
          all_goals simp [next, nextBody, hq, hcb, runCallback]
      exact ⟨g1, by rw [next_depth_of_basic (d + 1) g e rest hq hc]; exact h1,
        Reach.single (Prim.advance g g1 e rest hq hc h1)⟩

/-- The status check with the turn advance returns and is a sequence of straight-line
pieces. -/
theorem checkAndAdvance_reach (d : Nat) (g : Game) :
    ∃ g1, checkAndAdvance (next (d + 1)) g = some g1 ∧ Reach g g1 := by
  by_cases hp : g.player.currentHealth ≤ 0
  · rw [checkAndAdvance_playerDown d g hp]
    obtain ⟨g1, h1⟩ := triggerEnding_isSome d "DEATH" g
    exact ⟨g1, h1, Reach.single (Prim.endDeath g g1 hp (by rw [← triggerEnding_depth d]; exact h1))⟩
  · by_cases ho : g.opponent.currentHealth ≤ 0
    · rw [checkAndAdvance_opponentDown d g (by omega) ho]
      obtain ⟨g1, h1⟩ := triggerEnding_isSome d "CANONICAL" g
      exact ⟨g1, h1, Reach.single
        (Prim.endCanonical g g1 (by omega) ho (by rw [← triggerEnding_depth d]; exact h1))⟩
    · rw [checkAndAdvance_standing _ g (by omega) (by omega)]
      obtain ⟨g1, h1⟩ := nextTurn_isSome d g
      exact ⟨g1, h1, Reach.single (Prim.turn g g1 (by rw [← nextTurn_depth d]; exact h1))⟩

/-- On the player's turn `performSpeak` returns and is a sequence of straight-line pieces. -/
theorem performSpeak_reach (d : Nat) (pick : Fin 8) (g : Game) (hturn : g.turn = Turn.PLAYER) :
    ∃ g1, performSpeak (next (d + 2)) pick g = some g1 ∧ Reach g g1 := by
  unfold performSpeak
  simp only []
  by_cases h1 : g.warnedQueen = true ∨ g.queen.isDead = true
  · rw [if_pos h1]
    obtain ⟨g1, e1, r1⟩ := next_reach d { g with queue := g.queue ++ [wantonLine] }
    exact ⟨g1, e1, (Reach.single (Prim.wanton g hturn h1)).trans r1⟩
  · rw [if_neg h1]
    by_cases h2 : g.turnCount ≥ 2 ∧ g.warnedQueen = false
    · rw [if_pos h2]
      exact ⟨_, rfl, Reach.single (Prim.offer g hturn h1 h2.1)⟩
    · rw [if_neg h2]
      have hw : g.warnedQueen = false := by
        cases hwq : g.warnedQueen
        · rfl
        · exact absurd (Or.inl hwq) h1
      have hlt : g.turnCount < 2 := by
        by_contra hge
        exact h2 ⟨by omega, hw⟩
      have hpush := Reach.single (Prim.flavor g pick hturn h1 hlt)
      obtain ⟨g1, e1, r1⟩ : ∃ g1, triggerCombatDialogue (next (d + 2)) pick g = some g1 ∧
          Reach g g1 := by
        unfold triggerCombatDialogue showDialogue
        simp only []
        by_cases hs : g.isShowing = false
        · rw [if_pos hs]
          obtain ⟨g1, e1, r1⟩ := next_reach d
            { g with queue := g.queue ++ [⟨some (combatLines pick).1, (combatLines pick).2, none⟩] }
          exact ⟨g1, e1, hpush.trans r1⟩
        · rw [if_neg hs]
          exact ⟨_, rfl, hpush⟩
      obtain ⟨g2, e2⟩ := nextTurn_isSome (d + 1) g1
      refine ⟨g2, by rw [e1]; exact e2, r1.trans (Reach.single (Prim.turn g1 g2 ?_))⟩
      rw [← nextTurn_depth (d + 1)]
      exact e2

/-- On the player's turn `triggerHesitation` returns and is a sequence of straight-line
pieces. -/
theorem triggerHesitation_reach (d : Nat) (pick : Fin 4) (g : Game)
    (hturn : g.turn = Turn.PLAYER) :
    ∃ g1, triggerHesitation (next (d + 2)) pick g = some g1 ∧ Reach g g1 := by
  obtain ⟨g1, e1, r1⟩ := next_reach d { g with queue := g.queue ++ hesitationLines pick }
  refine ⟨enableButtons g1, by simp [triggerHesitation, e1], ?_⟩
  exact (Reach.single (Prim.hesitate g pick hturn)).trans
    (r1.trans (Reach.single (Prim.enable g1)))

/-- Totality of `playerAction`: it returns and is a sequence of straight-line pieces. -/
theorem playerAction_reach (d : Nat) (action : String) (draw : Draw) (g : Game) :
    ∃ g1, playerAction (next (d + 2)) action draw g = some g1 ∧ Reach g g1 := by
  unfold playerAction
  by_cases hturn : g.turn ≠ Turn.PLAYER
  · rw [if_pos hturn]
    exact ⟨g, rfl, Reach.refl g⟩
  · rw [if_neg hturn]
    have ht : g.turn = Turn.PLAYER := by
      by_contra h
      exact hturn h
    have ht2 : ({ disableButtons g with playerDefending := false } : Game).turn =
        Turn.PLAYER := by
      simpa [disableButtons] using ht
    have ract := Reach.single (Prim.act g ht)
    simp only []
    split_ifs
    · obtain ⟨gm, em, rm⟩ := next_reach d
        (performAttack Role.player Role.opponent draw.roll
          { disableButtons g with playerDefending := false })
      obtain ⟨g1, e1, r1⟩ := checkAndAdvance_reach (d + 1) gm
      refine ⟨g1, ?_,
        ract.trans ((Reach.single (Prim.attack _ draw.roll ht2)).trans (rm.trans r1))⟩
      rw [em]
      exact e1
    · obtain ⟨g1, e1, r1⟩ := checkAndAdvance_reach (d + 1)
        (performDefend Role.player { disableButtons g with playerDefending := true })
      exact ⟨g1, e1, ract.trans ((Reach.single (Prim.defend _ ht2)).trans r1)⟩
    · obtain ⟨g1, e1, r1⟩ := performSpeak_reach d draw.line _ ht2
      exact ⟨g1, e1, ract.trans r1⟩
    · obtain ⟨g1, e1, r1⟩ := triggerHesitation_reach d draw.sequence _ ht2
      exact ⟨g1, e1, ract.trans r1⟩
    · obtain ⟨g1, e1, r1⟩ := checkAndAdvance_reach (d + 1)
        { disableButtons g with playerDefending := false }
      exact ⟨g1, e1, ract.trans r1⟩

/-- Totality of `enemyTurn`: it returns and is a sequence of straight-line pieces. -/
theorem enemyTurn_reach (d : Nat) (roll : Fin 10) (g : Game) :
    ∃ g1, enemyTurn (next (d + 2)) roll g = some g1 ∧ Reach g g1 := by
  obtain ⟨gm, em, rm⟩ := next_reach d (performAttack Role.opponent Role.player roll g)
  obtain ⟨g1, e1, r1⟩ := checkAndAdvance_reach (d + 1) gm
  refine ⟨g1, ?_, (Reach.single (Prim.enemyAttack g roll)).trans (rm.trans r1)⟩
  simp only [enemyTurn]
  rw [em]
  exact e1

/-- A click on a choice returns and is a sequence of straight-line pieces. -/
theorem selectChoice_reach (d : Nat) (index : Nat) (g : Game) :
    ∃ g1, selectChoice (next (d + 2)) index g = some g1 ∧ Reach g g1 := by
  unfold selectChoice
  cases hte : g.textElement with
  | choice options =>
    simp only []
    cases hopt : options.get? index with
    | none => exact ⟨g, rfl, Reach.refl g⟩
    | some option =>
      simp only []
      cases hcb : option.callback with
      | warnQueen =>
        obtain ⟨g1, e1⟩ := triggerEvent_isSome (d + 1) "WARN_QUEEN"
          { g with textElement := Display.empty, warnedQueen := true }
        refine ⟨g1, by simpa [runChoice] using e1, Reach.single
          (Prim.warn g g1 options index option hte hopt hcb ?_)⟩
        rw [← triggerEvent_depth (d + 1)]
        exact e1
      | tauntLaertes =>
        obtain ⟨g1, e1, r1⟩ := next_reach d
          { g with textElement := Display.empty, queue := g.queue ++ [dallyLine] }
        exact ⟨g1, by simpa [runChoice] using e1,
          (Reach.single (Prim.taunt g options index option hte hopt hcb)).trans r1⟩
      | playAgain =>
        exact ⟨_, by simp [runChoice],
          Reach.single (Prim.restart g options index option hte hopt hcb)⟩
  | _ => exact ⟨g, rfl, Reach.refl g⟩

/-- Totality of `startGame`: it returns, whatever the depth left to `next()`. -/
theorem startGame_depth (d : Nat) (g : Game) :
    ∃ g1, Game.startGame (next (d + 1)) g = some g1 ∧ Game.startGame (next 1) g = some g1 := by
  simp [Game.startGame, startIntro, next, nextBody, introSequence]

/-- Every input is handled to completion, by a sequence of straight-line pieces. -/
theorem step_reach (g : Game) (input : Input) : ∃ g1, step g input = some g1 ∧ Reach g g1 := by
  cases input with
  | start =>
    obtain ⟨g1, e1, e2⟩ := startGame_depth 1 g
    exact ⟨g1, e1, Reach.single (Prim.start g g1 e2)⟩
  | advance => exact next_reach 0 g
  | action name draw => exact playerAction_reach 0 name draw g
  | timer roll =>
    by_cases h : g.enemyTimers = 0
    · exact ⟨g, by simp [step, h], Reach.refl g⟩
    · obtain ⟨g1, e1, r1⟩ := enemyTurn_reach 0 roll { g with enemyTimers := g.enemyTimers - 1 }
      exact ⟨g1, by simpa [step, h] using e1, (Reach.single (Prim.timerFires g h)).trans r1⟩
  | select index => exact selectChoice_reach 0 index g

/-- Every sequence of inputs is handled to completion, by a sequence of straight-line
pieces. -/
theorem run_reach (inputs : List Input) (g : Game) :
    ∃ g1, run g inputs = some g1 ∧ Reach g g1 := by
  induction inputs generalizing g with
  | nil => exact ⟨g, rfl, Reach.refl g⟩
  | cons input rest ih =>
    obtain ⟨g1, e1, r1⟩ := step_reach g input
    obtain ⟨g2, e2, r2⟩ := ih g1
    exact ⟨g2, by simp [run, e1, e2], r1.trans r2⟩

/-- A property kept by every straight-line piece is kept along every reachability chain. -/
theorem Reach.invariant {P : Game → Prop} (hP : ∀ a b, Prim a b → P a → P b) {g g1 : Game}
    (h : Reach g g1) (hg : P g) : P g1 := by
  induction h with
  | refl => exact hg
  | tail _ hstep ih => exact hP _ _ hstep ih

/-! ## Invariants of the transition system -/

/-- No straight-line piece changes who is the player: `isPlayer` is set by the constructor
and never written again. -/
theorem prim_isPlayer (a b : Game) (h : Prim a b)
    (ha : a.player.isPlayer = true ∧ a.opponent.isPlayer = false) :
    b.player.isPlayer = true ∧ b.opponent.isPlayer = false := by
  cases h with
  | finish hq =>
    simp only [endDialogue]
    split_ifs <;> simpa [startCombat, updateButtons, enableButtons, showChoice] using ha
  | advance _ e rest hq hc hn =>
    cases hcb : e.callback with
    | none =>
      rw [next_cons_none 0 a e rest hq hcb] at hn
      cases hn
      simpa [Game.record] using ha
    | some cb =>
      cases cb
      · exact absurd hcb hc
      all_goals
        simp [next, nextBody, hq, hcb, runCallback] at hn
        subst hn
        simpa [Game.record, Game.triggerDrinkAnimation, Game.clearDrinkAnimation] using ha
  | take e rest hq hc => simpa [Game.record] using ha
  | write e => simpa [Game.record] using ha
  | turn _ hn =>
    obtain ⟨g1, h1, -, -, hp, ho, -⟩ := nextTurn_frame 0 a
    rw [hn] at h1
    cases h1
    rw [hp, ho]
    exact ha
  | endDeath _ hp hn =>
    rw [triggerEnding_death 0 a] at hn
    cases hn
    simpa using ha
  | endCanonical _ hp ho hn =>
    rw [triggerEnding_canonical 0 a] at hn
    cases hn
    simpa using ha
  | act ht => simpa [disableButtons] using ha
  | attack roll ht =>
    simpa [performAttack, Game.triggerAttackAnimation, Game.setChar, Game.char, Game.record,
      showSystemMessage, Character.takeDamage, apply_ite] using ha
  | defend ht =>
    simpa [performDefend, Game.triggerDefendAnimation, showSystemMessage] using ha
  | enemyAttack roll =>
    simpa [performAttack, Game.triggerAttackAnimation, Game.setChar, Game.char, Game.record,
      showSystemMessage, Character.takeDamage, apply_ite] using ha
  | timerFires ht => simpa using ha
  | wanton ht hw => simpa using ha
  | offer ht hw hc => simpa [showChoice] using ha
  | flavor pick ht hw hc => simpa using ha
  | hesitate pick ht => simpa using ha
  | enable => simpa [enableButtons] using ha
  | warn _ options index option hte hopt hcb hn =>
    rw [triggerEvent_warn 0] at hn
    cases hn
    simpa using ha
  | taunt options index option hte hopt hcb => simpa using ha
  | restart options index option hte hopt hcb => simpa using ha
  | start _ hn =>
    simp [Game.startGame, startIntro, next, nextBody, introSequence, Game.record] at hn
    subst hn
    simp [Character.new]

/-- In every state of a game the player is the player and the opponent is not. -/
theorem reach_isPlayer {g : Game} (h : Reach Game.new g) :
    g.player.isPlayer = true ∧ g.opponent.isPlayer = false :=
  Reach.invariant prim_isPlayer h ⟨rfl, rfl⟩

/-- No straight-line piece lowers the turn count, and the only one that starts the natural
poisoning is the turn advance from 7 to 8. -/
theorem prim_poisonings (a b : Game) (h : Prim a b) :
    a.turnCount ≤ b.turnCount ∧
    (naturalPoisonings b = naturalPoisonings a ∨
      (naturalPoisonings b = naturalPoisonings a + 1 ∧ a.turnCount = 7 ∧ b.turnCount = 8)) := by
  cases h with
  | finish hq =>
    simp only [endDialogue]
    split_ifs <;> simp [naturalPoisonings, startCombat, updateButtons, enableButtons, showChoice]
  | advance _ e rest hq hc hn =>
    cases hcb : e.callback with
    | none =>
      rw [next_cons_none 0 a e rest hq hcb] at hn
      cases hn
      simp [naturalPoisonings, Game.record]
    | some cb =>
      cases cb
      · exact absurd hcb hc
      all_goals
        simp [next, nextBody, hq, hcb, runCallback] at hn
        subst hn
        simp [naturalPoisonings, Game.record, Game.triggerDrinkAnimation,
          Game.clearDrinkAnimation]
  | take e rest hq hc => simp [naturalPoisonings, Game.record]
  | write e => simp [naturalPoisonings, Game.record]
  | turn _ hn =>
    by_cases h1 : 25 ≤ a.turnCount
    · rw [nextTurn_delay 0 a h1] at hn
      cases hn
      simp [naturalPoisonings]
    · by_cases h2 : a.turnCount = 7 ∧ a.warnedQueen = false ∧ a.queen.isDead = false
      · rw [nextTurn_event 0 a h2.1 h2.2.1 h2.2.2] at hn
        cases hn
        simp [naturalPoisonings, h2.1]
      · rw [nextTurn_plain _ a (by omega) h2] at hn
        cases hn
        split <;> simp [naturalPoisonings]
  | endDeath _ hp hn =>
    rw [triggerEnding_death 0 a] at hn
    cases hn
    simp [naturalPoisonings]
  | endCanonical _ hp ho hn =>
    rw [triggerEnding_canonical 0 a] at hn
    cases hn
    simp [naturalPoisonings]
  | act ht => simp [naturalPoisonings, disableButtons]
  | attack roll ht =>
    simp [naturalPoisonings, performAttack, Game.triggerAttackAnimation, Game.setChar,
      Game.record, showSystemMessage]
  | defend ht =>
    simp [naturalPoisonings, performDefend, Game.triggerDefendAnimation, showSystemMessage]
  | enemyAttack roll =>
    simp [naturalPoisonings, performAttack, Game.triggerAttackAnimation, Game.setChar,
      Game.record, showSystemMessage]
  | timerFires ht => simp [naturalPoisonings]
  | wanton ht hw => simp [naturalPoisonings]
  | offer ht hw hc => simp [naturalPoisonings, showChoice]
  | flavor pick ht hw hc => simp [naturalPoisonings]
  | hesitate pick ht => simp [naturalPoisonings]
  | enable => simp [naturalPoisonings, enableButtons]
  | warn _ options index option hte hopt hcb hn =>
    rw [triggerEvent_warn 0] at hn
    cases hn
    simp [naturalPoisonings]
  | taunt options index option hte hopt hcb => simp [naturalPoisonings]
  | restart options index option hte hopt hcb => simp [naturalPoisonings]
  | start _ hn =>
    simp [Game.startGame, startIntro, next, nextBody, introSequence, Game.record] at hn
    subst hn
    simp [naturalPoisonings]

/-- Along a reachability chain the turn count never drops and the natural poisoning is
started at most once, on the way from a turn count of at most 7 to one of at least 8. -/
theorem reach_poisonings {a b : Game} (h : Reach a b) :
    a.turnCount ≤ b.turnCount ∧
    (naturalPoisonings b = naturalPoisonings a ∨
      (naturalPoisonings b = naturalPoisonings a + 1 ∧ a.turnCount ≤ 7 ∧ 8 ≤ b.turnCount)) := by
  induction h with
  | refl => exact ⟨le_refl _, Or.inl rfl⟩
  | tail _ hstep ih =>
    obtain ⟨h1, h2⟩ := prim_poisonings _ _ hstep
    obtain ⟨ih1, ih2⟩ := ih
    refine ⟨by omega, ?_⟩
    rcases ih2 with ih2 | ih2 <;> rcases h2 with h2 | h2 <;> omega

/-! ## Scripted sequences played out -/

/-- Seven advances play out the rest of the canonical sequence: the king and the player are
marked dead, nothing else about the characters changes, and the queue ends empty on the
last entry. -/
theorem canonical_rest_plays_out (s : Game) (hq : s.queue = getCanonicalEnding.tail) :
    ∃ s1, run s (List.replicate 7 Input.advance) = some s1 ∧
      s1.player.isDead = true ∧ s1.king.isDead = true ∧
      s1.opponent.isDead = s.opponent.isDead ∧ s1.queue = [] ∧ s1.state = s.state ∧
      s1.textElement = Display.line none "The rest is silence." := by
  simp [run, step, depth, next, nextBody, hq, getCanonicalEnding, runCallback, Game.record]

/-- Seven advances play out the rest of the natural-poisoning sequence from turn count 8: the
queen is marked dead by the sixth entry and the last entry advances the turn to 9. -/
theorem poisoning_rest_plays_out (s : Game) (hq : s.queue = queenDrinksSequence.tail)
    (hc : s.turnCount = 8) :
    ∃ s1, run s (List.replicate 7 Input.advance) = some s1 ∧
      s1.queen.isDead = true ∧ s1.queue = [] ∧ s1.turnCount = 9 ∧
      s1.turn = (if s.turn = Turn.PLAYER then Turn.ENEMY else Turn.PLAYER) ∧
      s1.trace = s.trace ++ [
        TraceItem.called Callback.queenLiftsCup,
        TraceItem.shown ⟨none, "She lifts the cup to her lips...", some Callback.queenLiftsCup⟩,
        TraceItem.shown ⟨some "King Claudius", "Gertrude, do not drink!", none⟩,
        TraceItem.shown ⟨some "Queen Gertrude", "I will, my lord; I pray you, pardon me.", none⟩,
        TraceItem.shown ⟨some "Queen Gertrude", "The drink, the drink! I am poison'd.", none⟩,
        TraceItem.called Callback.queenDies,
        TraceItem.shown ⟨none, "She drinks. The poison works instantly.", some Callback.queenDies⟩,
        TraceItem.shown ⟨none, "Queen Gertrude has died.", none⟩,
        TraceItem.called Callback.nextTurn,
        TraceItem.shown ⟨none, "Laertes prepares to strike while you are distracted...",
          some Callback.nextTurn⟩] := by
  cases ht : s.turn <;>
    simp [run, step, depth, next, nextBody, hq, hc, ht, queenDrinksSequence, runCallback,
      Game.record, nextTurn, Game.triggerDrinkAnimation, Game.clearDrinkAnimation,
      enableButtons]

/-- On a queue without `nextTurn` callbacks `next()` leaves the turn count alone, and on a
non-empty such queue it only takes the first entry. -/
theorem next_noTurnCallback (d : Nat) (g : Game) (h : noTurnCallback g.queue) :
    ∃ g1, next (d + 1) g = some g1 ∧ g1.turnCount = g.turnCount ∧
      noTurnCallback g1.queue ∧
      (g.queue ≠ [] → g1.turn = g.turn ∧ g1.queue = g.queue.tail) := by
  cases hq : g.queue with
  | nil =>
    refine ⟨_, next_nil d g hq, ?_, ?_, fun hne => absurd rfl hne⟩
    · simp only [endDialogue]
      split_ifs <;> simp [startCombat, updateButtons, enableButtons, showChoice]
    · have : (endDialogue g).queue = g.queue := by
        simp only [endDialogue]
        split_ifs <;> simp [startCombat, updateButtons, enableButtons, showChoice]
      rw [this]
      exact h
  | cons e rest =>
    have he : e.callback ≠ some Callback.nextTurn := h e (by rw [hq]; exact List.mem_cons_self _ _)
    have hrest : noTurnCallback rest := by
      intro x hx
      exact h x (by rw [hq]; exact List.mem_cons_of_mem _ hx)
    cases hcb : e.callback with
    | none =>
      refine ⟨_, next_cons_none d g e rest hq hcb, rfl, hrest, fun _ => ⟨rfl, rfl⟩⟩
    | some cb =>
      cases cb
      · exact absurd hcb he
      all_goals
        refine ⟨_, by simp [next, nextBody, hq, hcb, runCallback]; rfl, ?_, ?_, fun _ => ⟨?_, ?_⟩⟩ <;>
          simp [Game.record, Game.triggerDrinkAnimation, Game.clearDrinkAnimation, hrest]

/-- Any number of advances over a queue without `nextTurn` callbacks leaves the turn count
alone. -/
theorem advances_noTurnCallback (n : Nat) (g : Game) (h : noTurnCallback g.queue) :
    ∃ g1, run g (List.replicate n Input.advance) = some g1 ∧ g1.turnCount = g.turnCount ∧
      noTurnCallback g1.queue := by
  induction n generalizing g with
  | zero => exact ⟨g, rfl, rfl, h⟩
  | succ n ih =>
    obtain ⟨g1, e1, c1, q1, -⟩ := next_noTurnCallback 1 g h
    obtain ⟨g2, e2, c2, q2⟩ := ih g1 q1
    refine ⟨g2, ?_, by rw [c2, c1], q2⟩
    simp [List.replicate_succ, run, step, depth, e1, e2]

/-- The hesitation lines carry no callback. -/
theorem hesitationLines_noTurnCallback (pick : Fin 4) :
    noTurnCallback (hesitationLines pick) := by
  intro e he
  simp [hesitationLines] at he
  rcases he with he | he <;> simp [he]

/-- The hesitation interlude never changes the turn count or the turn, and neither does
clicking through the lines it queued. -/
theorem killKing_keeps_turn (d : Nat) (g : Game) (draw : Draw) (hturn : g.turn = Turn.PLAYER)
    (hq : noTurnCallback g.queue) :
    ∃ g1, playerAction (next (d + 1)) "kill-king" draw g = some g1 ∧
      g1.turnCount = g.turnCount ∧ g1.turn = Turn.PLAYER ∧
      ∀ n, ∃ g2, run g1 (List.replicate n Input.advance) = some g2 ∧
        g2.turnCount = g.turnCount := by
  have hq2 : noTurnCallback
      ({ disableButtons g with
          playerDefending := false
          queue := g.queue ++ hesitationLines draw.sequence } : Game).queue := by
    intro e he
    simp only [disableButtons, List.mem_append] at he
    rcases he with he | he
    · exact hq e he
    · exact hesitationLines_noTurnCallback draw.sequence e he
  obtain ⟨g1, e1, c1, q1, t1⟩ := next_noTurnCallback d _ hq2
  have hne : ({ disableButtons g with
      playerDefending := false
      queue := g.queue ++ hesitationLines draw.sequence } : Game).queue ≠ [] := by
    simp [hesitationLines]
  refine ⟨enableButtons g1, ?_, ?_, ?_, ?_⟩
  · rw [playerAction_killKing _ _ _ hturn]
    simp only [triggerHesitation]
    rw [show ({ disableButtons g with playerDefending := false } : Game).queue = g.queue from rfl]
    exact (congrArg (Option.map enableButtons) e1)
  · simpa [enableButtons, disableButtons] using c1
  · have := (t1 hne).1
    simpa [enableButtons, disableButtons, hturn] using this
  · intro n
    obtain ⟨g2, e2, c2, -⟩ := advances_noTurnCallback n (enableButtons g1)
      (by simpa [enableButtons] using q1)
    refine ⟨g2, e2, ?_⟩
    rw [c2]
    simpa [enableButtons, disableButtons] using c1

/-- With the queen alive and not warned, from turn count 2 on, `speak` only puts the
warn/taunt choice on display. -/
theorem speak_offers_choice (nx : Game → Option Game) (g : Game) (draw : Draw)
    (hturn : g.turn = Turn.PLAYER) (hw : g.warnedQueen = false) (hd : g.queen.isDead = false)
    (hc : 2 ≤ g.turnCount) :
    playerAction nx "speak" draw g =
      some (showChoice speakOptions { disableButtons g with playerDefending := false }) := by
  rw [playerAction_speak _ _ _ hturn]
  simp [performSpeak, disableButtons, hw, hd, hc]

/-- With the queen dead or warned and an empty queue, `speak` shows the taunt line at once
and its callback advances the turn. -/
theorem speak_taunts (d : Nat) (g : Game) (draw : Draw) (hturn : g.turn = Turn.PLAYER)
    (hwd : g.warnedQueen = true ∨ g.queen.isDead = true) (hq : g.queue = []) :
    ∃ g1, playerAction (next (d + 2)) "speak" draw g = some g1 ∧
      g1.turnCount = g.turnCount + 1 ∧ g1.turn = Turn.ENEMY := by
  obtain ⟨g1, e1, c1, t1, -⟩ := next_turn_line d
    ({ disableButtons g with
        playerDefending := false
        queue := [wantonLine] } : Game) wantonLine [] rfl rfl
  refine ⟨g1, ?_, by simpa [disableButtons] using c1, by simpa [disableButtons, hturn] using t1⟩
  rw [playerAction_speak _ _ _ hturn]
  simp only [performSpeak]
  rw [if_pos (by simpa [disableButtons] using hwd)]
  simpa [disableButtons, hq] using e1

/-- Before turn count 2, with the queen alive and not warned, `speak` queues a flavour line
and calls `nextTurn` itself. -/
theorem speak_default_advances (d : Nat) (g : Game) (draw : Draw) (hturn : g.turn = Turn.PLAYER)
    (hq : noTurnCallback g.queue) (hw : g.warnedQueen = false) (hd : g.queen.isDead = false)
    (hc : g.turnCount < 2) :
    ∃ g1, playerAction (next (d + 2)) "speak" draw g = some g1 ∧
      g1.turnCount = g.turnCount + 1 ∧ g1.turn = Turn.ENEMY := by
  have hq2 : noTurnCallback
      ({ disableButtons g with
          playerDefending := false
          queue := g.queue ++ [⟨some (combatLines draw.line).1, (combatLines draw.line).2,
            none⟩] } : Game).queue := by
    intro e he
    simp only [List.mem_append, List.mem_singleton] at he
    rcases he with he | he
    · exact hq e he
    · simp [he]
  have hne : ({ disableButtons g with
      playerDefending := false
      queue := g.queue ++ [⟨some (combatLines draw.line).1, (combatLines draw.line).2,
        none⟩] } : Game).queue ≠ [] := by
    simp
  obtain ⟨g1, e1, c1, t1⟩ : ∃ g1, triggerCombatDialogue (next (d + 2)) draw.line
      { disableButtons g with playerDefending := false } = some g1 ∧
      g1.turnCount = g.turnCount ∧ g1.turn = Turn.PLAYER := by
    unfold triggerCombatDialogue showDialogue
    simp only []
    by_cases hs : g.isShowing = false
    · obtain ⟨g1, e1, c1, -, t1⟩ := next_noTurnCallback (d + 1) _ hq2
      refine ⟨g1, ?_, by simpa [disableButtons] using c1,
        by simpa [disableButtons, hturn] using (t1 hne).1⟩
      rw [if_pos (by simpa [disableButtons] using hs)]
      exact e1
    · refine ⟨{ disableButtons g with
          playerDefending := false
          queue := g.queue ++ [⟨some (combatLines draw.line).1, (combatLines draw.line).2,
            none⟩] }, ?_, rfl, hturn⟩
      rw [if_neg (by simpa [disableButtons] using hs)]
      rfl
  obtain ⟨g2, e2, c2, t2, -⟩ := nextTurn_frame (d + 1) g1
  refine ⟨g2, ?_, by rw [c2, c1], by rw [t2, t1]; rfl⟩
  rw [playerAction_speak _ _ _ hturn]
  simp only [performSpeak]
  have h1 : ¬ (({ disableButtons g with playerDefending := false } : Game).warnedQueen = true ∨
      ({ disableButtons g with playerDefending := false } : Game).queen.isDead = true) := by
    simp [disableButtons, hw, hd]
  have h2 : ¬ (({ disableButtons g with playerDefending := false } : Game).turnCount ≥ 2 ∧
      ({ disableButtons g with playerDefending := false } : Game).warnedQueen = false) := by
    simp [disableButtons]
    omega
  rw [if_neg h1, if_neg h2, e1]
  exact e2

/-- With the warn/taunt choice on display and an empty queue, the taunt option shows its
line at once and the callback of the line advances the turn. -/
theorem taunt_choice_advances (d : Nat) (g : Game) (hte : g.textElement = Display.choice speakOptions)
    (hq : g.queue = []) :
    ∃ g1, selectChoice (next (d + 2)) 1 g = some g1 ∧ g1.turnCount = g.turnCount + 1 ∧
      g1.turn = (if g.turn = Turn.PLAYER then Turn.ENEMY else Turn.PLAYER) := by
  obtain ⟨g1, e1, c1, t1, -⟩ := next_turn_line d
    ({ g with
        textElement := Display.empty
        queue := [dallyLine] } : Game) dallyLine [] rfl rfl
  refine ⟨g1, ?_, c1, t1⟩
  simpa [selectChoice, hte, speakOptions, runChoice, hq] using e1

/-- With the warn/taunt choice on display, the warn option sets `warnedQueen` and starts the
`WARN_QUEEN` event, whose last line, two advances later, advances the turn. -/
theorem warn_choice_advances (g : Game) (hte : g.textElement = Display.choice speakOptions) :
    ∃ g1, run g [Input.select 0, Input.advance, Input.advance] = some g1 ∧
      g1.warnedQueen = true ∧ g1.turnCount = g.turnCount + 1 ∧
      g1.turn = (if g.turn = Turn.PLAYER then Turn.ENEMY else Turn.PLAYER) := by
  have e0 : step g (Input.select 0) = some
      { g with
        textElement := Display.line (some "Hamlet") "Mother, do not drink!"
        warnedQueen := true
        actionMenuHidden := true
        dialogueBoxHidden := false
        nextBtnHidden := false
        isShowing := true
        queue := warnQueenSequence.tail
        trace := g.trace ++ [TraceItem.event "WARN_QUEEN",
          TraceItem.shown ⟨some "Hamlet", "Mother, do not drink!", none⟩] } := by
    simp [step, depth, selectChoice, hte, speakOptions, runChoice, triggerEvent_warn]
  obtain ⟨g2, e2, c2, t2, w2⟩ := next_turn_line 0
    ({ g with
        textElement := Display.line none
          "Gertrude lowers the cup. She waits, watching the duel with concern."
        warnedQueen := true
        actionMenuHidden := true
        dialogueBoxHidden := false
        nextBtnHidden := false
        isShowing := true
        queue := warnQueenSequence.tail.tail
        trace := g.trace ++ [TraceItem.event "WARN_QUEEN",
          TraceItem.shown ⟨some "Hamlet", "Mother, do not drink!", none⟩,
          TraceItem.shown ⟨none,
            "Gertrude lowers the cup. She waits, watching the duel with concern.", none⟩] } : Game)
    ⟨none, "Laertes prepares to strike while you are distracted...", some Callback.nextTurn⟩ []
    rfl rfl
  refine ⟨g2, ?_, w2, c2, t2⟩
  simp only [run, e0, Option.bind_some, Option.some_bind]
  rw [step_advance_plain _ ⟨none,
    "Gertrude lowers the cup. She waits, watching the duel with concern.", none⟩
    [⟨none, "Laertes prepares to strike while you are distracted...", some Callback.nextTurn⟩]
    rfl rfl]
  simp only [Option.bind_some, Option.some_bind]
  simpa [step, depth, Game.record, warnQueenSequence] using e2

/-! ## The continue click inside an attack, and the standing player -/

/-- What `next()` leaves alone and what it does to the turn. It never writes a health
value. When the first queued entry, if there is one, does not call `nextTurn`, the
turn count is unchanged and so is the turn (outside the intro, where the end of the queue
starts the combat with the turn at the player). When the first entry calls `nextTurn`, the
turn count is raised by one and the turn is flipped. -/
theorem next_frame (d : Nat) (g : Game) :
    ∃ g1, next (d + 2) g = some g1 ∧
      g1.player.currentHealth = g.player.currentHealth ∧
      g1.opponent.currentHealth = g.opponent.currentHealth ∧
      ((∀ e, g.queue.head? = some e → e.callback ≠ some Callback.nextTurn) →
        g1.turnCount = g.turnCount ∧ (g.state ≠ Phase.DIALOGUE → g1.turn = g.turn) ∧
        (g.turn = Turn.PLAYER → g1.turn = Turn.PLAYER) ∧
        g1.playerDefending = g.playerDefending) ∧
      ((∃ e, g.queue.head? = some e ∧ e.callback = some Callback.nextTurn) →
        g1.turnCount = g.turnCount + 1 ∧
        g1.turn = (if g.turn = Turn.PLAYER then Turn.ENEMY else Turn.PLAYER)) := by
  cases hq : g.queue with
  | nil =>
    refine ⟨_, next_nil (d + 1) g hq, ?_, ?_, ?_, ?_⟩
    · simp only [endDialogue]
      split_ifs <;> simp [startCombat, updateButtons, enableButtons, showChoice]
    · simp only [endDialogue]
      split_ifs <;> simp [startCombat, updateButtons, enableButtons, showChoice]
    · intro _
      simp only [endDialogue]
      split_ifs with h1 h2 h3 <;>
        simp_all [startCombat, updateButtons, enableButtons, showChoice]
    · rintro ⟨e, he, -⟩
      simp at he
  | cons e rest =>
    by_cases hc : e.callback = some Callback.nextTurn
    · obtain ⟨g2, h2, c2, t2, p2, o2, -⟩ := nextTurn_frame d
        (Game.record
          { g with queue := rest, isShowing := true, dialogueBoxHidden := false,
                   nextBtnHidden := false }
          (TraceItem.called Callback.nextTurn))
      refine ⟨Game.record
          { g2 with textElement := Display.line (e.speaker.filter (fun s => s ≠ "")) e.text }
          (TraceItem.shown e), ?_, ?_, ?_, ?_, ?_⟩
      · show nextBody (next (d + 1)) g = _
        simp only [nextBody, hq, hc, runCallback, h2, Option.map_some']
      · simp [Game.record, p2]
      · simp [Game.record, o2]
      · intro h
        exact absurd hc (h e (by simp))
      · intro _
        exact ⟨by simpa [Game.record] using c2, by simpa [Game.record] using t2⟩
    · obtain ⟨g1, e1, h1⟩ : ∃ g1, next (d + 2) g = some g1 ∧
          g1.player.currentHealth = g.player.currentHealth ∧
          g1.opponent.currentHealth = g.opponent.currentHealth ∧
          g1.turnCount = g.turnCount ∧ g1.turn = g.turn ∧
          g1.playerDefending = g.playerDefending := by
        cases hcb : e.callback with
        | none => exact ⟨_, next_cons_none (d + 1) g e rest hq hcb, rfl, rfl, rfl, rfl, rfl⟩
        | some cb =>
          cases cb
          · exact absurd hcb hc
          all_goals
            refine ⟨_, by simp [next, nextBody, hq, hcb, runCallback]; rfl, ?_⟩
            simp [Game.record, Game.triggerDrinkAnimation, Game.clearDrinkAnimation]
      obtain ⟨p1, o1, c1, t1, d1⟩ := h1
      refine ⟨g1, e1, p1, o1, ?_, ?_⟩
      · intro _
        exact ⟨c1, fun _ => t1, fun ht => by rw [t1, ht], d1⟩
      · rintro ⟨e2, he2, hc2⟩
        simp at he2
        subst he2
        exact absurd hc2 hc

/-- Every straight-line piece only appends to the history. -/
theorem prim_trace (a b : Game) (h : Prim a b) : a.trace <+: b.trace := by
  cases h with
  | finish hq =>
    simp only [endDialogue]
    split_ifs <;> simp [startCombat, updateButtons, enableButtons, showChoice]
  | advance _ e rest hq hc hn =>
    cases hcb : e.callback with
    | none =>
      rw [next_cons_none 0 a e rest hq hcb] at hn
      cases hn
      simp [Game.record]
    | some cb =>
      cases cb
      · exact absurd hcb hc
      all_goals
        simp [next, nextBody, hq, hcb, runCallback] at hn
        subst hn
        simp [Game.record, Game.triggerDrinkAnimation, Game.clearDrinkAnimation]
  | take e rest hq hc => simp [Game.record]
  | write e => simp [Game.record]
  | turn _ hn =>
    by_cases h1 : 25 ≤ a.turnCount
    · rw [nextTurn_delay 0 a h1] at hn
      cases hn
      simp
    · by_cases h2 : a.turnCount = 7 ∧ a.warnedQueen = false ∧ a.queen.isDead = false
      · rw [nextTurn_event 0 a h2.1 h2.2.1 h2.2.2] at hn
        cases hn
        simp
      · rw [nextTurn_plain _ a (by omega) h2] at hn
        cases hn
        split <;> simp
  | endDeath _ hp hn =>
    rw [triggerEnding_death 0 a] at hn
    cases hn
    simp
  | endCanonical _ hp ho hn =>
    rw [triggerEnding_canonical 0 a] at hn
    cases hn
    simp
  | act ht => simp [disableButtons]
  | attack roll ht =>
    simp [performAttack, Game.triggerAttackAnimation, Game.setChar, Game.record,
      showSystemMessage]
  | defend ht =>
    simp [performDefend, Game.triggerDefendAnimation, showSystemMessage]
  | enemyAttack roll =>
    simp [performAttack, Game.triggerAttackAnimation, Game.setChar, Game.record,
      showSystemMessage]
  | timerFires ht => simp
  | wanton ht hw => simp
  | offer ht hw hc => simp [showChoice]
  | flavor pick ht hw hc => simp
  | hesitate pick ht => simp
  | enable => simp [enableButtons]
  | warn _ options index option hte hopt hcb hn =>
    rw [triggerEvent_warn 0] at hn
    cases hn
    simp
  | taunt options index option hte hopt hcb => simp
  | restart options index option hte hopt hcb => simp
  | start _ hn =>
    simp [Game.startGame, startIntro, next, nextBody, introSequence, Game.record] at hn
    subst hn
    simp

/-- Along a reachability chain the history only grows at its end. -/
theorem reach_trace {a b : Game} (h : Reach a b) : a.trace <+: b.trace := by
  induction h with
  | refl => exact List.prefix_refl _
  | tail _ hstep ih => exact ih.trans (prim_trace _ _ hstep)

/-- The turn advance keeps `playerStands`: it writes no health value and never leaves the
phase `END`. -/
theorem nextTurn_stands (d : Nat) (g : Game) (h : playerStands g) :
    ∃ g1, nextTurn (next (d + 1)) g = some g1 ∧ playerStands g1 := by
  by_cases h1 : 25 ≤ g.turnCount
  · exact ⟨_, nextTurn_delay d g h1, Or.inl rfl⟩
  · by_cases h2 : g.turnCount = 7 ∧ g.warnedQueen = false ∧ g.queen.isDead = false
    · exact ⟨_, nextTurn_event d g h2.1 h2.2.1 h2.2.2, by simpa [playerStands] using h⟩
    · refine ⟨_, nextTurn_plain _ g (by omega) h2, ?_⟩
      split <;> simpa [playerStands, enableButtons] using h

/-- A call of `next()` keeps `playerStands`. -/
theorem next_stands (d : Nat) (g : Game) (h : playerStands g) :
    ∃ g1, next (d + 2) g = some g1 ∧ playerStands g1 := by
  cases hq : g.queue with
  | nil =>
    refine ⟨_, next_nil (d + 1) g hq, ?_⟩
    simp only [endDialogue]
    split_ifs with h1 h2 h3
    · rcases h with h | h
      · simp at h1
        rw [h] at h1
        cases h1
      · exact Or.inr (by simpa [startCombat, updateButtons, enableButtons] using h)
    · simpa [playerStands] using h
    · simpa [playerStands, showChoice] using h
    · simpa [playerStands] using h
  | cons e rest =>
    cases hcb : e.callback with
    | none =>
      refine ⟨_, next_cons_none (d + 1) g e rest hq hcb, ?_⟩
      simpa [playerStands, Game.record] using h
    | some cb =>
      cases cb
      · obtain ⟨g2, h2, p2⟩ := nextTurn_stands d
          (Game.record
            { g with queue := rest, isShowing := true, dialogueBoxHidden := false,
                     nextBtnHidden := false }
            (TraceItem.called Callback.nextTurn))
          (by simpa [playerStands, Game.record] using h)
        refine ⟨Game.record
          { g2 with textElement := Display.line (e.speaker.filter (fun s => s ≠ "")) e.text }
          (TraceItem.shown e), ?_, by simpa [playerStands, Game.record] using p2⟩
        show nextBody (next (d + 1)) g = _
        simp only [nextBody, hq, hcb, runCallback, h2, Option.map_some']
      all_goals
        refine ⟨_, by simp [next, nextBody, hq, hcb, runCallback]; rfl, ?_⟩
        simpa [playerStands, Game.record, Game.triggerDrinkAnimation,
          Game.clearDrinkAnimation] using h

/-- After the status check the game is over or the player has health left, whatever the
state before: with the player at 0 the `DEATH` ending is triggered. -/
theorem checkAndAdvance_stands (d : Nat) (g : Game) :
    ∃ g1, checkAndAdvance (next (d + 1)) g = some g1 ∧ playerStands g1 := by
  obtain ⟨g1, h1, hp, -, -, hb⟩ := checkAndAdvance_frame d g
  refine ⟨g1, h1, ?_⟩
  by_cases hs : 0 < g.player.currentHealth ∧ 0 < g.opponent.currentHealth
  · exact Or.inr (by rw [hp]; exact hs.1)
  · exact Or.inl (hb hs).2.2

/-- The handler `playerAction` keeps `playerStands`. -/
theorem playerAction_stands (d : Nat) (action : String) (draw : Draw) (g : Game)
    (h : playerStands g) :
    ∃ g1, playerAction (next (d + 2)) action draw g = some g1 ∧ playerStands g1 := by
  unfold playerAction
  by_cases hturn : g.turn ≠ Turn.PLAYER
  · rw [if_pos hturn]
    exact ⟨g, rfl, h⟩
  · rw [if_neg hturn]
    have h2 : playerStands { disableButtons g with playerDefending := false } := by
      simpa [playerStands, disableButtons] using h
    simp only []
    split_ifs
    · obtain ⟨gm, em, -⟩ := next_reach d
        (performAttack Role.player Role.opponent draw.roll
          { disableButtons g with playerDefending := false })
      obtain ⟨g1, e1, p1⟩ := checkAndAdvance_stands (d + 1) gm
      exact ⟨g1, by rw [em]; exact e1, p1⟩
    · exact checkAndAdvance_stands (d + 1) _
    · unfold performSpeak
      simp only []
      split_ifs
      · exact next_stands d _ (by simpa [playerStands, disableButtons] using h)
      · exact ⟨_, rfl, by simpa [playerStands, showChoice, disableButtons] using h⟩
      · obtain ⟨g1, e1, p1⟩ : ∃ g1, triggerCombatDialogue (next (d + 2)) draw.line
            { disableButtons g with playerDefending := false } = some g1 ∧
            playerStands g1 := by
          unfold triggerCombatDialogue showDialogue
          simp only []
          split_ifs
          · exact next_stands d _ (by simpa [playerStands, disableButtons] using h)
          · exact ⟨_, rfl, by simpa [playerStands, disableButtons] using h⟩
        obtain ⟨g2, e2, p2⟩ := nextTurn_stands (d + 1) g1 p1
        exact ⟨g2, by rw [e1]; exact e2, p2⟩
    · obtain ⟨g1, e1, p1⟩ := next_stands d
        { ({ disableButtons g with playerDefending := false } : Game) with
          queue := ({ disableButtons g with playerDefending := false } : Game).queue ++
            hesitationLines draw.sequence }
        (by simpa [playerStands, disableButtons] using h)
      exact ⟨enableButtons g1, by simp [triggerHesitation, e1],
        by simpa [playerStands, enableButtons] using p1⟩
    · exact checkAndAdvance_stands (d + 1) _

/-- After `enemyTurn` the game is over or the player has health left. -/
theorem enemyTurn_stands (d : Nat) (roll : Fin 10) (g : Game) :
    ∃ g1, enemyTurn (next (d + 2)) roll g = some g1 ∧ playerStands g1 := by
  obtain ⟨gm, em, -⟩ := next_reach d (performAttack Role.opponent Role.player roll g)
  obtain ⟨g1, e1, p1⟩ := checkAndAdvance_stands (d + 1) gm
  refine ⟨g1, ?_, p1⟩
  simp only [enemyTurn]
  rw [em]
  exact e1

/-- A click on a choice keeps `playerStands`. -/
theorem selectChoice_stands (d : Nat) (index : Nat) (g : Game) (h : playerStands g) :
    ∃ g1, selectChoice (next (d + 2)) index g = some g1 ∧ playerStands g1 := by
  unfold selectChoice
  cases hte : g.textElement with
  | choice options =>
    simp only []
    cases hopt : options.get? index with
    | none => exact ⟨g, rfl, h⟩
    | some option =>
      simp only []
      cases hcb : option.callback with
      | warnQueen =>
        refine ⟨_, by simp only [runChoice]; exact triggerEvent_warn (d + 1) _, ?_⟩
        simpa [playerStands] using h
      | tauntLaertes =>
        obtain ⟨g1, e1, p1⟩ := next_stands d
          { g with textElement := Display.empty, queue := g.queue ++ [dallyLine] }
          (by simpa [playerStands] using h)
        exact ⟨g1, by simpa [runChoice] using e1, p1⟩
      | playAgain =>
        exact ⟨_, by simp [runChoice]; rfl, by simpa [playerStands] using h⟩
  | _ => exact ⟨g, rfl, h⟩

/-- The start button creates a player at full health, whatever the state before. -/
theorem start_stands (g : Game) : ∃ g1, step g Input.start = some g1 ∧ playerStands g1 := by
  refine ⟨_, by
    simp [step, depth, Game.startGame, startIntro, next, nextBody, introSequence]
    rfl, ?_⟩
  exact Or.inr (by simp [Game.record, Character.new])

/-- Every input keeps `playerStands`. -/
theorem step_stands (g : Game) (input : Input) (h : playerStands g) :
    ∃ g1, step g input = some g1 ∧ playerStands g1 := by
  cases input with
  | start => exact start_stands g
  | advance => exact next_stands 0 g h
  | action name draw => exact playerAction_stands 0 name draw g h
  | timer roll =>
    simp only [step]
    split_ifs
    · exact ⟨g, rfl, h⟩
    · exact enemyTurn_stands 0 roll _
  | select index => exact selectChoice_stands 0 index g h

/-- Any sequence of inputs keeps `playerStands`. -/
theorem run_stands (inputs : List Input) (g : Game) (h : playerStands g) :
    ∃ g1, run g inputs = some g1 ∧ playerStands g1 := by
  induction inputs generalizing g with
  | nil => exact ⟨g, rfl, h⟩
  | cons input rest ih =>
    obtain ⟨g1, e1, p1⟩ := step_stands g input h
    obtain ⟨g2, e2, p2⟩ := ih g1 p1
    exact ⟨g2, by simp [run, e1, e2], p2⟩

/-- In every state of a game, that is after the start button and any sequence of inputs, the
game is over or the player has health left: the player's health reaches 0 only in
`enemyTurn`, whose status check then ends the game. -/
theorem game_stands (inputs : List Input) (g : Game)
    (h : inputs.head? = some Input.start) :
    ∃ g1, run g inputs = some g1 ∧ playerStands g1 := by
  cases inputs with
  | nil => simp at h
  | cons input rest =>
    simp only [List.head?_cons, Option.some.injEq] at h
    subst h
    obtain ⟨g1, e1, p1⟩ := start_stands g
    obtain ⟨g2, e2, p2⟩ := run_stands rest g1 p1
    exact ⟨g2, by simp [run, e1, e2], p2⟩

/-- The characters of the state handed to `startGame()` are not read: the method assigns
the four fields before anything else uses them. -/
theorem startGame_ignores_characters (nx : Game → Option Game) (g : Game)
    (p o k q : Character) :
    Game.startGame nx { g with player := p, opponent := o, king := k, queen := q } =
      Game.startGame nx g :=
  rfl

/-- A game that begins with the start button does not depend on the four characters held
by `Game.new`: they are placeholders for fields that do not exist before `startGame()`. -/
theorem run_ignores_placeholders (p o k q : Character) (inputs : List Input) :
    run { Game.new with player := p, opponent := o, king := k, queen := q }
      (Input.start :: inputs) = run Game.new (Input.start :: inputs) := by
  simp only [run, step]
  rw [startGame_ignores_characters]

/-! ## The claims -/

/-- C1: the game in which the player defends at turn count 6. The enemy attack that follows
is reduced (3 instead of 15) and raises the turn count to 8, where the natural-poisoning
event starts and `playerDefending` is still true; it is still true when the event has been
played and the enemy is scheduled again; the second enemy attack is reduced as well (3
instead of 15), by the same defend action. -/
theorem C1_one_defend_reduces_two_hits :
    (run Game.new Scenario.firstHit).map
      (fun g => (g.turnCount, g.turn, g.playerDefending, g.player.currentHealth)) =
        some (8, Turn.PLAYER, true, 52) ∧
    (run Game.new Scenario.eventPlayed).map
      (fun g => (g.turnCount, g.turn, g.playerDefending, g.enemyTimers)) =
        some (9, Turn.ENEMY, true, 1) ∧
    (run Game.new Scenario.secondHit).map
      (fun g => (g.turnCount, g.player.currentHealth, (hits g).drop 6)) =
        some (10, 49, [TraceItem.hit Role.opponent Role.player 3 true,
          TraceItem.hit Role.opponent Role.player 3 true]) := by
  decide

/-- C2 fails as stated: in the game where the queen has been warned, with the player to move
at turn count 6 in phase `COMBAT`, `playerAction('speak')` raises the turn count to 7; and
with the warn/taunt choice on display at turn count 4, the taunt option raises it to 5, and
so does the warn option once its two remaining lines have been clicked through. -/
theorem C2_speak_raises_turn_count :
    (run Game.new Scenario.queenWarned).map (fun g => (g.state, g.turn, g.turnCount)) =
      some (Phase.COMBAT, Turn.PLAYER, 6) ∧
    ((run Game.new Scenario.queenWarned).bind
      (playerAction (next depth) "speak" Scenario.draw)).map (fun g => g.turnCount) = some 7 ∧
    (run Game.new Scenario.choiceOffered).map (fun g => (g.state, g.turn, g.turnCount)) =
      some (Phase.COMBAT, Turn.PLAYER, 4) ∧
    (run Game.new (Scenario.choiceOffered ++ [Input.select 1])).map (fun g => g.turnCount) =
      some 5 ∧
    (run Game.new (Scenario.choiceOffered ++ [Input.select 0, Input.advance,
      Input.advance])).map (fun g => g.turnCount) = some 5 := by
  decide

/-- C2 as amended: on the player's turn, with no `nextTurn` callback waiting in the queue,
`playerAction('kill-king')` and the hesitation lines it queues never change the turn count;
`playerAction('speak')` leaves it unchanged when it puts the warn/taunt choice on display
(queen alive and not warned, turn count at least 2). Everywhere else `speak` advances the
turn: with the queen dead or warned the taunt line carries the `nextTurn` callback (turn
count plus 1 at once on an empty queue), before turn count 2 `nextTurn` is called directly,
and both options of the choice advance the turn (taunt through its line on an empty queue,
warn through the last line of the `WARN_QUEEN` event). -/
theorem C2_special_and_choice_keep_turn_count (d : Nat) (g : Game) (draw : Draw)
    (hturn : g.turn = Turn.PLAYER) (hq : noTurnCallback g.queue) :
    (∃ g1, playerAction (next (d + 1)) "kill-king" draw g = some g1 ∧
      g1.turnCount = g.turnCount ∧ g1.turn = Turn.PLAYER ∧
      ∀ n, ∃ g2, run g1 (List.replicate n Input.advance) = some g2 ∧
        g2.turnCount = g.turnCount) ∧
    (g.warnedQueen = false → g.queen.isDead = false → 2 ≤ g.turnCount →
      ∃ g1, playerAction (next (d + 2)) "speak" draw g = some g1 ∧
        g1.turnCount = g.turnCount ∧ g1.turn = Turn.PLAYER ∧ g1.queue = g.queue ∧
        g1.textElement = Display.choice speakOptions ∧
        (∃ g2, run g1 [Input.select 0, Input.advance, Input.advance] = some g2 ∧
          g2.warnedQueen = true ∧ g2.turnCount = g.turnCount + 1 ∧ g2.turn = Turn.ENEMY) ∧
        (g.queue = [] → ∃ g2, selectChoice (next (d + 2)) 1 g1 = some g2 ∧
          g2.turnCount = g.turnCount + 1 ∧ g2.turn = Turn.ENEMY)) ∧
    ((g.warnedQueen = true ∨ g.queen.isDead = true) → g.queue = [] →
      ∃ g1, playerAction (next (d + 2)) "speak" draw g = some g1 ∧
        g1.turnCount = g.turnCount + 1 ∧ g1.turn = Turn.ENEMY) ∧
    (g.warnedQueen = false → g.queen.isDead = false → g.turnCount < 2 →
      ∃ g1, playerAction (next (d + 2)) "speak" draw g = some g1 ∧
        g1.turnCount = g.turnCount + 1 ∧ g1.turn = Turn.ENEMY) := by
  refine ⟨killKing_keeps_turn d g draw hturn hq, ?_, ?_, ?_⟩
  · intro hw hd hc
    refine ⟨_, speak_offers_choice _ g draw hturn hw hd hc, rfl, hturn, rfl, rfl, ?_, ?_⟩
    · obtain ⟨g2, e2, w2, c2, t2⟩ := warn_choice_advances
        (showChoice speakOptions { disableButtons g with playerDefending := false }) rfl
      refine ⟨g2, e2, w2, c2, ?_⟩
      rw [t2]
      simp [showChoice, disableButtons, hturn]
    · intro hempty
      obtain ⟨g2, e2, c2, t2⟩ := taunt_choice_advances d
        (showChoice speakOptions { disableButtons g with playerDefending := false }) rfl hempty
      refine ⟨g2, e2, c2, ?_⟩
      rw [t2]
      simp [showChoice, disableButtons, hturn]
  · intro hwd hempty
    exact speak_taunts d g draw hturn hwd hempty
  · intro hw hd hc
    exact speak_default_advances d g draw hturn hq hw hd hc

/-- C2 as amended, at concrete games: at the start of combat the hesitation interlude and two
further clicks leave the turn count at 0; at turn count 4 `speak` puts the choice on display
and leaves the count at 4. -/
theorem C2_special_and_choice_keep_turn_count_witness :
    (∃ g1 g2, playerAction (next 1) "kill-king" Scenario.draw (startCombat Game.new) = some g1 ∧
      g1.turnCount = 0 ∧ run g1 (List.replicate 2 Input.advance) = some g2 ∧
      g2.turnCount = 0) ∧
    (∃ g g1, run Game.new (Scenario.intro ++ Scenario.exchange "attack" ++
        Scenario.exchange "attack") = some g ∧
      playerAction (next 2) "speak" Scenario.draw g = some g1 ∧ g1.turnCount = 4 ∧
      g1.textElement = Display.choice speakOptions) := by
  refine ⟨?_, ?_⟩
  · obtain ⟨⟨g1, e1, c1, -, hn⟩, -⟩ := C2_special_and_choice_keep_turn_count 0
      (startCombat Game.new) Scenario.draw rfl (by decide)
    obtain ⟨g2, e2, c2⟩ := hn 2
    exact ⟨g1, g2, e1, c1, e2, c2⟩
  · obtain ⟨g, hg, -⟩ := run_reach (Scenario.intro ++ Scenario.exchange "attack" ++
      Scenario.exchange "attack") Game.new
    have hview : (run Game.new (Scenario.intro ++ Scenario.exchange "attack" ++
        Scenario.exchange "attack")).map
        (fun s => (s.turn, s.turnCount, s.warnedQueen, s.queen.isDead, s.queue)) =
          some (Turn.PLAYER, 4, false, false, []) := by
      decide
    rw [hg] at hview
    simp only [Option.map_some', Option.some.injEq, Prod.mk.injEq] at hview
    obtain ⟨ht, hc, hw, hd, hq⟩ := hview
    obtain ⟨-, h2, -⟩ := C2_special_and_choice_keep_turn_count 0 g Scenario.draw ht
      (by rw [hq]; intro e he; cases he)
    obtain ⟨g1, e1, c1, -, -, te1, -⟩ := h2 hw hd (by rw [hc]; decide)
    exact ⟨g, g1, hg, e1, by rw [c1, hc], te1⟩

/-- C3 fails as stated: with the queen warned, at turn count 6, the player clicks kill-king
and then speak; the taunt line, whose callback is `nextTurn`, is left first in the queue, the
turn still at the player. An attack there is completed by the click on the continue button,
whose `next()` shows the taunt line and advances the turn before the status check advances
it again: both fighters stand, the turn count has gone from 6 to 8 and the turn is at the
player again. The same holds for `enemyTurn()` called there. -/
theorem C3_attack_over_a_turn_line_counts_two :
    (run Game.new (Scenario.queenWarned ++
        [Input.action "kill-king" Scenario.draw, Input.action "speak" Scenario.draw])).map
      (fun g => (g.state, g.turn, g.turnCount, g.queue.map (fun e => e.callback))) =
        some (Phase.COMBAT, Turn.PLAYER, 6, [some Callback.nextTurn]) ∧
    ((run Game.new (Scenario.queenWarned ++
        [Input.action "kill-king" Scenario.draw, Input.action "speak" Scenario.draw])).bind
      (playerAction (next depth) "attack" Scenario.draw)).map
      (fun g => (g.state, g.turn, g.turnCount, g.player.currentHealth,
        g.opponent.currentHealth)) = some (Phase.COMBAT, Turn.PLAYER, 8, 55, 38) ∧
    ((run Game.new (Scenario.queenWarned ++
        [Input.action "kill-king" Scenario.draw, Input.action "speak" Scenario.draw])).bind
      (enemyTurn (next depth) 9)).map
      (fun g => (g.state, g.turn, g.turnCount, g.player.currentHealth,
        g.opponent.currentHealth)) = some (Phase.COMBAT, Turn.PLAYER, 8, 40, 52) := by
  refine ⟨?_, ?_, ?_⟩ <;> decide

/-- C3 as amended. A completed action that leaves both fighters standing advances the turn
once in the status check; an attack (of the player or of the enemy) is completed by the click
on the continue button, whose `next()` runs before the status check. So: a defend of the
player raises the turn count by exactly 1 and hands the turn to the enemy; an attack does the
same when the first queued entry, if there is one, does not call `nextTurn` (for the enemy's
attack the turn is flipped, outside the intro); and when the first queued entry calls
`nextTurn`, the attack raises the turn count by 2 and leaves the turn where it was. -/
theorem C3_completed_action_advances_the_turn (d : Nat) (g : Game) (draw : Draw)
    (roll : Fin 10) :
    (g.turn = Turn.PLAYER →
      (∃ g1, playerAction (next (d + 2)) "attack" draw g = some g1 ∧
        (0 < g1.player.currentHealth ∧ 0 < g1.opponent.currentHealth →
          ((∀ e, g.queue.head? = some e → e.callback ≠ some Callback.nextTurn) →
            g1.turnCount = g.turnCount + 1 ∧ g1.turn = Turn.ENEMY) ∧
          ((∃ e, g.queue.head? = some e ∧ e.callback = some Callback.nextTurn) →
            g1.turnCount = g.turnCount + 2 ∧ g1.turn = Turn.PLAYER))) ∧
      (∃ g1, playerAction (next (d + 1)) "defend" draw g = some g1 ∧
        (0 < g1.player.currentHealth ∧ 0 < g1.opponent.currentHealth →
          g1.turnCount = g.turnCount + 1 ∧ g1.turn = Turn.ENEMY))) ∧
    (∃ g1, enemyTurn (next (d + 2)) roll g = some g1 ∧
      (0 < g1.player.currentHealth ∧ 0 < g1.opponent.currentHealth →
        ((∀ e, g.queue.head? = some e → e.callback ≠ some Callback.nextTurn) →
          g1.turnCount = g.turnCount + 1 ∧
          (g.state ≠ Phase.DIALOGUE →
            g1.turn = (if g.turn = Turn.PLAYER then Turn.ENEMY else Turn.PLAYER))) ∧
        ((∃ e, g.queue.head? = some e ∧ e.callback = some Callback.nextTurn) →
          g1.turnCount = g.turnCount + 2 ∧ g1.turn = g.turn))) := by
  have hflip : ∀ t : Turn, (if (if t = Turn.PLAYER then Turn.ENEMY else Turn.PLAYER) =
      Turn.PLAYER then Turn.ENEMY else Turn.PLAYER) = t := by
    intro t
    cases t <;> rfl
  refine ⟨?_, ?_⟩
  · intro hturn
    refine ⟨?_, ?_⟩
    · obtain ⟨gm, em, pm, om, hbasic, hline⟩ := next_frame d
        (performAttack Role.player Role.opponent draw.roll
          { disableButtons g with playerDefending := false })
      have hq : (performAttack Role.player Role.opponent draw.roll
          { disableButtons g with playerDefending := false }).queue = g.queue := by
        simp [performAttack, Game.triggerAttackAnimation, Game.setChar, Game.record,
          showSystemMessage, disableButtons]
      have hc : (performAttack Role.player Role.opponent draw.roll
          { disableButtons g with playerDefending := false }).turnCount = g.turnCount := by
        simp [performAttack, Game.triggerAttackAnimation, Game.setChar, Game.record,
          showSystemMessage, disableButtons]
      have ht : (performAttack Role.player Role.opponent draw.roll
          { disableButtons g with playerDefending := false }).turn = Turn.PLAYER := by
        simpa [performAttack, Game.triggerAttackAnimation, Game.setChar, Game.record,
          showSystemMessage, disableButtons] using hturn
      rw [hq, hc] at hbasic hline
      rw [ht] at hline
      obtain ⟨g1, e1, p1, o1, hadv, -⟩ := checkAndAdvance_frame (d + 1) gm
      refine ⟨g1, by simp [playerAction, hturn, em]; exact e1, ?_⟩
      intro hs
      rw [p1, o1] at hs
      obtain ⟨c1, t1⟩ := hadv hs
      refine ⟨?_, ?_⟩
      · intro hb
        obtain ⟨cm, -, tm, -⟩ := hbasic hb
        exact ⟨by rw [c1, cm], by rw [t1, tm ht]; rfl⟩
      · intro hl
        obtain ⟨cm, tm⟩ := hline hl
        exact ⟨by rw [c1, cm], by rw [t1, tm]; rfl⟩
    · have hdef : playerAction (next (d + 1)) "defend" draw g =
          checkAndAdvance (next (d + 1)) (performDefend Role.player
            { disableButtons g with playerDefending := true }) := by
        simp [playerAction, hturn]
      obtain ⟨g1, h1, hp, ho, hadv, -⟩ := checkAndAdvance_frame d
        (performDefend Role.player { disableButtons g with playerDefending := true })
      refine ⟨g1, by rw [hdef]; exact h1, ?_⟩
      intro hs
      rw [hp, ho] at hs
      have := hadv hs
      simpa [performDefend, Game.triggerDefendAnimation, showSystemMessage, disableButtons,
        hturn] using this
  · obtain ⟨gm, em, pm, om, hbasic, hline⟩ := next_frame d
      (performAttack Role.opponent Role.player roll g)
    have hq : (performAttack Role.opponent Role.player roll g).queue = g.queue := by
      simp [performAttack, Game.triggerAttackAnimation, Game.setChar, Game.record,
        showSystemMessage]
    have hc : (performAttack Role.opponent Role.player roll g).turnCount = g.turnCount := by
      simp [performAttack, Game.triggerAttackAnimation, Game.setChar, Game.record,
        showSystemMessage]
    have ht : (performAttack Role.opponent Role.player roll g).turn = g.turn := by
      simp [performAttack, Game.triggerAttackAnimation, Game.setChar, Game.record,
        showSystemMessage]
    have hst : (performAttack Role.opponent Role.player roll g).state = g.state := by
      simp [performAttack, Game.triggerAttackAnimation, Game.setChar, Game.record,
        showSystemMessage]
    rw [hq, hc, ht, hst] at hbasic
    rw [hq, hc, ht] at hline
    obtain ⟨g1, e1, p1, o1, hadv, -⟩ := checkAndAdvance_frame (d + 1) gm
    refine ⟨g1, by simp only [enemyTurn]; rw [em]; exact e1, ?_⟩
    intro hs
    rw [p1, o1] at hs
    obtain ⟨c1, t1⟩ := hadv hs
    refine ⟨?_, ?_⟩
    · intro hb
      obtain ⟨cm, tm, -, -⟩ := hbasic hb
      exact ⟨by rw [c1, cm], fun hnd => by rw [t1, tm hnd]⟩
    · intro hl
      obtain ⟨cm, tm⟩ := hline hl
      exact ⟨by rw [c1, cm], by rw [t1, tm]; exact hflip g.turn⟩

/-- C3 as amended, at concrete games with the highest roll. At the start of combat, with an
empty queue, the attack and the defend of the player each count one turn and hand the turn
to the enemy, and the enemy attack that follows the attack counts the second turn and hands
the turn back. With the taunt line first in the queue the attack counts two turns. -/
theorem C3_completed_action_advances_the_turn_witness :
    (∃ g g1, run Game.new Scenario.intro = some g ∧
      playerAction (next 2) "attack" Scenario.draw g = some g1 ∧
      g1.turnCount = g.turnCount + 1 ∧ g1.turn = Turn.ENEMY) ∧
    (∃ g g1, run Game.new Scenario.intro = some g ∧
      playerAction (next 1) "defend" Scenario.draw g = some g1 ∧
      g1.turnCount = g.turnCount + 1 ∧ g1.turn = Turn.ENEMY) ∧
    (∃ g g1, run Game.new (Scenario.intro ++ [Input.action "attack" Scenario.draw]) = some g ∧
      enemyTurn (next 2) 9 g = some g1 ∧
      g1.turnCount = g.turnCount + 1 ∧ g1.turn = Turn.PLAYER) ∧
    (∃ g g1, run Game.new (Scenario.queenWarned ++
        [Input.action "kill-king" Scenario.draw, Input.action "speak" Scenario.draw]) = some g ∧
      playerAction (next 2) "attack" Scenario.draw g = some g1 ∧
      g1.turnCount = g.turnCount + 2 ∧ g1.turn = Turn.PLAYER) := by
  obtain ⟨g, hg, -⟩ := run_reach Scenario.intro Game.new
  have hview : (run Game.new Scenario.intro).map (fun s => (s.turn, s.queue)) =
      some (Turn.PLAYER, []) := by
    decide
  rw [hg] at hview
  simp only [Option.map_some', Option.some.injEq, Prod.mk.injEq] at hview
  obtain ⟨hturn, hqueue⟩ := hview
  obtain ⟨⟨g1, h1, himp1⟩, ⟨g2, h2, himp2⟩⟩ :=
    (C3_completed_action_advances_the_turn 0 g Scenario.draw 9).1 hturn
  have e1 : ((run Game.new Scenario.intro).bind
      (playerAction (next 2) "attack" Scenario.draw)).map
      (fun s => (s.player.currentHealth, s.opponent.currentHealth)) = some (100, 66) := by
    decide
  have e2 : ((run Game.new Scenario.intro).bind
      (playerAction (next 1) "defend" Scenario.draw)).map
      (fun s => (s.player.currentHealth, s.opponent.currentHealth)) = some (100, 80) := by
    decide
  rw [hg, Option.some_bind, h1] at e1
  rw [hg, Option.some_bind, h2] at e2
  simp only [Option.map_some', Option.some.injEq, Prod.mk.injEq] at e1 e2
  obtain ⟨k, hk, -⟩ := run_reach (Scenario.intro ++ [Input.action "attack" Scenario.draw])
    Game.new
  have kview : (run Game.new (Scenario.intro ++ [Input.action "attack" Scenario.draw])).map
      (fun s => (s.turn, s.queue, s.state)) = some (Turn.ENEMY, [], Phase.COMBAT) := by
    decide
  have e3 : ((run Game.new (Scenario.intro ++ [Input.action "attack" Scenario.draw])).bind
      (enemyTurn (next 2) 9)).map
      (fun s => (s.player.currentHealth, s.opponent.currentHealth)) = some (85, 66) := by
    decide
  obtain ⟨k1, hk1, himp3⟩ := (C3_completed_action_advances_the_turn 0 k Scenario.draw 9).2
  rw [hk] at kview
  rw [hk, Option.some_bind, hk1] at e3
  simp only [Option.map_some', Option.some.injEq, Prod.mk.injEq] at e3 kview
  obtain ⟨m, hm, -⟩ := run_reach (Scenario.queenWarned ++
    [Input.action "kill-king" Scenario.draw, Input.action "speak" Scenario.draw]) Game.new
  have mview : (run Game.new (Scenario.queenWarned ++
      [Input.action "kill-king" Scenario.draw, Input.action "speak" Scenario.draw])).map
      (fun s => (s.turn, s.queue)) = some (Turn.PLAYER, [wantonLine]) := by
    decide
  have e4 : ((run Game.new (Scenario.queenWarned ++
      [Input.action "kill-king" Scenario.draw, Input.action "speak" Scenario.draw])).bind
      (playerAction (next 2) "attack" Scenario.draw)).map
      (fun s => (s.player.currentHealth, s.opponent.currentHealth)) = some (55, 38) := by
    decide
  rw [hm] at mview
  simp only [Option.map_some', Option.some.injEq, Prod.mk.injEq] at mview
  obtain ⟨⟨m1, hm1, himp4⟩, -⟩ :=
    (C3_completed_action_advances_the_turn 0 m Scenario.draw 9).1 mview.1
  rw [hm, Option.some_bind, hm1] at e4
  simp only [Option.map_some', Option.some.injEq, Prod.mk.injEq] at e4
  refine ⟨⟨g, g1, hg, h1, ?_⟩, ⟨g, g2, hg, h2, himp2 ?_⟩, ⟨k, k1, hk, hk1, ?_⟩,
    ⟨m, m1, hm, hm1, ?_⟩⟩
  · exact (himp1 (by rw [e1.1, e1.2]; decide)).1 (by rw [hqueue]; intro e he; cases he)
  · rw [e2.1, e2.2]; decide
  · have := (himp3 (by rw [e3.1, e3.2]; decide)).1
      (by rw [kview.2.1]; intro e he; cases he)
    refine ⟨this.1, ?_⟩
    rw [this.2 (by rw [kview.2.2]; decide), kview.1]
    rfl
  · exact (himp4 (by rw [e4.1, e4.2]; decide)).2
      ⟨wantonLine, by rw [mview.2]; rfl, rfl⟩

/-- C4: for a character with `0 ≤ currentHealth ≤ maxHealth` and a non-negative amount,
`takeDamage` and `heal` keep `0 ≤ currentHealth ≤ maxHealth` and leave `maxHealth`
unchanged; damage of at least the current health gives 0, healing up to or past the
maximum gives `maxHealth`. -/
theorem C4_health_stays_in_bounds (c : Character) (amount : Int)
    (hlo : 0 ≤ c.currentHealth) (hhi : c.currentHealth ≤ c.maxHealth) (ha : 0 ≤ amount) :
    (0 ≤ (c.takeDamage amount).currentHealth ∧
      (c.takeDamage amount).currentHealth ≤ (c.takeDamage amount).maxHealth ∧
      (c.takeDamage amount).maxHealth = c.maxHealth ∧
      (c.currentHealth ≤ amount → (c.takeDamage amount).currentHealth = 0) ∧
      (amount < c.currentHealth →
        (c.takeDamage amount).currentHealth = c.currentHealth - amount)) ∧
    (0 ≤ (c.heal amount).currentHealth ∧
      (c.heal amount).currentHealth ≤ (c.heal amount).maxHealth ∧
      (c.heal amount).maxHealth = c.maxHealth ∧
      (c.maxHealth ≤ c.currentHealth + amount → (c.heal amount).currentHealth = c.maxHealth) ∧
      (c.currentHealth + amount < c.maxHealth →
        (c.heal amount).currentHealth = c.currentHealth + amount)) := by
  refine ⟨?_, ?_⟩
  · unfold Character.takeDamage
    simp only []
    split <;> simp <;> omega
  · unfold Character.heal
    simp
    omega

/-- C4, at a character of 80 health out of 80 taking 14 damage. -/
theorem C4_health_stays_in_bounds_witness :
    ((Character.new "Laertes" 80 false).takeDamage 14).currentHealth = 66 ∧
    ((Character.new "Laertes" 80 false).heal 14).currentHealth = 80 := by
  have h := C4_health_stays_in_bounds (Character.new "Laertes" 80 false) 14
    (by decide) (by decide) (by decide)
  exact ⟨h.1.2.2.2.2 (by decide), h.2.2.2.2.1 (by decide)⟩

/-- C5: `isDead` never goes back to false. `takeDamage`, `heal` and `poison` keep a dead
character dead, and every callback of the ending and event sequences returns a state in
which each of the four characters that was dead is still dead. -/
theorem C5_isDead_is_monotonic :
    (∀ (c : Character) (amount : Int), c.isDead = true →
      (c.takeDamage amount).isDead = true ∧ (c.heal amount).isDead = true ∧
        c.poison.isDead = true) ∧
    (∀ (d : Nat) (callback : Callback) (g : Game),
      ∃ g1, runCallback (next (d + 1)) callback g = some g1 ∧
        ∀ r : Role, (g.char r).isDead = true → (g1.char r).isDead = true) := by
  refine ⟨?_, ?_⟩
  · intro c amount h
    refine ⟨?_, ?_, ?_⟩
    · unfold Character.takeDamage
      simp only []
      split <;> simp [h]
    · simp [Character.heal, h]
    · simp [Character.poison, h]
  · intro d callback g
    cases callback
    · obtain ⟨g1, h1, -, -, hp, ho, hk, hq, -⟩ := nextTurn_frame d g
      refine ⟨g1, h1, ?_⟩
      intro r
      cases r <;> simp [Game.char, hp, ho, hk, hq]
    all_goals
      refine ⟨_, rfl, ?_⟩
      intro r
      cases r <;> simp [Game.char, Game.triggerDrinkAnimation, Game.clearDrinkAnimation]

/-- C5, at a dead character and at the callback that kills the king in a state where the
queen is dead. -/
theorem C5_isDead_is_monotonic_witness :
    ((({ Character.new "Gertrude" 50 false with isDead := true }).heal 10).isDead = true) ∧
    (∃ g1, runCallback (next 1) Callback.kingDies
        { Game.new with queen := { Game.new.queen with isDead := true } } = some g1 ∧
      g1.queen.isDead = true) := by
  refine ⟨(C5_isDead_is_monotonic.1 _ 10 rfl).2.1, ?_⟩
  obtain ⟨g1, h1, h2⟩ := C5_isDead_is_monotonic.2 0 Callback.kingDies
    { Game.new with queen := { Game.new.queen with isDead := true } }
  exact ⟨g1, h1, h2 Role.queen rfl⟩

/-- C6: when `nextTurn` raises `turnCount` to exactly 8 while the queen is alive and not
warned, the natural-poisoning event is started in place of a normal turn advance (no enemy
turn scheduled, buttons and defence untouched, the first entry of the sequence shown and the
rest queued), and seven advances later the queue is empty and the queen is dead. Over any run
the event is started at most once, and exactly once from a reachable state in which
`nextTurn` raises the count to 8 under that condition. -/
theorem C6_natural_poisoning_fires_once_at_turn_8 :
    (∀ (d : Nat) (g : Game), g.turnCount = 7 → g.warnedQueen = false →
      g.queen.isDead = false →
        ∃ g1, nextTurn (next (d + 1)) g = some g1 ∧
          g1.turnCount = 8 ∧
          naturalPoisonings g1 = naturalPoisonings g + 1 ∧
          (∃ first, g1.trace.getLast? = some (TraceItem.shown first) ∧
            g1.textElement = Display.line first.speaker first.text ∧
            first :: g1.queue = queenDrinksSequence) ∧
          g1.enemyTimers = g.enemyTimers ∧ g1.buttons = g.buttons ∧
          g1.playerDefending = g.playerDefending ∧ g1.state = g.state ∧
          ∃ g2, run g1 (List.replicate 7 Input.advance) = some g2 ∧
            g2.queen.isDead = true ∧ g2.queue = [] ∧ g2.turnCount = 9 ∧
            naturalPoisonings g2 = naturalPoisonings g + 1) ∧
    (∀ inputs : List Input, ∃ g, run Game.new inputs = some g ∧ naturalPoisonings g ≤ 1 ∧
      (g.turnCount < 8 → naturalPoisonings g = 0)) ∧
    (∀ (d : Nat) (g : Game), Reach Game.new g → g.turnCount = 7 → g.warnedQueen = false →
      g.queen.isDead = false →
        ∃ g1, nextTurn (next (d + 1)) g = some g1 ∧ naturalPoisonings g1 = 1 ∧
          ∀ (more : List Input) (g2 : Game), run g1 more = some g2 →
            naturalPoisonings g2 = 1) := by
  have hnew : naturalPoisonings Game.new = 0 := by decide
  have hnewc : Game.new.turnCount = 0 := rfl
  have hlocal : ∀ (d : Nat) (g : Game), g.turnCount = 7 → g.warnedQueen = false →
      g.queen.isDead = false →
        ∃ g1, nextTurn (next (d + 1)) g = some g1 ∧ g1.turnCount = 8 ∧
          naturalPoisonings g1 = naturalPoisonings g + 1 ∧
          g1.queue = queenDrinksSequence.tail := by
    intro d g hc hw hq
    refine ⟨_, nextTurn_event d g hc hw hq, rfl, ?_, rfl⟩
    simp [naturalPoisonings]
  refine ⟨?_, ?_, ?_⟩
  · intro d g hc hw hq
    obtain ⟨s1, hs1, h1, h2, h3, -, h5⟩ := poisoning_rest_plays_out
      { g with
        turnCount := 8
        turn := if g.turn = Turn.PLAYER then Turn.ENEMY else Turn.PLAYER
        actionMenuHidden := true
        dialogueBoxHidden := false
        nextBtnHidden := false
        isShowing := true
        queue := queenDrinksSequence.tail
        textElement :=
          Display.line (some "Queen Gertrude") "The Queen carouses to thy fortune, Hamlet."
        trace := g.trace ++ [TraceItem.event "WARN_QUEEN",
          TraceItem.shown ⟨some "Hamlet", "Mother, do not drink!", none⟩,
          TraceItem.event "QUEEN_DRINKS_NATURAL",
          TraceItem.shown
            ⟨some "Queen Gertrude", "The Queen carouses to thy fortune, Hamlet.", none⟩] }
      rfl rfl
    refine ⟨_, nextTurn_event d g hc hw hq, rfl, ?_, ?_, rfl, rfl, rfl, rfl, s1, hs1, h1, h2,
      h3, ?_⟩
    · simp [naturalPoisonings]
    · exact ⟨⟨some "Queen Gertrude", "The Queen carouses to thy fortune, Hamlet.", none⟩,
        by simp, rfl, rfl⟩
    · simp [naturalPoisonings, h5]
  · intro inputs
    obtain ⟨g, hg, hr⟩ := run_reach inputs Game.new
    obtain ⟨-, h2⟩ := reach_poisonings hr
    rw [hnew, hnewc] at h2
    refine ⟨g, hg, by omega, by omega⟩
  · intro d g hr hc hw hq
    obtain ⟨-, h2⟩ := reach_poisonings hr
    rw [hnew, hnewc] at h2
    obtain ⟨g1, e1, c1, p1, -⟩ := hlocal d g hc hw hq
    have hp1 : naturalPoisonings g1 = 1 := by omega
    refine ⟨g1, e1, hp1, ?_⟩
    intro more g2 hrun
    obtain ⟨g3, e3, r3⟩ := run_reach more g1
    rw [hrun] at e3
    cases e3
    obtain ⟨-, h4⟩ := reach_poisonings r3
    omega

/-- C6, at a concrete game: after three exchanges and a fourth attack of the player the turn
count is 7 with the queen alive and not warned; `nextTurn` there starts the event for the
first and only time, and the played game ends the event with the queen dead at turn
count 9. -/
theorem C6_natural_poisoning_fires_once_at_turn_8_witness :
    (∃ g g1, run Game.new (Scenario.threeExchanges ++ [Input.action "attack" Scenario.draw]) =
        some g ∧ nextTurn (next 1) g = some g1 ∧ naturalPoisonings g1 = 1 ∧
        ∃ g2, run g1 (List.replicate 7 Input.advance) = some g2 ∧ g2.queen.isDead = true ∧
          g2.turnCount = 9) ∧
    (run Game.new Scenario.eventPlayed).map
      (fun g => (g.queen.isDead, naturalPoisonings g, g.turnCount)) = some (true, 1, 9) := by
  refine ⟨?_, by decide⟩
  obtain ⟨g, hg, hr⟩ :=
    run_reach (Scenario.threeExchanges ++ [Input.action "attack" Scenario.draw]) Game.new
  have hview : (run Game.new
      (Scenario.threeExchanges ++ [Input.action "attack" Scenario.draw])).map
      (fun s => (s.turnCount, s.warnedQueen, s.queen.isDead)) = some (7, false, false) := by
    decide
  rw [hg] at hview
  simp only [Option.map_some', Option.some.injEq, Prod.mk.injEq] at hview
  obtain ⟨hc, hw, hq⟩ := hview
  obtain ⟨g1, e1, p1, -⟩ := C6_natural_poisoning_fires_once_at_turn_8.2.2 0 g hr hc hw hq
  obtain ⟨g1', e1', -, -, -, -, -, -, -, g2, e2, q2, -, c2, -⟩ :=
    C6_natural_poisoning_fires_once_at_turn_8.1 0 g hc hw hq
  rw [e1] at e1'
  cases e1'
  exact ⟨g, g1, hg, e1, p1, g2, e2, q2, c2⟩

/-- C7: whenever `nextTurn` raises `turnCount` above 25, whatever the health values, it
triggers the `DELAY_STRIKE` ending: the phase becomes `END`, the queue is replaced by the
delayed-strike sequence (its first entry shown, the rest queued), no enemy turn is scheduled
and the buttons are not re-enabled. -/
theorem C7_delay_strike_past_turn_25 (d : Nat) (g : Game) (h : 25 ≤ g.turnCount) :
    ∃ g1, nextTurn (next (d + 1)) g = some g1 ∧
      g1.turnCount = g.turnCount + 1 ∧
      g1.state = Phase.END ∧
      (∃ first, g1.trace = g.trace ++ [TraceItem.ending "DELAY_STRIKE", TraceItem.shown first] ∧
        g1.textElement = Display.line first.speaker first.text ∧
        first :: g1.queue = getDelayedEnding) ∧
      g1.enemyTimers = g.enemyTimers ∧
      g1.buttons = g.buttons ∧
      g1.actionMenuHidden = true ∧
      g1.playerDefending = g.playerDefending ∧
      g1.player = g.player ∧ g1.opponent = g.opponent := by
  refine ⟨_, nextTurn_delay d g h, rfl, rfl, ?_, rfl, rfl, rfl, rfl, rfl, rfl⟩
  exact ⟨⟨none, "You wait too long. Your hesitation consumes you.", none⟩, rfl, rfl, rfl⟩

/-- C7, at a concrete game: the player defends every turn up to turn count 25 with the enemy
to move; `nextTurn` there ends the game at turn count 26 with the timer and the disabled
buttons left as they were, and so does the game played on by the enemy turn. -/
theorem C7_delay_strike_past_turn_25_witness :
    (∃ g g1, run Game.new Scenario.alwaysDefending = some g ∧
      nextTurn (next 1) g = some g1 ∧ g1.turnCount = 26 ∧ g1.state = Phase.END ∧
      g1.enemyTimers = g.enemyTimers ∧ g1.buttons = g.buttons) ∧
    (run Game.new (Scenario.alwaysDefending ++ [Input.timer 9])).map
      (fun g => (g.state, g.turnCount, g.enemyTimers, g.buttons, g.queue.length)) =
        some (Phase.END, 26, 0, ⟨true, true, true⟩, 4) := by
  refine ⟨?_, by decide⟩
  obtain ⟨g, hg, -⟩ := run_reach Scenario.alwaysDefending Game.new
  have hview : (run Game.new Scenario.alwaysDefending).map (fun s => s.turnCount) =
      some 25 := by
    decide
  rw [hg] at hview
  simp only [Option.map_some', Option.some.injEq] at hview
  obtain ⟨g1, h1, h2, h3, -, h5, h6, -⟩ :=
    C7_delay_strike_past_turn_25 0 g (by rw [hview])
  exact ⟨g, g1, hg, h1, by rw [h2, hview], h3, h5, h6⟩

/-- C8: when the player is defending and the opponent attacks, for every roll the raw damage
is the roll plus 5 plus 1, between 6 and 15; the damage applied to the player is the raw
damage divided by 5 and rounded down, between 1 and 3. -/
theorem C8_defended_hit_is_one_to_three (g : Game) (roll : Fin 10)
    (hp : g.player.isPlayer = true) (ho : g.opponent.isPlayer = false)
    (hd : g.playerDefending = true) :
    rawDamage g.opponent roll = (roll.val : Int) + 5 + 1 ∧
    6 ≤ rawDamage g.opponent roll ∧ rawDamage g.opponent roll ≤ 15 ∧
    damage g.opponent g.player g.playerDefending roll = rawDamage g.opponent roll / 5 ∧
    damage g.opponent g.player g.playerDefending roll = ⌊((rawDamage g.opponent roll : Int) : ℚ) / 5⌋ ∧
    1 ≤ damage g.opponent g.player g.playerDefending roll ∧
    damage g.opponent g.player g.playerDefending roll ≤ 3 ∧
    (performAttack Role.opponent Role.player roll g).player.currentHealth =
      max 0 (g.player.currentHealth - damage g.opponent g.player g.playerDefending roll) ∧
    (performAttack Role.opponent Role.player roll g).trace = g.trace ++
      [TraceItem.hit Role.opponent Role.player
        (damage g.opponent g.player g.playerDefending roll) true] := by
  have hroll := roll.isLt
  have hraw : rawDamage g.opponent roll = (roll.val : Int) + 5 + 1 := by
    simp [rawDamage, ho]
  have hdmg : damage g.opponent g.player g.playerDefending roll =
      rawDamage g.opponent roll / 5 := by
    simp [damage, defendApplies, hp, hd]
  have hfloor : rawDamage g.opponent roll / 5 = ⌊((rawDamage g.opponent roll : Int) : ℚ) / 5⌋ := by
    have := Rat.floor_intCast_div_natCast (rawDamage g.opponent roll) 5
    simpa using this.symm
  refine ⟨hraw, by omega, by omega, hdmg, by rw [hdmg, hfloor], by omega, by omega, ?_, ?_⟩
  · simp [performAttack, Game.triggerAttackAnimation, Game.char, Game.setChar, Game.record,
      showSystemMessage, Character.takeDamage]
    split <;> simp
  · simp [performAttack, Game.triggerAttackAnimation, Game.char, Game.setChar, Game.record,
      showSystemMessage, defendApplies, hp, hd]

/-- C8, at a concrete game: the player has defended at turn count 6 and stands at 55; with
the highest roll the raw damage is 15, the applied damage 3, and the player is left
with 52. -/
theorem C8_defended_hit_is_one_to_three_witness :
    ∃ g, run Game.new Scenario.defendAtSix = some g ∧
      rawDamage g.opponent 9 = 15 ∧
      damage g.opponent g.player g.playerDefending 9 = 3 ∧
      (performAttack Role.opponent Role.player 9 g).player.currentHealth = 52 := by
  obtain ⟨g, hg, hr⟩ := run_reach Scenario.defendAtSix Game.new
  have hview : (run Game.new Scenario.defendAtSix).map
      (fun s => (s.playerDefending, s.player.currentHealth)) = some (true, 55) := by
    decide
  rw [hg] at hview
  simp only [Option.map_some', Option.some.injEq, Prod.mk.injEq] at hview
  obtain ⟨hd, hh⟩ := hview
  obtain ⟨hp, ho⟩ := reach_isPlayer hr
  obtain ⟨h1, -, -, h4, -, -, -, h8, -⟩ := C8_defended_hit_is_one_to_three g 9 hp ho hd
  have hraw : rawDamage g.opponent 9 = 15 := by
    rw [h1]
    decide
  have hdmg : damage g.opponent g.player g.playerDefending 9 = 3 := by
    rw [h4, hraw]
    decide
  refine ⟨g, hg, hraw, hdmg, ?_⟩
  rw [h8, hdmg, hh]
  decide

/-- C9: when the player attacks an opponent at 80 health, for every roll the damage is the
roll plus 5, between 5 and 14, with no bonus and no defend reduction, and the opponent is
left with 80 minus that damage, between 66 and 75, also after the `next()` of the continue
click, the status check and the turn advance of `playerAction`. -/
theorem C9_first_attack_leaves_66_to_75 (d : Nat) (g : Game) (draw : Draw)
    (hturn : g.turn = Turn.PLAYER) (hp : g.player.isPlayer = true)
    (ho : g.opponent.isPlayer = false) (hh : g.opponent.currentHealth = 80) :
    rawDamage g.player draw.roll = (draw.roll.val : Int) + 5 ∧
    damage g.player g.opponent g.playerDefending draw.roll = (draw.roll.val : Int) + 5 ∧
    5 ≤ damage g.player g.opponent g.playerDefending draw.roll ∧
    damage g.player g.opponent g.playerDefending draw.roll ≤ 14 ∧
    ∃ g1, playerAction (next (d + 2)) "attack" draw g = some g1 ∧
      g1.opponent.currentHealth = 80 - ((draw.roll.val : Int) + 5) ∧
      66 ≤ g1.opponent.currentHealth ∧ g1.opponent.currentHealth ≤ 75 := by
  have hroll := draw.roll.isLt
  have hraw : rawDamage g.player draw.roll = (draw.roll.val : Int) + 5 := by
    simp [rawDamage, hp]
  have hdmg : ∀ b, damage g.player g.opponent b draw.roll = (draw.roll.val : Int) + 5 := by
    intro b
    simp [damage, defendApplies, ho, hraw]
  refine ⟨hraw, hdmg _, by rw [hdmg]; omega, by rw [hdmg]; omega, ?_⟩
  have hhealth : (performAttack Role.player Role.opponent draw.roll
      { disableButtons g with playerDefending := false }).opponent.currentHealth =
      80 - ((draw.roll.val : Int) + 5) := by
    have h80 : ¬ (80 - ((draw.roll.val : Int) + 5) ≤ 0) := by omega
    simp [performAttack, Game.triggerAttackAnimation, Game.char, Game.setChar, Game.record,
      showSystemMessage, Character.takeDamage, disableButtons, damage, defendApplies, ho, hh,
      rawDamage, hp]
    split <;> simp <;> omega
  obtain ⟨gm, em, -, om, -⟩ := next_frame d
    (performAttack Role.player Role.opponent draw.roll
      { disableButtons g with playerDefending := false })
  obtain ⟨g1, h1, -, h3, -⟩ := checkAndAdvance_frame (d + 1) gm
  refine ⟨g1, by simp [playerAction, hturn, em]; exact h1, by rw [h3, om, hhealth], ?_, ?_⟩ <;>
    rw [h3, om, hhealth] <;> omega

/-- C9, at the start of combat of a concrete game, with the lowest and the highest roll: the
opponent is left with 75 and with 66. -/
theorem C9_first_attack_leaves_66_to_75_witness :
    ∃ g g1 g2, run Game.new Scenario.intro = some g ∧
      playerAction (next 2) "attack" ⟨0, 0, 0⟩ g = some g1 ∧ g1.opponent.currentHealth = 75 ∧
      playerAction (next 2) "attack" ⟨9, 0, 0⟩ g = some g2 ∧ g2.opponent.currentHealth = 66 := by
  obtain ⟨g, hg, hr⟩ := run_reach Scenario.intro Game.new
  have hview : (run Game.new Scenario.intro).map
      (fun s => (s.turn, s.opponent.currentHealth)) = some (Turn.PLAYER, 80) := by
    decide
  rw [hg] at hview
  simp only [Option.map_some', Option.some.injEq, Prod.mk.injEq] at hview
  obtain ⟨ht, hh⟩ := hview
  obtain ⟨hp, ho⟩ := reach_isPlayer hr
  obtain ⟨-, -, -, -, g1, h1, h2, -⟩ :=
    C9_first_attack_leaves_66_to_75 0 g ⟨0, 0, 0⟩ ht hp ho hh
  obtain ⟨-, -, -, -, g2, k1, k2, -⟩ :=
    C9_first_attack_leaves_66_to_75 0 g ⟨9, 0, 0⟩ ht hp ho hh
  exact ⟨g, g1, g2, hg, h1, h2, k1, k2⟩

/-- C10: when an attack of the player, who is standing (as the player is in every state of a
game that is not over, `game_stands`), brings the opponent to 0 health, the status check
triggers the `CANONICAL` ending. The attack is completed by the click on the continue
button: its `next()` runs between the hit and the status check and may show a queued line
(nothing on an empty queue). Then the phase becomes `END` without a turn advance, the first
entry of the canonical sequence is shown and the rest queued, and after seven advances, on
the last entry, the player, the opponent and the king are all dead. -/
theorem C10_opponent_down_plays_canonical_ending (d : Nat) (g : Game) (draw : Draw)
    (hturn : g.turn = Turn.PLAYER) (hp : 0 < g.player.currentHealth)
    (hkill : g.opponent.currentHealth ≤ damage g.player g.opponent false draw.roll) :
    ∃ gm g1,
      next (d + 2) (performAttack Role.player Role.opponent draw.roll
        { disableButtons g with playerDefending := false }) = some gm ∧
      (g.trace ++ [TraceItem.hit Role.player Role.opponent
        (damage g.player g.opponent false draw.roll) false]) <+: gm.trace ∧
      (g.queue = [] → gm.trace = g.trace ++ [TraceItem.hit Role.player Role.opponent
        (damage g.player g.opponent false draw.roll) false]) ∧
      playerAction (next (d + 2)) "attack" draw g = some g1 ∧
      g1.opponent.currentHealth = 0 ∧
      g1.state = Phase.END ∧
      g1.turnCount = gm.turnCount ∧
      ((∀ e, g.queue.head? = some e → e.callback ≠ some Callback.nextTurn) →
        g1.turnCount = g.turnCount) ∧
      (∃ first, g1.trace = gm.trace ++
          [TraceItem.ending "CANONICAL", TraceItem.called Callback.opponentDies,
           TraceItem.shown first] ∧
        first :: g1.queue = getCanonicalEnding) ∧
      ∃ g2, run g1 (List.replicate 7 Input.advance) = some g2 ∧
        g2.state = Phase.END ∧ g2.queue = [] ∧
        g2.textElement = Display.line none "The rest is silence." ∧
        g2.player.isDead = true ∧ g2.opponent.isDead = true ∧ g2.king.isDead = true := by
  have hpl : (performAttack Role.player Role.opponent draw.roll
      { disableButtons g with playerDefending := false }).player = g.player := by
    simp [performAttack, Game.triggerAttackAnimation, Game.char, Game.setChar, Game.record,
      showSystemMessage, disableButtons]
  have hop : (performAttack Role.player Role.opponent draw.roll
      { disableButtons g with playerDefending := false }).opponent.currentHealth = 0 := by
    have hkill1 : g.opponent.currentHealth ≤ rawDamage g.player draw.roll := by
      simpa [damage, defendApplies] using hkill
    simp [performAttack, Game.triggerAttackAnimation, Game.char, Game.setChar, Game.record,
      showSystemMessage, Character.takeDamage, disableButtons, damage, defendApplies]
    split <;> simp <;> omega
  have htr : (performAttack Role.player Role.opponent draw.roll
      { disableButtons g with playerDefending := false }).trace = g.trace ++
        [TraceItem.hit Role.player Role.opponent
          (damage g.player g.opponent false draw.roll) false] := by
    simp [performAttack, Game.triggerAttackAnimation, Game.char, Game.setChar, Game.record,
      showSystemMessage, disableButtons, defendApplies]
  have hcount : (performAttack Role.player Role.opponent draw.roll
      { disableButtons g with playerDefending := false }).turnCount = g.turnCount := by
    simp [performAttack, Game.triggerAttackAnimation, Game.char, Game.setChar, Game.record,
      showSystemMessage, disableButtons]
  have hqueue : (performAttack Role.player Role.opponent draw.roll
      { disableButtons g with playerDefending := false }).queue = g.queue := by
    simp [performAttack, Game.triggerAttackAnimation, Game.char, Game.setChar, Game.record,
      showSystemMessage, disableButtons]
  obtain ⟨gm, em, pm, om, hbasic, -⟩ := next_frame d
    (performAttack Role.player Role.opponent draw.roll
      { disableButtons g with playerDefending := false })
  obtain ⟨gr, er, rr⟩ := next_reach d
    (performAttack Role.player Role.opponent draw.roll
      { disableButtons g with playerDefending := false })
  rw [em] at er
  cases er
  have hprefix := reach_trace rr
  rw [htr] at hprefix
  rw [hpl] at pm
  rw [hop] at om
  rw [hqueue, hcount] at hbasic
  have hact : playerAction (next (d + 2)) "attack" draw g = some
      { gm with
        state := Phase.END
        actionMenuHidden := true
        dialogueBoxHidden := false
        nextBtnHidden := false
        isShowing := true
        opponent := { gm.opponent with isDead := true }
        queue := getCanonicalEnding.tail
        textElement := Display.line none "Laertes falls, wounded by your hand."
        trace := gm.trace ++ [TraceItem.ending "CANONICAL",
          TraceItem.called Callback.opponentDies,
          TraceItem.shown
            ⟨none, "Laertes falls, wounded by your hand.", some Callback.opponentDies⟩] } := by
    simp only [playerAction, hturn, ne_eq, not_true_eq_false, if_false, if_true, em,
      Option.some_bind]
    rw [checkAndAdvance_opponentDown (d + 1) gm (by rw [pm]; exact hp) (by rw [om]),
      triggerEnding_canonical]
  refine ⟨gm, _, em, hprefix, ?_, hact, om, rfl, rfl, ?_, ?_, ?_⟩
  · intro hq
    have hnil := next_nil (d + 1) (performAttack Role.player Role.opponent draw.roll
      { disableButtons g with playerDefending := false }) (by rw [hqueue]; exact hq)
    rw [em] at hnil
    simp only [Option.some.injEq] at hnil
    rw [hnil, ← htr]
    simp only [endDialogue]
    split_ifs <;> simp [startCombat, updateButtons, enableButtons, showChoice]
  · intro hb
    exact (hbasic hb).1
  · exact ⟨⟨none, "Laertes falls, wounded by your hand.", some Callback.opponentDies⟩, rfl, rfl⟩
  · obtain ⟨s1, hs1, h1, h2, h3, h4, h5, h6⟩ := canonical_rest_plays_out
      { gm with
        state := Phase.END
        actionMenuHidden := true
        dialogueBoxHidden := false
        nextBtnHidden := false
        isShowing := true
        opponent := { gm.opponent with isDead := true }
        queue := getCanonicalEnding.tail
        textElement := Display.line none "Laertes falls, wounded by your hand."
        trace := gm.trace ++ [TraceItem.ending "CANONICAL",
          TraceItem.called Callback.opponentDies,
          TraceItem.shown
            ⟨none, "Laertes falls, wounded by your hand.", some Callback.opponentDies⟩] }
      rfl
    exact ⟨s1, hs1, h5, h4, h6, h1, h3, h2⟩

/-- C10, at concrete games. After five exchanges the opponent has 10 health left and the
player, who is standing as in every state of a game that is not over, has 10; the next
attack deals 14, the canonical ending starts, and seven advances later the player, the
opponent and the king are dead. The same holds when the player has clicked kill-king before
the attack: the click that completes the attack shows the queued hesitation line first. -/
theorem C10_opponent_down_plays_canonical_ending_witness :
    (∃ g g1 g2, run Game.new Scenario.beforeLastBlow = some g ∧
      playerAction (next 2) "attack" Scenario.draw g = some g1 ∧ g1.state = Phase.END ∧
      run g1 (List.replicate 7 Input.advance) = some g2 ∧
      g2.player.isDead = true ∧ g2.opponent.isDead = true ∧ g2.king.isDead = true) ∧
    (∃ g g1 g2, run Game.new (Scenario.beforeLastBlow ++
        [Input.action "kill-king" Scenario.draw]) = some g ∧ g.queue.length = 1 ∧
      playerAction (next 2) "attack" Scenario.draw g = some g1 ∧ g1.state = Phase.END ∧
      run g1 (List.replicate 7 Input.advance) = some g2 ∧
      g2.player.isDead = true ∧ g2.opponent.isDead = true ∧ g2.king.isDead = true) := by
  refine ⟨?_, ?_⟩
  · obtain ⟨g, hg, hs⟩ := game_stands Scenario.beforeLastBlow Game.new rfl
    have hview : (run Game.new Scenario.beforeLastBlow).map
        (fun s => (s.turn, s.state, s.opponent.currentHealth, s.player.isPlayer)) =
          some (Turn.PLAYER, Phase.COMBAT, 10, true) := by
      decide
    rw [hg] at hview
    simp only [Option.map_some', Option.some.injEq, Prod.mk.injEq] at hview
    obtain ⟨ht, hst, ho, hip⟩ := hview
    have hp : 0 < g.player.currentHealth := by
      rcases hs with hs | hs
      · rw [hst] at hs
        cases hs
      · exact hs
    obtain ⟨gm, g1, -, -, -, e1, -, s1, -, -, -, g2, e2, -, -, -, dp, dop, dk⟩ :=
      C10_opponent_down_plays_canonical_ending 0 g Scenario.draw ht hp
        (by
          rw [ho]
          simp only [damage, defendApplies, rawDamage, hip, Scenario.draw, Bool.and_false]
          decide)
    exact ⟨g, g1, g2, hg, e1, s1, e2, dp, dop, dk⟩
  · obtain ⟨g, hg, hs⟩ := game_stands
      (Scenario.beforeLastBlow ++ [Input.action "kill-king" Scenario.draw]) Game.new rfl
    have hview : (run Game.new (Scenario.beforeLastBlow ++
        [Input.action "kill-king" Scenario.draw])).map
        (fun s => (s.turn, s.state, s.opponent.currentHealth, s.player.isPlayer,
          s.queue.length)) = some (Turn.PLAYER, Phase.COMBAT, 10, true, 1) := by
      decide
    rw [hg] at hview
    simp only [Option.map_some', Option.some.injEq, Prod.mk.injEq] at hview
    obtain ⟨ht, hst, ho, hip, hlen⟩ := hview
    have hp : 0 < g.player.currentHealth := by
      rcases hs with hs | hs
      · rw [hst] at hs
        cases hs
      · exact hs
    obtain ⟨gm, g1, -, -, -, e1, -, s1, -, -, -, g2, e2, -, -, -, dp, dop, dk⟩ :=
      C10_opponent_down_plays_canonical_ending 0 g Scenario.draw ht hp
        (by
          rw [ho]
          simp only [damage, defendApplies, rawDamage, hip, Scenario.draw, Bool.and_false]
          decide)
    exact ⟨g, g1, g2, hg, hlen, e1, s1, e2, dp, dop, dk⟩

/-- C11: `checkCombatStatus` decides in this order. With the player at 0 health or below it
triggers the `DEATH` ending and returns false, whatever the health of the opponent;
otherwise, with the opponent at 0 or below, it triggers the `CANONICAL` ending and returns
false; otherwise it returns true and the state is the one it was given. -/
theorem C11_status_check_order (d : Nat) (g : Game) :
    (g.player.currentHealth ≤ 0 →
      ∃ g1, checkCombatStatus (next (d + 1)) g = some (false, g1) ∧
        triggerEnding (next (d + 1)) "DEATH" g = some g1 ∧
        g1.state = Phase.END ∧
        g1.trace = g.trace ++ [TraceItem.ending "DEATH",
          TraceItem.shown ⟨none, "The rest is silence.", none⟩] ∧
        g1.queue = deathSequence.tail) ∧
    (0 < g.player.currentHealth → g.opponent.currentHealth ≤ 0 →
      ∃ g1, checkCombatStatus (next (d + 1)) g = some (false, g1) ∧
        triggerEnding (next (d + 1)) "CANONICAL" g = some g1 ∧
        g1.state = Phase.END ∧
        g1.trace = g.trace ++ [TraceItem.ending "CANONICAL",
          TraceItem.called Callback.opponentDies,
          TraceItem.shown
            ⟨none, "Laertes falls, wounded by your hand.", some Callback.opponentDies⟩] ∧
        g1.queue = getCanonicalEnding.tail) ∧
    (0 < g.player.currentHealth → 0 < g.opponent.currentHealth →
      checkCombatStatus (next (d + 1)) g = some (true, g)) := by
  refine ⟨?_, ?_, ?_⟩
  · intro hp
    refine ⟨_, ?_, triggerEnding_death d g, rfl, rfl, rfl⟩
    simp [checkCombatStatus, hp, triggerEnding_death]
  · intro hp ho
    have hp1 : ¬ g.player.currentHealth ≤ 0 := by omega
    refine ⟨_, ?_, triggerEnding_canonical d g, rfl, rfl, rfl⟩
    simp [checkCombatStatus, hp1, ho, triggerEnding_canonical]
  · intro hp ho
    have hp1 : ¬ g.player.currentHealth ≤ 0 := by omega
    have ho1 : ¬ g.opponent.currentHealth ≤ 0 := by omega
    simp [checkCombatStatus, hp1, ho1]

/-- C11, at concrete states: the fresh game passes the check unchanged; with both fighters
at 0 the ending is `DEATH`, not `CANONICAL`; with only the opponent at 0 it is
`CANONICAL`. -/
theorem C11_status_check_order_witness :
    checkCombatStatus (next 1) Game.new = some (true, Game.new) ∧
    (∃ g1, checkCombatStatus (next 1)
        { Game.new with
          player := { Game.new.player with currentHealth := 0 }
          opponent := { Game.new.opponent with currentHealth := 0 } } = some (false, g1) ∧
      g1.queue = deathSequence.tail) ∧
    (∃ g1, checkCombatStatus (next 1)
        { Game.new with opponent := { Game.new.opponent with currentHealth := 0 } } =
          some (false, g1) ∧
      g1.queue = getCanonicalEnding.tail) := by
  refine ⟨(C11_status_check_order 0 Game.new).2.2 (by decide) (by decide), ?_, ?_⟩
  · obtain ⟨g1, h1, -, -, -, h5⟩ := (C11_status_check_order 0
      { Game.new with
        player := { Game.new.player with currentHealth := 0 }
        opponent := { Game.new.opponent with currentHealth := 0 } }).1 (by decide)
    exact ⟨g1, h1, h5⟩
  · obtain ⟨g1, h1, -, -, -, h5⟩ := (C11_status_check_order 0
      { Game.new with opponent := { Game.new.opponent with currentHealth := 0 } }).2.1
        (by decide) (by decide)
    exact ⟨g1, h1, h5⟩

/-- C15: advancing an empty queue is idempotent. For every state with an empty queue `next()`
returns the state `endDialogue` leaves, a second `next()` returns that same state, and the
only effect is the end-of-sequence transition of the phase: in `DIALOGUE` the hand-over to
`startCombat`, in `COMBAT` the action menu shown again, in `END` the restart choice. -/
theorem C15_advance_on_empty_queue_is_idempotent (d : Nat) (g : Game) (hq : g.queue = []) :
    ∃ g1, next (d + 1) g = some g1 ∧ next (d + 1) g1 = some g1 ∧ g1.queue = [] ∧
      (g.state = Phase.DIALOGUE →
        g1 = startCombat
          { g with isShowing := false, dialogueBoxHidden := true, nextBtnHidden := true }) ∧
      (g.state = Phase.COMBAT →
        g1 = { g with isShowing := false, dialogueBoxHidden := true, nextBtnHidden := true,
                      actionMenuHidden := false }) ∧
      (g.state = Phase.END →
        g1 = showChoice [⟨"Play Again", ChoiceCallback.playAgain⟩]
          { g with isShowing := false, dialogueBoxHidden := true, nextBtnHidden := true }) := by
  have hq1 : (endDialogue g).queue = [] := by
    simp only [endDialogue]
    split_ifs <;> simp [startCombat, updateButtons, enableButtons, showChoice, hq]
  have hidem : endDialogue (endDialogue g) = endDialogue g := by
    cases hs : g.state <;>
      simp [endDialogue, hs, startCombat, updateButtons, enableButtons, showChoice]
  refine ⟨endDialogue g, next_nil d g hq, ?_, hq1, ?_, ?_, ?_⟩
  · rw [next_nil d _ hq1, hidem]
  · intro hs
    simp [endDialogue, hs]
  · intro hs
    simp [endDialogue, hs]
  · intro hs
    simp [endDialogue, hs]

/-- C15, at concrete games: the last click of the intro (phase `DIALOGUE`, queue empty)
starts the combat and a further click changes nothing; the same in phase `END` once the
death sequence has been clicked through. -/
theorem C15_advance_on_empty_queue_is_idempotent_witness :
    (∃ g g1, run Game.new (Input.start :: List.replicate 4 Input.advance) = some g ∧
      g.state = Phase.DIALOGUE ∧ next 1 g = some g1 ∧ next 1 g1 = some g1 ∧
      g1.state = Phase.COMBAT) ∧
    (∃ g1, next 1 { Game.new with state := Phase.END } = some g1 ∧ next 1 g1 = some g1 ∧
      g1.textElement = Display.choice [⟨"Play Again", ChoiceCallback.playAgain⟩]) := by
  refine ⟨?_, ?_⟩
  · obtain ⟨g, hg, -⟩ := run_reach (Input.start :: List.replicate 4 Input.advance) Game.new
    have hview : (run Game.new (Input.start :: List.replicate 4 Input.advance)).map
        (fun s => (s.state, s.queue)) = some (Phase.DIALOGUE, []) := by
      decide
    rw [hg] at hview
    simp only [Option.map_some', Option.some.injEq, Prod.mk.injEq] at hview
    obtain ⟨g1, h1, h2, -, h4, -⟩ := C15_advance_on_empty_queue_is_idempotent 0 g hview.2
    refine ⟨g, g1, hg, hview.1, h1, h2, ?_⟩
    rw [h4 hview.1]
    rfl
  · obtain ⟨g1, h1, h2, -, -, -, h6⟩ := C15_advance_on_empty_queue_is_idempotent 0
      { Game.new with state := Phase.END } rfl
    refine ⟨g1, h1, h2, ?_⟩
    rw [h6 rfl]
    rfl

/-- C16 fails as stated: `triggerEnding` called at the start of combat with a type it does
not know returns normally, the phase is `END` and the sequence selected is the one of
`DEATH`; `triggerEvent` called with a type it does not know returns normally too, with an
empty queue and the dialogue ended: at the start of combat the phase is still `COMBAT`,
during the intro the combat is started. -/
theorem C16_unknown_type_is_not_an_error :
    ((run Game.new Scenario.intro).bind (triggerEnding (next 1) "NO_SUCH_ENDING")).map
      (fun g => (g.state, g.textElement, g.queue)) =
        some (Phase.END, Display.line none "The rest is silence.", deathSequence.tail) ∧
    ((run Game.new Scenario.intro).bind (triggerEvent (next 1) "NO_SUCH_EVENT")).map
      (fun g => (g.state, g.queue, g.isShowing, g.actionMenuHidden)) =
        some (Phase.COMBAT, [], false, false) ∧
    (run Game.new [Input.start]).map (fun g => (g.state, g.queue.length)) =
      some (Phase.DIALOGUE, 4) ∧
    ((run Game.new [Input.start]).bind (triggerEvent (next 1) "NO_SUCH_EVENT")).map
      (fun g => (g.state, g.queue, g.isShowing, g.actionMenuHidden)) =
        some (Phase.COMBAT, [], false, false) := by
  refine ⟨?_, ?_, ?_, ?_⟩ <;> decide

/-- C16 as amended: no type makes `triggerEnding` or `triggerEvent` fail. For every type
outside `POISON_WAIT`, `CANONICAL`, `SPARE_LAERTES` and `DELAY_STRIKE`, `triggerEnding`
returns with the phase `END` and the `DEATH` sequence started (the `default` label shares the
body of `DEATH`). For every type outside `WARN_QUEEN` and `QUEEN_DRINKS_NATURAL`,
`triggerEvent` returns with the empty sequence installed, and the `next()` that follows ends
the dialogue at once: in phase `DIALOGUE` this starts the combat (phase `COMBAT`, the turn at
the player), in `COMBAT` it shows the action menu, in `END` it presents the Play Again
choice, and in these two and in `START` the phase stays what it was. -/
theorem C16_unknown_type_plays_default (d : Nat) (type : String) (g : Game) :
    (type ≠ "POISON_WAIT" → type ≠ "CANONICAL" → type ≠ "SPARE_LAERTES" →
      type ≠ "DELAY_STRIKE" →
        triggerEnding (next (d + 1)) type g = some
          { g with
            state := Phase.END
            actionMenuHidden := true
            dialogueBoxHidden := false
            nextBtnHidden := false
            isShowing := true
            queue := deathSequence.tail
            textElement := Display.line none "The rest is silence."
            trace := g.trace ++ [TraceItem.ending type,
              TraceItem.shown ⟨none, "The rest is silence.", none⟩] }) ∧
    (type ≠ "WARN_QUEEN" → type ≠ "QUEEN_DRINKS_NATURAL" →
      ∃ g1, triggerEvent (next (d + 1)) type g = some g1 ∧
        g1 = endDialogue
          { g with
            actionMenuHidden := true
            dialogueBoxHidden := false
            queue := []
            trace := g.trace ++ [TraceItem.event type] } ∧
        g1.queue = [] ∧ g1.trace = g.trace ++ [TraceItem.event type] ∧
        (g.state = Phase.DIALOGUE →
          g1.state = Phase.COMBAT ∧ g1.turn = Turn.PLAYER ∧ g1.actionMenuHidden = false) ∧
        (g.state = Phase.COMBAT → g1.state = Phase.COMBAT ∧ g1.actionMenuHidden = false) ∧
        (g.state = Phase.END →
          g1.state = Phase.END ∧
          g1.textElement = Display.choice [⟨"Play Again", ChoiceCallback.playAgain⟩]) ∧
        (g.state = Phase.START → g1.state = Phase.START)) := by
  refine ⟨?_, ?_⟩
  · intro h1 h2 h3 h4
    simp [triggerEnding, endingSequence, h1, h2, h3, h4, deathSequence, next, nextBody,
      Game.record]
  · intro h1 h2
    refine ⟨_, by
      simp [triggerEvent, eventSequence, h1, h2, next, nextBody, Game.record],
      rfl, ?_, ?_, ?_, ?_, ?_, ?_⟩
    · simp only [endDialogue]
      split_ifs <;> simp [startCombat, updateButtons, enableButtons, showChoice]
    · simp only [endDialogue]
      split_ifs <;> simp [startCombat, updateButtons, enableButtons, showChoice]
    · intro hs
      simp [endDialogue, hs, startCombat, updateButtons, enableButtons]
    · intro hs
      simp [endDialogue, hs]
    · intro hs
      simp [endDialogue, hs, showChoice]
    · intro hs
      simp [endDialogue, hs]

/-- C16 as amended, at concrete games: an ending type the code does not know and `DEATH`
itself, handled by the same branch, at the start of combat; an event type the code does not
know in phase `COMBAT` (start of combat), in phase `DIALOGUE` (after the start button) and in
phase `END` (after the canonical ending was triggered). -/
theorem C16_unknown_type_plays_default_witness :
    (∃ g g1, run Game.new Scenario.intro = some g ∧
      triggerEnding (next 1) "NO_SUCH_ENDING" g = some g1 ∧
      g1.state = Phase.END ∧ g1.queue = deathSequence.tail) ∧
    (∃ g g1, run Game.new Scenario.intro = some g ∧
      triggerEnding (next 1) "DEATH" g = some g1 ∧
      g1.state = Phase.END ∧ g1.queue = deathSequence.tail) ∧
    (∃ g g1, run Game.new Scenario.intro = some g ∧ g.state = Phase.COMBAT ∧
      triggerEvent (next 1) "NO_SUCH_EVENT" g = some g1 ∧
      g1.state = Phase.COMBAT ∧ g1.queue = []) ∧
    (∃ g g1, run Game.new [Input.start] = some g ∧ g.state = Phase.DIALOGUE ∧
      triggerEvent (next 1) "NO_SUCH_EVENT" g = some g1 ∧
      g1.state = Phase.COMBAT ∧ g1.queue = []) ∧
    (∃ g g1, run Game.new (Scenario.beforeLastBlow ++
        [Input.action "attack" Scenario.draw]) = some g ∧ g.state = Phase.END ∧
      triggerEvent (next 1) "NO_SUCH_EVENT" g = some g1 ∧
      g1.state = Phase.END ∧ g1.queue = [] ∧
      g1.textElement = Display.choice [⟨"Play Again", ChoiceCallback.playAgain⟩]) := by
  obtain ⟨g, hg, -⟩ := run_reach Scenario.intro Game.new
  have hview : (run Game.new Scenario.intro).map (fun s => s.state) = some Phase.COMBAT := by
    decide
  rw [hg] at hview
  simp only [Option.map_some', Option.some.injEq] at hview
  obtain ⟨k, hk, -⟩ := run_reach [Input.start] Game.new
  have kview : (run Game.new [Input.start]).map (fun s => s.state) = some Phase.DIALOGUE := by
    decide
  rw [hk] at kview
  simp only [Option.map_some', Option.some.injEq] at kview
  obtain ⟨m, hm, -⟩ := run_reach
    (Scenario.beforeLastBlow ++ [Input.action "attack" Scenario.draw]) Game.new
  have mview : (run Game.new (Scenario.beforeLastBlow ++
      [Input.action "attack" Scenario.draw])).map (fun s => s.state) = some Phase.END := by
    decide
  rw [hm] at mview
  simp only [Option.map_some', Option.some.injEq] at mview
  obtain ⟨g1, e1, -, q1, -, -, hc, -, -⟩ :=
    (C16_unknown_type_plays_default 0 "NO_SUCH_EVENT" g).2 (by decide) (by decide)
  obtain ⟨k1, f1, -, r1, -, hd, -, -, -⟩ :=
    (C16_unknown_type_plays_default 0 "NO_SUCH_EVENT" k).2 (by decide) (by decide)
  obtain ⟨m1, n1, -, s1, -, -, -, he, -⟩ :=
    (C16_unknown_type_plays_default 0 "NO_SUCH_EVENT" m).2 (by decide) (by decide)
  exact ⟨⟨g, _, hg, (C16_unknown_type_plays_default 0 "NO_SUCH_ENDING" g).1
      (by decide) (by decide) (by decide) (by decide), rfl, rfl⟩,
    ⟨g, _, hg, (C16_unknown_type_plays_default 0 "DEATH" g).1
      (by decide) (by decide) (by decide) (by decide), rfl, rfl⟩,
    ⟨g, g1, hg, hview, e1, (hc hview).1, q1⟩,
    ⟨k, k1, hk, kview, f1, (hd kview).1, r1⟩,
    ⟨m, m1, hm, mview, n1, (he mview).1, s1, (he mview).2⟩⟩

/-- On the player's turn the status check and the turn advance leave `playerDefending` and
the buttons as they are. -/
theorem checkAndAdvance_keeps_defence (d : Nat) (g : Game) (ht : g.turn = Turn.PLAYER) :
    ∃ g1, checkAndAdvance (next (d + 1)) g = some g1 ∧
      g1.playerDefending = g.playerDefending ∧ g1.buttons = g.buttons := by
  by_cases hp : g.player.currentHealth ≤ 0
  · rw [checkAndAdvance_playerDown d g hp, triggerEnding_death]
    exact ⟨_, rfl, rfl, rfl⟩
  · by_cases ho : g.opponent.currentHealth ≤ 0
    · rw [checkAndAdvance_opponentDown d g (by omega) ho, triggerEnding_canonical]
      exact ⟨_, rfl, rfl, rfl⟩
    · rw [checkAndAdvance_standing _ g (by omega) (by omega)]
      by_cases h1 : 25 ≤ g.turnCount
      · exact ⟨_, nextTurn_delay d g h1, rfl, rfl⟩
      · by_cases h2 : g.turnCount = 7 ∧ g.warnedQueen = false ∧ g.queen.isDead = false
        · exact ⟨_, nextTurn_event d g h2.1 h2.2.1 h2.2.2, rfl, rfl⟩
        · refine ⟨_, nextTurn_plain _ g (by omega) h2, ?_, ?_⟩ <;> simp [ht]

/-- C13 fails as stated: in the game that has reached phase `END` through the canonical
ending, with the turn still `PLAYER`, `playerAction('defend')` is carried out
(`playerDefending` becomes true and the history grows); and during the intro, in phase
`DIALOGUE`, `playerAction('attack')` damages the opponent and advances the turn. -/
theorem C13_out_of_phase_action_is_carried_out :
    (run Game.new (Scenario.beforeLastBlow ++ [Input.action "attack" Scenario.draw])).map
      (fun g => (g.state, g.turn, g.playerDefending, g.trace.length)) =
        some (Phase.END, Turn.PLAYER, false, 34) ∧
    ((run Game.new (Scenario.beforeLastBlow ++ [Input.action "attack" Scenario.draw])).bind
      (playerAction (next depth) "defend" Scenario.draw)).map
      (fun g => (g.state, g.turn, g.playerDefending, g.trace.length)) =
        some (Phase.END, Turn.PLAYER, true, 37) ∧
    (run Game.new [Input.start]).map
      (fun g => (g.state, g.turn, g.turnCount, g.opponent.currentHealth)) =
        some (Phase.DIALOGUE, Turn.PLAYER, 0, 80) ∧
    ((run Game.new [Input.start]).bind
      (playerAction (next depth) "attack" Scenario.draw)).map
      (fun g => (g.state, g.turn, g.turnCount, g.opponent.currentHealth)) =
        some (Phase.DIALOGUE, Turn.ENEMY, 1, 66) := by
  decide

/-- C13 as amended: out-of-turn requests are silently ignored, for every action string and
every state in which the turn is not `PLAYER` `playerAction` returns the state it was given.
The phase is not tested: on the player's turn, in every phase, an attack is carried out (the
opponent loses the damage, clamped at 0) and so is a defend (`playerDefending` is set), with
the buttons left disabled. -/
theorem C13_out_of_turn_action_is_ignored (d : Nat) (action : String) (draw : Draw)
    (g : Game) :
    (g.turn ≠ Turn.PLAYER → playerAction (next (d + 1)) action draw g = some g) ∧
    (g.turn = Turn.PLAYER →
      (∃ g1, playerAction (next (d + 2)) "attack" draw g = some g1 ∧
        g1.opponent.currentHealth =
          max 0 (g.opponent.currentHealth - damage g.player g.opponent false draw.roll)) ∧
      (∃ g1, playerAction (next (d + 1)) "defend" draw g = some g1 ∧
        g1.playerDefending = true ∧ g1.buttons = ⟨true, true, true⟩)) := by
  refine ⟨?_, ?_⟩
  · intro ht
    simp [playerAction, ht]
  · intro ht
    refine ⟨?_, ?_⟩
    · obtain ⟨gm, em, -, om, -⟩ := next_frame d
        (performAttack Role.player Role.opponent draw.roll
          { disableButtons g with playerDefending := false })
      obtain ⟨g1, h1, -, h3, -⟩ := checkAndAdvance_frame (d + 1) gm
      refine ⟨g1, by simp [playerAction, ht, em]; exact h1, ?_⟩
      rw [h3, om]
      simp [performAttack, Game.triggerAttackAnimation, Game.char, Game.setChar, Game.record,
        showSystemMessage, Character.takeDamage, disableButtons]
      split <;> simp
    · obtain ⟨g1, h1, h2, h3⟩ := checkAndAdvance_keeps_defence d
        (performDefend Role.player { disableButtons g with playerDefending := true })
        (by simpa [performDefend, Game.triggerDefendAnimation, showSystemMessage,
          disableButtons] using ht)
      refine ⟨g1, by simpa [playerAction, ht] using h1, ?_, ?_⟩
      · rw [h2]
        simp [performDefend, Game.triggerDefendAnimation, showSystemMessage]
      · rw [h3]
        simp [performDefend, Game.triggerDefendAnimation, showSystemMessage, disableButtons]

/-- C13 as amended, at concrete games: after the player's first attack the turn is `ENEMY`
and each of the four actions returns the state unchanged; at the start of combat the attack
with the highest roll leaves the opponent at 66. -/
theorem C13_out_of_turn_action_is_ignored_witness :
    (∃ g, run Game.new (Scenario.intro ++ [Input.action "attack" Scenario.draw]) = some g ∧
      playerAction (next 1) "attack" Scenario.draw g = some g ∧
      playerAction (next 1) "defend" Scenario.draw g = some g ∧
      playerAction (next 1) "speak" Scenario.draw g = some g ∧
      playerAction (next 1) "kill-king" Scenario.draw g = some g) ∧
    (∃ g g1, run Game.new Scenario.intro = some g ∧
      playerAction (next 2) "attack" Scenario.draw g = some g1 ∧
      g1.opponent.currentHealth = 66) := by
  refine ⟨?_, ?_⟩
  · obtain ⟨g, hg, -⟩ :=
      run_reach (Scenario.intro ++ [Input.action "attack" Scenario.draw]) Game.new
    have hview : (run Game.new (Scenario.intro ++ [Input.action "attack" Scenario.draw])).map
        (fun s => s.turn) = some Turn.ENEMY := by
      decide
    rw [hg] at hview
    simp only [Option.map_some', Option.some.injEq] at hview
    have hne : g.turn ≠ Turn.PLAYER := by rw [hview]; decide
    exact ⟨g, hg, (C13_out_of_turn_action_is_ignored 0 _ _ g).1 hne,
      (C13_out_of_turn_action_is_ignored 0 _ _ g).1 hne,
      (C13_out_of_turn_action_is_ignored 0 _ _ g).1 hne,
      (C13_out_of_turn_action_is_ignored 0 _ _ g).1 hne⟩
  · obtain ⟨g, hg, hr⟩ := run_reach Scenario.intro Game.new
    have hview : (run Game.new Scenario.intro).map
        (fun s => (s.turn, s.opponent.currentHealth)) = some (Turn.PLAYER, 80) := by
      decide
    rw [hg] at hview
    simp only [Option.map_some', Option.some.injEq, Prod.mk.injEq] at hview
    obtain ⟨hp, ho⟩ := reach_isPlayer hr
    obtain ⟨⟨g1, h1, h2⟩, -⟩ :=
      (C13_out_of_turn_action_is_ignored 0 "attack" Scenario.draw g).2 hview.1
    refine ⟨g, g1, hg, h1, ?_⟩
    rw [h2, hview.2]
    simp only [damage, defendApplies, rawDamage, hp, ho, Scenario.draw, Bool.and_false]
    decide

/-- C18 fails as stated: in the game finished by the canonical ending (phase `END`, turn
`PLAYER`, the player at 10 health) `enemyTurn()` applies 15 damage, the click that completes
the attack shows the next line of the canonical sequence, and the status check triggers the
`DEATH` ending over the canonical one, the player dead; and at the start of combat, on the
player's turn, `enemyTurn()` takes 15 health and advances the turn. -/
theorem C18_enemyTurn_resolves_a_finished_game :
    (run Game.new (Scenario.beforeLastBlow ++ [Input.action "attack" Scenario.draw])).map
      (fun g => (g.state, g.turn, g.turnCount, g.player.currentHealth, g.player.isDead,
        g.trace.length)) = some (Phase.END, Turn.PLAYER, 12, 10, false, 34) ∧
    ((run Game.new (Scenario.beforeLastBlow ++ [Input.action "attack" Scenario.draw])).bind
      (enemyTurn (next depth) 9)).map
      (fun g => (g.state, g.player.currentHealth, g.player.isDead, g.trace.drop 34)) =
        some (Phase.END, 0, true,
          [TraceItem.hit Role.opponent Role.player 15 false,
           TraceItem.shown
            ⟨some "Laertes", "I am justly killed with mine own treachery...", none⟩,
           TraceItem.ending "DEATH",
           TraceItem.shown ⟨none, "The rest is silence.", none⟩]) ∧
    (run Game.new Scenario.intro).map
      (fun g => (g.state, g.turn, g.turnCount, g.player.currentHealth)) =
        some (Phase.COMBAT, Turn.PLAYER, 0, 100) ∧
    ((run Game.new Scenario.intro).bind (enemyTurn (next depth) 9)).map
      (fun g => (g.state, g.turn, g.turnCount, g.player.currentHealth)) =
        some (Phase.COMBAT, Turn.ENEMY, 1, 85) := by
  refine ⟨?_, ?_, ?_, ?_⟩ <;> decide

/-- C18 as amended: `enemyTurn()` tests neither the phase nor the turn. In every state it
returns after taking the damage of its roll from the player (clamped at 0) and leaving the
opponent's health alone; the click that completes the attack runs `next()`; the status check
that follows advances the turn by one when both fighters stand, and leaves the phase `END`
otherwise. The one precaution of the code is in `nextTurn`: it schedules the deferred
`enemyTurn()` only when it hands the turn from the player to the enemy without starting an
ending or the event, and then changes neither the phase nor the queue. -/
theorem C18_enemyTurn_is_unguarded (d : Nat) (roll : Fin 10) (g : Game) :
    (∃ gm g1, next (d + 2) (performAttack Role.opponent Role.player roll g) = some gm ∧
      enemyTurn (next (d + 2)) roll g = some g1 ∧
      g1.player.currentHealth =
        max 0 (g.player.currentHealth - damage g.opponent g.player g.playerDefending roll) ∧
      g1.opponent.currentHealth = g.opponent.currentHealth ∧
      ((0 < g1.player.currentHealth ∧ 0 < g.opponent.currentHealth) →
        g1.turnCount = gm.turnCount + 1 ∧
        g1.turn = (if gm.turn = Turn.PLAYER then Turn.ENEMY else Turn.PLAYER) ∧
        ((∀ e, g.queue.head? = some e → e.callback ≠ some Callback.nextTurn) →
          g1.turnCount = g.turnCount + 1 ∧
          (g.state ≠ Phase.DIALOGUE →
            g1.turn = (if g.turn = Turn.PLAYER then Turn.ENEMY else Turn.PLAYER)))) ∧
      (¬ (0 < g1.player.currentHealth ∧ 0 < g.opponent.currentHealth) →
        g1.state = Phase.END)) ∧
    (∃ g1, nextTurn (next (d + 1)) g = some g1 ∧
      ((25 ≤ g.turnCount ∨
          (g.turnCount = 7 ∧ g.warnedQueen = false ∧ g.queen.isDead = false)) →
        g1.enemyTimers = g.enemyTimers) ∧
      (g1.enemyTimers = g.enemyTimers ∨
        (g1.enemyTimers = g.enemyTimers + 1 ∧ g.turn = Turn.PLAYER ∧ g1.turn = Turn.ENEMY ∧
          g1.state = g.state ∧ g1.queue = g.queue ∧ g1.trace = g.trace))) := by
  refine ⟨?_, ?_⟩
  · obtain ⟨gm, em, pm, om, hbasic, -⟩ := next_frame d
      (performAttack Role.opponent Role.player roll g)
    obtain ⟨g1, h1, hp, ho, ha, hb⟩ := checkAndAdvance_frame (d + 1) gm
    have hhp : (performAttack Role.opponent Role.player roll g).player.currentHealth =
        max 0 (g.player.currentHealth - damage g.opponent g.player g.playerDefending roll) := by
      simp [performAttack, Game.triggerAttackAnimation, Game.char, Game.setChar, Game.record,
        showSystemMessage, Character.takeDamage]
      split <;> simp
    have hho : (performAttack Role.opponent Role.player roll g).opponent = g.opponent := by
      simp [performAttack, Game.triggerAttackAnimation, Game.char, Game.setChar, Game.record,
        showSystemMessage]
    have hq : (performAttack Role.opponent Role.player roll g).queue = g.queue := by
      simp [performAttack, Game.triggerAttackAnimation, Game.setChar, Game.record,
        showSystemMessage]
    have hc : (performAttack Role.opponent Role.player roll g).turnCount = g.turnCount := by
      simp [performAttack, Game.triggerAttackAnimation, Game.setChar, Game.record,
        showSystemMessage]
    have ht : (performAttack Role.opponent Role.player roll g).turn = g.turn := by
      simp [performAttack, Game.triggerAttackAnimation, Game.setChar, Game.record,
        showSystemMessage]
    have hst : (performAttack Role.opponent Role.player roll g).state = g.state := by
      simp [performAttack, Game.triggerAttackAnimation, Game.setChar, Game.record,
        showSystemMessage]
    rw [hq, hc, ht, hst] at hbasic
    rw [hho] at om
    refine ⟨gm, g1, em, by simp only [enemyTurn]; rw [em]; exact h1, by rw [hp, pm, hhp],
      by rw [ho, om], ?_, ?_⟩
    · intro h
      rw [hp, ← om] at h
      obtain ⟨c1, t1⟩ := ha h
      refine ⟨c1, t1, ?_⟩
      intro hhead
      obtain ⟨cm, tm, -, -⟩ := hbasic hhead
      exact ⟨by rw [c1, cm], fun hnd => by rw [t1, tm hnd]⟩
    · intro h
      rw [hp, ← om] at h
      exact (hb h).2.2
  · by_cases h1 : 25 ≤ g.turnCount
    · exact ⟨_, nextTurn_delay d g h1, fun _ => rfl, Or.inl rfl⟩
    · by_cases h2 : g.turnCount = 7 ∧ g.warnedQueen = false ∧ g.queen.isDead = false
      · exact ⟨_, nextTurn_event d g h2.1 h2.2.1 h2.2.2, fun _ => rfl, Or.inl rfl⟩
      · refine ⟨_, nextTurn_plain _ g (by omega) h2, ?_, ?_⟩
        · intro h
          rcases h with h | h
          · omega
          · exact absurd h h2
        · by_cases ht : g.turn = Turn.PLAYER
          · right
            simp [ht]
          · left
            simp [ht]

/-- C18 as amended, at concrete games: called at the start of combat, on the player's turn,
`enemyTurn()` takes 15 health and hands over the turn; and the turn advance at the start of
combat schedules one deferred enemy turn. -/
theorem C18_enemyTurn_is_unguarded_witness :
    ∃ g g1 g2, run Game.new Scenario.intro = some g ∧ g.turn = Turn.PLAYER ∧
      enemyTurn (next 2) 9 g = some g1 ∧ g1.player.currentHealth = 85 ∧
      g1.turnCount = 1 ∧ g1.turn = Turn.ENEMY ∧
      nextTurn (next 1) g = some g2 ∧ g2.enemyTimers = 1 ∧ g2.turn = Turn.ENEMY := by
  obtain ⟨g, hg, hr⟩ := run_reach Scenario.intro Game.new
  have hview : (run Game.new Scenario.intro).map
      (fun s => (s.turn, s.player.currentHealth, s.playerDefending, s.enemyTimers)) =
        some (Turn.PLAYER, 100, false, 0) := by
    decide
  have hview2 : (run Game.new Scenario.intro).map
      (fun s => (s.turnCount, s.queue, s.state, s.opponent.currentHealth)) =
        some (0, [], Phase.COMBAT, 80) := by
    decide
  rw [hg] at hview hview2
  simp only [Option.map_some', Option.some.injEq, Prod.mk.injEq] at hview hview2
  obtain ⟨ht, hp, hd, h0⟩ := hview
  obtain ⟨hc, hq, hst, hop⟩ := hview2
  obtain ⟨hip, hio⟩ := reach_isPlayer hr
  obtain ⟨⟨gm, g1, -, e1, p1, -, hadv, -⟩, g2, e2, -, h2⟩ := C18_enemyTurn_is_unguarded 0 9 g
  have hp1 : g1.player.currentHealth = 85 := by
    rw [p1, hp, hd]
    simp only [damage, defendApplies, rawDamage, hip, hio, Bool.and_false]
    decide
  obtain ⟨-, -, hhead⟩ := hadv ⟨by rw [hp1]; decide, by rw [hop]; decide⟩
  obtain ⟨c1, t1⟩ := hhead (by rw [hq]; intro e he; cases he)
  have hplain := nextTurn_plain (next 1) g (by omega) (by omega)
  rw [e2, ht] at hplain
  simp only [if_true, Option.some.injEq] at hplain
  refine ⟨g, g1, g2, hg, ht, e1, hp1, by rw [c1, hc], ?_, e2, ?_, ?_⟩
  · rw [t1 (by rw [hst]; decide), ht]
    rfl
  · rw [hplain]
    simp [h0]
  · rw [hplain]

/-- Every straight-line piece keeps `queenSafe`. -/
theorem prim_queenSafe (a b : Game) (h : Prim a b) (ha : queenSafe a) : queenSafe b := by
  obtain ⟨hw, hd⟩ := ha
  cases h with
  | finish hq =>
    simp only [endDialogue]
    split_ifs <;>
      simp_all [queenSafe, noQueenDeath, offersWarn, startCombat, updateButtons, enableButtons,
        showChoice]
  | advance _ e rest hq hc hn =>
    cases hcb : e.callback with
    | none =>
      rw [next_cons_none 0 a e rest hq hcb] at hn
      cases hn
      simp_all [queenSafe, noQueenDeath, offersWarn, Game.record]
    | some cb =>
      cases cb
      · exact absurd hcb hc
      all_goals
        simp [next, nextBody, hq, hcb, runCallback] at hn
        subst hn
        simp_all [queenSafe, noQueenDeath, offersWarn, Game.record, Game.triggerDrinkAnimation,
          Game.clearDrinkAnimation]
  | take e rest hq hc => simp_all [queenSafe, noQueenDeath, offersWarn, Game.record]
  | write e => simp_all [queenSafe, noQueenDeath, offersWarn, Game.record]
  | turn _ hn =>
    by_cases h1 : 25 ≤ a.turnCount
    · rw [nextTurn_delay 0 a h1] at hn
      cases hn
      simp_all [queenSafe, noQueenDeath, offersWarn, getDelayedEnding]
    · by_cases h2 : a.turnCount = 7 ∧ a.warnedQueen = false ∧ a.queen.isDead = false
      · rw [nextTurn_event 0 a h2.1 h2.2.1 h2.2.2] at hn
        cases hn
        simp_all [queenSafe, noQueenDeath, offersWarn]
      · rw [nextTurn_plain _ a (by omega) h2] at hn
        cases hn
        split <;> simp_all [queenSafe, noQueenDeath, offersWarn]
  | endDeath _ hp hn =>
    rw [triggerEnding_death 0 a] at hn
    cases hn
    simp_all [queenSafe, noQueenDeath, offersWarn, deathSequence]
  | endCanonical _ hp ho hn =>
    rw [triggerEnding_canonical 0 a] at hn
    cases hn
    simp_all [queenSafe, noQueenDeath, offersWarn, getCanonicalEnding]
  | act ht => simp_all [queenSafe, noQueenDeath, offersWarn, disableButtons]
  | attack roll ht =>
    simp_all [queenSafe, noQueenDeath, offersWarn, performAttack, Game.triggerAttackAnimation,
      Game.setChar, Game.char, Game.record, showSystemMessage]
  | defend ht =>
    simp_all [queenSafe, noQueenDeath, offersWarn, performDefend, Game.triggerDefendAnimation,
      showSystemMessage]
  | enemyAttack roll =>
    simp_all [queenSafe, noQueenDeath, offersWarn, performAttack, Game.triggerAttackAnimation,
      Game.setChar, Game.char, Game.record, showSystemMessage]
  | timerFires ht => simp_all [queenSafe, noQueenDeath, offersWarn]
  | wanton ht hw' =>
    simp_all [queenSafe, noQueenDeath, offersWarn, wantonLine]
    intro hwq e he
    rcases he with he | rfl
    · exact (hw hwq).2 e he
    · simp
  | offer ht hw hc => simp_all [queenSafe, noQueenDeath, offersWarn, showChoice]
  | flavor pick ht hw hc => simp_all [queenSafe, noQueenDeath, offersWarn]
  | hesitate pick ht =>
    simp_all [queenSafe, noQueenDeath, offersWarn, hesitationLines]
    intro hwq e he
    rcases he with he | rfl | rfl
    · exact (hw hwq).2 e he
    · simp
    · simp
  | enable => simp_all [queenSafe, noQueenDeath, offersWarn, enableButtons]
  | warn _ options index option hte hopt hcb hn =>
    rw [triggerEvent_warn 0] at hn
    cases hn
    simp_all [queenSafe, noQueenDeath, offersWarn, warnQueenSequence]
    cases hq : a.queen.isDead
    · rfl
    · exact absurd hcb (hd hq option (List.getElem?_mem hopt))
  | taunt options index option hte hopt hcb =>
    simp_all [queenSafe, noQueenDeath, offersWarn, dallyLine]
    intro hwq e he
    rcases he with he | rfl
    · exact (hw hwq).2 e he
    · simp
  | restart options index option hte hopt hcb => simp_all [queenSafe, noQueenDeath, offersWarn]
  | start _ hn =>
    simp [Game.startGame, startIntro, next, nextBody, introSequence, Game.record] at hn
    subst hn
    simp_all [queenSafe, noQueenDeath, offersWarn, Character.new]

/-- No straight-line piece clears `warnedQueen`, and once it is set none starts the natural
poisoning. -/
theorem prim_warned (a b : Game) (h : Prim a b) (ha : a.warnedQueen = true) :
    b.warnedQueen = true ∧ naturalPoisonings b = naturalPoisonings a := by
  cases h with
  | finish hq =>
    simp only [endDialogue]
    split_ifs <;>
      simp [naturalPoisonings, startCombat, updateButtons, enableButtons, showChoice, ha]
  | advance _ e rest hq hc hn =>
    cases hcb : e.callback with
    | none =>
      rw [next_cons_none 0 a e rest hq hcb] at hn
      cases hn
      simp [naturalPoisonings, Game.record, ha]
    | some cb =>
      cases cb
      · exact absurd hcb hc
      all_goals
        simp [next, nextBody, hq, hcb, runCallback] at hn
        subst hn
        simp [naturalPoisonings, Game.record, Game.triggerDrinkAnimation,
          Game.clearDrinkAnimation, ha]
  | take e rest hq hc => simp [naturalPoisonings, Game.record, ha]
  | write e => simp [naturalPoisonings, Game.record, ha]
  | turn _ hn =>
    by_cases h1 : 25 ≤ a.turnCount
    · rw [nextTurn_delay 0 a h1] at hn
      cases hn
      simp [naturalPoisonings, ha]
    · rw [nextTurn_plain _ a (by omega) (by simp [ha])] at hn
      cases hn
      split <;> simp [naturalPoisonings, ha]
  | endDeath _ hp hn =>
    rw [triggerEnding_death 0 a] at hn
    cases hn
    simp [naturalPoisonings, ha]
  | endCanonical _ hp ho hn =>
    rw [triggerEnding_canonical 0 a] at hn
    cases hn
    simp [naturalPoisonings, ha]
  | act ht => simp [naturalPoisonings, disableButtons, ha]
  | attack roll ht =>
    simp [naturalPoisonings, performAttack, Game.triggerAttackAnimation, Game.setChar,
      Game.record, showSystemMessage, ha]
  | defend ht =>
    simp [naturalPoisonings, performDefend, Game.triggerDefendAnimation, showSystemMessage, ha]
  | enemyAttack roll =>
    simp [naturalPoisonings, performAttack, Game.triggerAttackAnimation, Game.setChar,
      Game.record, showSystemMessage, ha]
  | timerFires ht => simp [naturalPoisonings, ha]
  | wanton ht hw => simp [naturalPoisonings, ha]
  | offer ht hw hc => simp [naturalPoisonings, showChoice, ha]
  | flavor pick ht hw hc => simp [naturalPoisonings, ha]
  | hesitate pick ht => simp [naturalPoisonings, ha]
  | enable => simp [naturalPoisonings, enableButtons, ha]
  | warn _ options index option hte hopt hcb hn =>
    rw [triggerEvent_warn 0] at hn
    cases hn
    simp [naturalPoisonings]
  | taunt options index option hte hopt hcb => simp [naturalPoisonings, ha]
  | restart options index option hte hopt hcb => simp [naturalPoisonings, ha]
  | start _ hn =>
    simp [Game.startGame, startIntro, next, nextBody, introSequence, Game.record] at hn
    subst hn
    simp [naturalPoisonings, ha]

/-- Along a reachability chain from a state with the queen warned, she stays warned and the
natural poisoning is not started. -/
theorem reach_warned {a b : Game} (h : Reach a b) (ha : a.warnedQueen = true) :
    b.warnedQueen = true ∧ naturalPoisonings b = naturalPoisonings a := by
  induction h with
  | refl => exact ⟨ha, rfl⟩
  | tail _ hstep ih =>
    obtain ⟨h1, h2⟩ := prim_warned _ _ hstep ih.1
    exact ⟨h1, h2.trans ih.2⟩

/-- C17: a warned queen survives. From the start of combat with the queen alive and not
warned, in every reachable state `warnedQueen` and `queen.isDead` are not both true; once
the queen is dead no displayed choice offers the warning and `performSpeak` goes straight
to the fixed taunt line; and from a state with `warnedQueen` set on, in every state reached
later the flag is still set, the queen is alive and the natural-poisoning event has not
been started again. -/
theorem C17_warned_queen_survives (s g : Game) (hw : s.warnedQueen = false)
    (hq : s.queen.isDead = false) (hr : Reach (startCombat s) g) :
    ¬ (g.warnedQueen = true ∧ g.queen.isDead = true) ∧
    (g.queen.isDead = true →
      offersWarn g = false ∧
      ∀ nx pick, performSpeak nx pick g = nx { g with queue := g.queue ++ [wantonLine] }) ∧
    (g.warnedQueen = true → ∀ g1, Reach g g1 →
      g1.warnedQueen = true ∧ g1.queen.isDead = false ∧
      naturalPoisonings g1 = naturalPoisonings g) := by
  have h0 : queenSafe (startCombat s) := by
    simp [queenSafe, startCombat, updateButtons, enableButtons, hw, hq]
  have hg : queenSafe g := Reach.invariant prim_queenSafe hr h0
  refine ⟨?_, ?_, ?_⟩
  · rintro ⟨h1, h2⟩
    have := (hg.1 h1).1
    rw [h2] at this
    cases this
  · intro hd
    refine ⟨hg.2 hd, ?_⟩
    intro nx pick
    simp [performSpeak, hd]
  · intro h1 g1 hr1
    obtain ⟨w1, n1⟩ := reach_warned hr1 h1
    have hg1 : queenSafe g1 := Reach.invariant prim_queenSafe hr1 hg
    exact ⟨w1, (hg1.1 w1).1, n1⟩

/-- C17 at a concrete game: from the start of combat two exchanges of attacks, then the
player speaks, warns the queen and clicks through the event; the queen is warned and
alive, and after six more exchanges, past turn count 8, she is still alive and no natural
poisoning was started. -/
theorem C17_warned_queen_survives_witness :
    ∃ g g1, run (startCombat Game.new) Scenario.warnFromCombat = some g ∧
      g.warnedQueen = true ∧ g.queen.isDead = false ∧
      run g Scenario.sixExchanges = some g1 ∧ 8 ≤ g1.turnCount ∧
      g1.warnedQueen = true ∧ g1.queen.isDead = false ∧ naturalPoisonings g1 = 0 := by
  obtain ⟨g, hg, hr⟩ := run_reach Scenario.warnFromCombat (startCombat Game.new)
  obtain ⟨g1, hg1, hr1⟩ := run_reach Scenario.sixExchanges g
  have hview : (run (startCombat Game.new) Scenario.warnFromCombat).map
      (fun s => (s.warnedQueen, naturalPoisonings s)) = some (true, 0) := by
    decide
  have hview1 : ((run (startCombat Game.new) Scenario.warnFromCombat).bind
      (fun s => run s Scenario.sixExchanges)).map (fun s => s.turnCount) = some 18 := by
    decide
  rw [hg] at hview hview1
  simp only [Option.map_some', Option.some.injEq, Prod.mk.injEq, Option.some_bind] at hview hview1
  rw [hg1] at hview1
  simp only [Option.map_some', Option.some.injEq] at hview1
  obtain ⟨hboth, -, hlater⟩ := C17_warned_queen_survives Game.new g rfl rfl hr
  obtain ⟨w1, q1, n1⟩ := hlater hview.1 g1 hr1
  refine ⟨g, g1, hg, hview.1, ?_, hg1, by omega, w1, q1, by rw [n1]; exact hview.2⟩
  cases hq : g.queen.isDead
  · rfl
  · exact absurd ⟨hview.1, hq⟩ hboth

/-- The turn advance keeps the parity: it raises the turn count by one and flips the turn,
and it never leads back to the intro. -/
theorem nextTurn_parity (d : Nat) (g : Game) (h : turnParity g) :
    ∃ g1, nextTurn (next (d + 1)) g = some g1 ∧ turnParity g1 := by
  obtain ⟨hs, hp⟩ := h
  by_cases h1 : 25 ≤ g.turnCount
  · refine ⟨_, nextTurn_delay d g h1, by simp, ?_⟩
    by_cases ht : g.turn = Turn.PLAYER
    · have := hp.1 ht
      simp [ht]
      omega
    · have : ¬ g.turnCount % 2 = 0 := fun hc => ht (hp.2 hc)
      simp [ht]
      omega
  · by_cases h2 : g.turnCount = 7 ∧ g.warnedQueen = false ∧ g.queen.isDead = false
    · refine ⟨_, nextTurn_event d g h2.1 h2.2.1 h2.2.2, by simpa using hs, ?_⟩
      by_cases ht : g.turn = Turn.PLAYER
      · have := hp.1 ht
        omega
      · simp [ht]
    · refine ⟨_, nextTurn_plain _ g (by omega) h2, ?_⟩
      by_cases ht : g.turn = Turn.PLAYER
      · have := hp.1 ht
        simp only [ht, if_true]
        refine ⟨by simpa using hs, ?_⟩
        simp
        omega
      · have : ¬ g.turnCount % 2 = 0 := fun hc => ht (hp.2 hc)
        simp only [ht, if_false]
        refine ⟨by simpa using hs, ?_⟩
        simp
        omega

/-- A call of `next()` keeps the parity. -/
theorem next_parity (d : Nat) (g : Game) (h : turnParity g) :
    ∃ g1, next (d + 2) g = some g1 ∧ turnParity g1 := by
  cases hq : g.queue with
  | nil =>
    refine ⟨_, next_nil (d + 1) g hq, ?_⟩
    obtain ⟨hs, hp⟩ := h
    simp only [endDialogue]
    rw [if_neg (by simpa using hs)]
    split_ifs <;> simpa [turnParity, showChoice] using ⟨hs, hp⟩
  | cons e rest =>
    cases hcb : e.callback with
    | none =>
      refine ⟨_, next_cons_none (d + 1) g e rest hq hcb, ?_⟩
      simpa [turnParity, Game.record] using h
    | some cb =>
      cases cb
      · obtain ⟨g2, h2, p2⟩ := nextTurn_parity d
          (Game.record
            { g with queue := rest, isShowing := true, dialogueBoxHidden := false,
                     nextBtnHidden := false }
            (TraceItem.called Callback.nextTurn))
          (by simpa [turnParity, Game.record] using h)
        refine ⟨Game.record
          { g2 with textElement := Display.line (e.speaker.filter (fun s => s ≠ "")) e.text }
          (TraceItem.shown e), ?_, by simpa [turnParity, Game.record] using p2⟩
        show nextBody (next (d + 1)) g = _
        simp only [nextBody, hq, hcb, runCallback, h2, Option.map_some']
      all_goals
        refine ⟨_, by simp [next, nextBody, hq, hcb, runCallback]; rfl, ?_⟩
        simpa [turnParity, Game.record, Game.triggerDrinkAnimation,
          Game.clearDrinkAnimation] using h

/-- The status check with the turn advance keeps the parity. -/
theorem checkAndAdvance_parity (d : Nat) (g : Game) (h : turnParity g) :
    ∃ g1, checkAndAdvance (next (d + 1)) g = some g1 ∧ turnParity g1 := by
  by_cases hp : g.player.currentHealth ≤ 0
  · rw [checkAndAdvance_playerDown d g hp, triggerEnding_death]
    exact ⟨_, rfl, by simpa [turnParity] using h.2⟩
  · by_cases ho : g.opponent.currentHealth ≤ 0
    · rw [checkAndAdvance_opponentDown d g (by omega) ho, triggerEnding_canonical]
      exact ⟨_, rfl, by simpa [turnParity] using h.2⟩
    · rw [checkAndAdvance_standing _ g (by omega) (by omega)]
      exact nextTurn_parity d g h

/-- An attack changes neither the phase, the turn nor the turn count. -/
theorem performAttack_parity (attacker defender : Role) (roll : Fin 10) (g : Game)
    (h : turnParity g) : turnParity (performAttack attacker defender roll g) := by
  cases defender <;> simpa [turnParity, performAttack, Game.triggerAttackAnimation, Game.setChar, Game.record,
    showSystemMessage] using h

/-- The handler `playerAction` keeps the parity, whatever the action. -/
theorem playerAction_parity (d : Nat) (action : String) (draw : Draw) (g : Game)
    (h : turnParity g) :
    ∃ g1, playerAction (next (d + 2)) action draw g = some g1 ∧ turnParity g1 := by
  unfold playerAction
  by_cases hturn : g.turn ≠ Turn.PLAYER
  · rw [if_pos hturn]
    exact ⟨g, rfl, h⟩
  · rw [if_neg hturn]
    have h2 : turnParity { disableButtons g with playerDefending := false } := by
      simpa [turnParity, disableButtons] using h
    simp only []
    split_ifs
    · obtain ⟨gm, em, pm⟩ := next_parity d _ (performAttack_parity _ _ draw.roll _ h2)
      obtain ⟨g1, e1, p1⟩ := checkAndAdvance_parity (d + 1) gm pm
      exact ⟨g1, by rw [em]; exact e1, p1⟩
    · exact checkAndAdvance_parity (d + 1) _
        (by simpa [turnParity, performDefend, Game.triggerDefendAnimation, showSystemMessage,
          disableButtons] using h)
    · unfold performSpeak
      simp only []
      split_ifs
      · exact next_parity d _ (by simpa [turnParity, disableButtons] using h)
      · exact ⟨_, rfl, by simpa [turnParity, showChoice, disableButtons] using h⟩
      · obtain ⟨g1, e1, p1⟩ : ∃ g1, triggerCombatDialogue (next (d + 2)) draw.line
            { disableButtons g with playerDefending := false } = some g1 ∧ turnParity g1 := by
          unfold triggerCombatDialogue showDialogue
          simp only []
          split_ifs
          · exact next_parity d _ (by simpa [turnParity, disableButtons] using h)
          · exact ⟨_, rfl, by simpa [turnParity, disableButtons] using h⟩
        obtain ⟨g2, e2, p2⟩ := nextTurn_parity (d + 1) g1 p1
        exact ⟨g2, by rw [e1]; exact e2, p2⟩
    · obtain ⟨g1, e1, p1⟩ := next_parity d
        { ({ disableButtons g with playerDefending := false } : Game) with
          queue := ({ disableButtons g with playerDefending := false } : Game).queue ++
            hesitationLines draw.sequence }
        (by simpa [turnParity, disableButtons] using h)
      exact ⟨enableButtons g1, by simp [triggerHesitation, e1],
        by simpa [turnParity, enableButtons] using p1⟩
    · exact checkAndAdvance_parity (d + 1) _ h2

/-- The handler `enemyTurn` keeps the parity. -/
theorem enemyTurn_parity (d : Nat) (roll : Fin 10) (g : Game) (h : turnParity g) :
    ∃ g1, enemyTurn (next (d + 2)) roll g = some g1 ∧ turnParity g1 := by
  obtain ⟨gm, em, pm⟩ := next_parity d _ (performAttack_parity Role.opponent Role.player roll g h)
  obtain ⟨g1, e1, p1⟩ := checkAndAdvance_parity (d + 1) gm pm
  refine ⟨g1, ?_, p1⟩
  simp only [enemyTurn]
  rw [em]
  exact e1

/-- A click on a choice keeps the parity. -/
theorem selectChoice_parity (d : Nat) (index : Nat) (g : Game) (h : turnParity g) :
    ∃ g1, selectChoice (next (d + 2)) index g = some g1 ∧ turnParity g1 := by
  unfold selectChoice
  cases hte : g.textElement with
  | choice options =>
    simp only []
    cases hopt : options.get? index with
    | none => exact ⟨g, rfl, h⟩
    | some option =>
      simp only []
      cases hcb : option.callback with
      | warnQueen =>
        refine ⟨_, by simp only [runChoice]; exact triggerEvent_warn (d + 1) _, ?_⟩
        simpa [turnParity] using h
      | tauntLaertes =>
        obtain ⟨g1, e1, p1⟩ := next_parity d
          { g with textElement := Display.empty, queue := g.queue ++ [dallyLine] }
          (by simpa [turnParity] using h)
        exact ⟨g1, by simpa [runChoice] using e1, p1⟩
      | playAgain =>
        exact ⟨_, by simp [runChoice]; rfl, by simpa [turnParity] using h⟩
  | _ => exact ⟨g, rfl, h⟩

/-- Every input but the start button keeps the parity. -/
theorem step_parity (g : Game) (input : Input) (hi : input ≠ Input.start)
    (h : turnParity g) : ∃ g1, step g input = some g1 ∧ turnParity g1 := by
  cases input with
  | start => exact absurd rfl hi
  | advance => exact next_parity 0 g h
  | action name draw => exact playerAction_parity 0 name draw g h
  | timer roll =>
    simp only [step]
    split_ifs
    · exact ⟨g, rfl, h⟩
    · exact enemyTurn_parity 0 roll _ (by simpa [turnParity] using h)
  | select index => exact selectChoice_parity 0 index g h

/-- A sequence of inputs without the start button keeps the parity. -/
theorem run_parity (inputs : List Input) (g : Game) (hi : Input.start ∉ inputs)
    (h : turnParity g) : ∃ g1, run g inputs = some g1 ∧ turnParity g1 := by
  induction inputs generalizing g with
  | nil => exact ⟨g, rfl, h⟩
  | cons input rest ih =>
    obtain ⟨g1, e1, p1⟩ := step_parity g input
      (fun he => hi (by rw [he]; exact List.mem_cons_self _ _)) h
    obtain ⟨g2, e2, p2⟩ := ih g1 (fun hm => hi (List.mem_cons_of_mem _ hm)) p1
    exact ⟨g2, by simp [run, e1, e2], p2⟩

/-- C19: turn parity. `startCombat` leaves the turn with the player, and from a start of
combat at turn count 0, after every sequence of player actions, enemy turns, dialogue
advances and choice selections (every input but the start button) the handlers return a
state in which the turn is the player's exactly when the turn count is even. There
`nextTurn` raises the turn count by one and flips the turn in the same call; hence a turn
count of 8 comes with the turn going to the player, and the advance to 9 (the closing
callback of the event) hands the turn to the enemy and schedules the enemy timer. -/
theorem C19_turn_parity (s : Game) (inputs : List Input) (hc : s.turnCount = 0)
    (hi : Input.start ∉ inputs) :
    (startCombat s).turn = Turn.PLAYER ∧ (startCombat s).turnCount = 0 ∧
    ∃ g, run (startCombat s) inputs = some g ∧
      (g.turn = Turn.PLAYER ↔ g.turnCount % 2 = 0) ∧
      ∀ d, ∃ g1, nextTurn (next (d + 1)) g = some g1 ∧
        g1.turnCount = g.turnCount + 1 ∧
        g1.turn = (if g.turn = Turn.PLAYER then Turn.ENEMY else Turn.PLAYER) ∧
        (g1.turnCount = 8 → g1.turn = Turn.PLAYER) ∧
        (g1.turnCount = 9 → g1.turn = Turn.ENEMY ∧ g1.enemyTimers = g.enemyTimers + 1) := by
  have h0 : turnParity (startCombat s) := by
    simp [turnParity, startCombat, updateButtons, enableButtons, hc]
  refine ⟨by simp [startCombat, updateButtons, enableButtons],
    by simpa [startCombat, updateButtons, enableButtons] using hc, ?_⟩
  obtain ⟨g, hg, -, hp⟩ := run_parity inputs (startCombat s) hi h0
  refine ⟨g, hg, hp, ?_⟩
  intro d
  obtain ⟨g1, e1, c1, t1, -⟩ := nextTurn_frame d g
  refine ⟨g1, e1, c1, t1, ?_, ?_⟩
  · intro h8
    have hodd : ¬ g.turnCount % 2 = 0 := by omega
    have hne : ¬ g.turn = Turn.PLAYER := fun ht => hodd (hp.1 ht)
    rw [t1, if_neg hne]
  · intro h9
    have heven : g.turnCount % 2 = 0 := by omega
    have ht : g.turn = Turn.PLAYER := hp.2 heven
    have hplain := nextTurn_plain (next (d + 1)) g (by omega) (by omega)
    rw [e1, ht] at hplain
    simp only [if_true, Option.some.injEq] at hplain
    rw [hplain]
    exact ⟨rfl, rfl⟩

/-- C19 at a concrete game: from the start of combat, three exchanges of attacks, a defend
and the enemy's answer bring the turn count to 8 with the turn at the player, and the turn
advance from there gives turn count 9 with the turn at the enemy. -/
theorem C19_turn_parity_witness :
    ∃ g g1, run (startCombat Game.new) Scenario.toTurnEight = some g ∧
      g.turnCount = 8 ∧ g.turn = Turn.PLAYER ∧
      nextTurn (next 1) g = some g1 ∧ g1.turnCount = 9 ∧ g1.turn = Turn.ENEMY := by
  obtain ⟨-, -, g, hg, hp, hnext⟩ :=
    C19_turn_parity Game.new Scenario.toTurnEight rfl (by decide)
  have hview : (run (startCombat Game.new) Scenario.toTurnEight).map
      (fun s => s.turnCount) = some 8 := by
    decide
  rw [hg] at hview
  simp only [Option.map_some', Option.some.injEq] at hview
  obtain ⟨g1, e1, c1, -, -, h9⟩ := hnext 0
  exact ⟨g, g1, hg, hview, hp.2 (by omega), e1, by omega, (h9 (by omega)).1⟩

/-- One call of `next()` on an entry whose callback does not assign the queue: the entry
leaves the head of the queue, its callback is invoked once and the entry is displayed. -/
theorem next_quiet (d : Nat) (g : Game) (e : Entry) (rest : List Entry)
    (hq : g.queue = e :: rest)
    (hquiet : ∀ cb, e.callback = some cb → cb.writesQueue g = false) :
    ∃ g1, next (d + 2) g = some g1 ∧ g1.queue = rest ∧
      g1.trace = g.trace ++ playedItems e ∧
      g1.textElement = Display.line (e.speaker.filter (fun s => s ≠ "")) e.text := by
  cases hcb : e.callback with
  | none =>
    refine ⟨_, next_cons_none (d + 1) g e rest hq hcb, ?_⟩
    simp [Game.record, playedItems, hcb]
  | some cb =>
    have hw := hquiet cb hcb
    cases cb
    · simp only [Callback.writesQueue, decide_eq_false_iff_not] at hw
      have h1 : g.turnCount < 25 := by
        by_contra hc
        exact hw (Or.inl (by omega))
      have h2 : ¬ (g.turnCount = 7 ∧ g.warnedQueen = false ∧ g.queen.isDead = false) :=
        fun h7 => hw (Or.inr ⟨by omega, h7.2.1, h7.2.2⟩)
      obtain ⟨g2, e2, q2, t2⟩ : ∃ g2, nextTurn (next (d + 1))
          (Game.record
            { g with queue := rest, isShowing := true, dialogueBoxHidden := false,
                     nextBtnHidden := false }
            (TraceItem.called Callback.nextTurn)) = some g2 ∧ g2.queue = rest ∧
          g2.trace = g.trace ++ [TraceItem.called Callback.nextTurn] := by
        refine ⟨_, nextTurn_plain _ _ h1 h2, ?_⟩
        split <;> simp [Game.record]
      refine ⟨Game.record
        { g2 with textElement := Display.line (e.speaker.filter (fun s => s ≠ "")) e.text }
        (TraceItem.shown e), ?_, ?_⟩
      · show nextBody (next (d + 1)) g = _
        simp only [nextBody, hq, hcb, runCallback, e2, Option.map_some']
      · simp [Game.record, playedItems, hcb, q2, t2]
    all_goals
      refine ⟨_, by simp [next, nextBody, hq, hcb, runCallback]; rfl, ?_⟩
      simp [Game.record, playedItems, hcb, Game.triggerDrinkAnimation,
        Game.clearDrinkAnimation]

/-- C14: the dialogue queue is first in, first out, with every callback run exactly once.
For a queue of at least `k` entries none of whose callbacks assigns the queue when run
during these calls, `k` successive calls of `next()` all return; the queue is then the old
one without its first `k` entries, the history has grown by exactly, for each of these
entries in queue order, the invocation of its callback (if it has one) followed by the
display of the entry, and the text on display is that of entry `k`. With `k` the length of
the queue, the queue ends empty. -/
theorem C14_queue_is_fifo (k : Nat) (g : Game) (hk : k ≤ g.queue.length)
    (hquiet : quiet k g = true) :
    ∃ gk, run g (List.replicate k Input.advance) = some gk ∧
      gk.queue = g.queue.drop k ∧
      gk.trace = g.trace ++ ((g.queue.take k).map playedItems).flatten ∧
      (∀ i e, k = i + 1 → g.queue.get? i = some e →
        gk.textElement = Display.line (e.speaker.filter (fun s => s ≠ "")) e.text) ∧
      (k = g.queue.length → gk.queue = []) := by
  induction k generalizing g with
  | zero =>
    refine ⟨g, rfl, by simp, by simp, ?_, ?_⟩
    · intro i e hi
      omega
    · intro h0
      exact List.length_eq_zero.mp h0.symm
  | succ k ih =>
    cases hq : g.queue with
    | nil =>
      rw [hq] at hk
      simp at hk
    | cons e rest =>
      rw [hq] at hk
      have hk1 : k ≤ rest.length := by simpa using hk
      simp only [quiet, hq, Bool.and_eq_true] at hquiet
      obtain ⟨hcb, hrest⟩ := hquiet
      obtain ⟨g1, e1, q1, t1, x1⟩ := next_quiet 0 g e rest hq (by
        intro cb hc
        rw [hc] at hcb
        simpa using hcb)
      have e1d : next depth g = some g1 := e1
      rw [e1d] at hrest
      obtain ⟨gk, rk, qk, tk, xk, -⟩ := ih g1 (by rw [q1]; exact hk1) hrest
      refine ⟨gk, ?_, ?_, ?_, ?_, ?_⟩
      · show (step g Input.advance).bind _ = _
        simp only [step, e1d, Option.some_bind]
        exact rk
      · rw [qk, q1]
        rfl
      · rw [tk, t1, q1]
        simp [List.append_assoc]
      · intro i e2 hi he2
        have hik : i = k := by omega
        subst hik
        cases i with
        | zero =>
          simp only [List.get?_cons_zero, Option.some.injEq] at he2
          subst he2
          simp only [List.replicate, run, Option.some.injEq] at rk
          rw [← rk]
          exact x1
        | succ j =>
          simp only [List.get?_cons_succ] at he2
          exact xk j e2 rfl (by rw [q1]; exact he2)
      · intro hlen
        rw [qk, q1]
        simp only [List.length_cons] at hlen
        have : k = rest.length := by omega
        rw [this]
        exact List.drop_length rest

/-- C14 at a concrete game: when the natural-poisoning event has started, the seven entries
left in the queue carry three callbacks (the cup is lifted, the queen dies, the turn
advances); seven clicks empty the queue and the history records these three invocations,
each right before the display of its entry. -/
theorem C14_queue_is_fifo_witness :
    ∃ g g7, run Game.new Scenario.firstHit = some g ∧ g.queue = queenDrinksSequence.tail ∧
      run g (List.replicate 7 Input.advance) = some g7 ∧ g7.queue = [] ∧
      g7.trace = g.trace ++ ((queenDrinksSequence.tail).map playedItems).flatten ∧
      g7.textElement =
        Display.line none "Laertes prepares to strike while you are distracted..." := by
  obtain ⟨g, hg, -⟩ := run_reach Scenario.firstHit Game.new
  have hview : (run Game.new Scenario.firstHit).map
      (fun s => (s.queue, quiet 7 s)) = some (queenDrinksSequence.tail, true) := by
    decide
  rw [hg] at hview
  simp only [Option.map_some', Option.some.injEq, Prod.mk.injEq] at hview
  obtain ⟨hq, hquiet⟩ := hview
  obtain ⟨g7, r7, q7, t7, x7, -⟩ :=
    C14_queue_is_fifo 7 g (by rw [hq]; decide) hquiet
  refine ⟨g, g7, hg, hq, r7, ?_, ?_, ?_⟩
  · rw [q7, hq]
    rfl
  · rw [t7, hq]
    rfl
  · rw [x7 6 ⟨none, "Laertes prepares to strike while you are distracted...",
      some Callback.nextTurn⟩ rfl (by rw [hq]; rfl)]
    rfl

/-- On an entry whose callback does not call `nextTurn`, `next()` takes the entry and leaves
the turn and the turn count alone. -/
theorem next_basic_line (d : Nat) (g : Game) (e : Entry) (rest : List Entry)
    (hq : g.queue = e :: rest) (hc : e.callback ≠ some Callback.nextTurn) :
    ∃ g1, next (d + 1) g = some g1 ∧ g1.queue = rest ∧ g1.turnCount = g.turnCount ∧
      g1.turn = g.turn := by
  cases hcb : e.callback with
  | none => exact ⟨_, next_cons_none d g e rest hq hcb, rfl, rfl, rfl⟩
  | some cb =>
    cases cb
    · exact absurd hcb hc
    all_goals
      refine ⟨_, by simp [next, nextBody, hq, hcb, runCallback]; rfl, ?_, ?_, ?_⟩ <;>
        simp [Game.record, Game.triggerDrinkAnimation, Game.clearDrinkAnimation]

/-- On an entry whose callback is `nextTurn`, `next()` advances the turn by one and leaves
the text of the entry on display. -/
theorem next_turn_line_shown (d : Nat) (g : Game) (e : Entry) (rest : List Entry)
    (hq : g.queue = e :: rest) (hc : e.callback = some Callback.nextTurn) :
    ∃ g1, next (d + 2) g = some g1 ∧ g1.turnCount = g.turnCount + 1 ∧
      g1.turn = (if g.turn = Turn.PLAYER then Turn.ENEMY else Turn.PLAYER) ∧
      g1.textElement = Display.line (e.speaker.filter (fun s => s ≠ "")) e.text := by
  obtain ⟨g2, h2, c2, t2, -⟩ := nextTurn_frame d
    (Game.record
      { g with queue := rest, isShowing := true, dialogueBoxHidden := false,
               nextBtnHidden := false }
      (TraceItem.called Callback.nextTurn))
  refine ⟨Game.record
      { g2 with textElement := Display.line (e.speaker.filter (fun s => s ≠ "")) e.text }
      (TraceItem.shown e), ?_, ?_, ?_, ?_⟩
  · show nextBody (next (d + 1)) g = _
    simp only [nextBody, hq, hc, runCallback, h2, Option.map_some']
  · simpa [Game.record] using c2
  · simpa [Game.record] using t2
  · simp [Game.record]

/-- A line whose callback is `nextTurn`, queued behind entries that do not advance the turn,
is displayed by the click that follows theirs, and the turn advances by one then. -/
theorem turn_line_plays (q : List Entry) (line : Entry)
    (hline : line.callback = some Callback.nextTurn) (hq : noTurnCallback q) (g : Game)
    (hg : g.queue = q ++ [line]) :
    ∃ g1, run g (List.replicate (q.length + 1) Input.advance) = some g1 ∧
      g1.turnCount = g.turnCount + 1 ∧
      g1.turn = (if g.turn = Turn.PLAYER then Turn.ENEMY else Turn.PLAYER) ∧
      g1.textElement = Display.line (line.speaker.filter (fun s => s ≠ "")) line.text := by
  induction q generalizing g with
  | nil =>
    obtain ⟨g1, e1, c1, t1, x1⟩ := next_turn_line_shown 0 g line [] hg hline
    refine ⟨g1, ?_, c1, t1, x1⟩
    have e1d : step g Input.advance = some g1 := e1
    simp [run, e1d]
  | cons e rest ih =>
    obtain ⟨g1, e1, q1, c1, t1⟩ := next_basic_line 1 g e (rest ++ [line]) hg
      (hq e (List.mem_cons_self _ _))
    obtain ⟨g2, e2, c2, t2, x2⟩ := ih (fun x hx => hq x (List.mem_cons_of_mem _ hx)) g1 q1
    refine ⟨g2, ?_, by rw [c2, c1], by rw [t2, t1], x2⟩
    have e1d : step g Input.advance = some g1 := e1
    simp only [List.length_cons, List.replicate_succ, run, e1d, Option.some_bind]
    exact e2

/-- The call `next()` after a line whose callback is `nextTurn` was pushed behind entries
that do not advance the turn: after as many clicks as there were entries, the line is on
display and the turn has advanced by one. -/
theorem pushed_turn_line_plays (d : Nat) (g : Game) (line : Entry)
    (hline : line.callback = some Callback.nextTurn) (hq : noTurnCallback g.queue) :
    ∃ g1 g2, next (d + 2) { g with queue := g.queue ++ [line] } = some g1 ∧
      run g1 (List.replicate g.queue.length Input.advance) = some g2 ∧
      g2.turnCount = g.turnCount + 1 ∧
      g2.turn = (if g.turn = Turn.PLAYER then Turn.ENEMY else Turn.PLAYER) ∧
      g2.textElement = Display.line (line.speaker.filter (fun s => s ≠ "")) line.text := by
  cases hgq : g.queue with
  | nil =>
    obtain ⟨g1, e1, c1, t1, x1⟩ := next_turn_line_shown d
      { g with queue := [] ++ [line] } line [] rfl hline
    exact ⟨g1, g1, e1, rfl, c1, t1, x1⟩
  | cons e rest =>
    rw [hgq] at hq
    obtain ⟨g1, e1, q1, c1, t1⟩ := next_basic_line (d + 1)
      { g with queue := (e :: rest) ++ [line] } e (rest ++ [line]) rfl
      (hq e (List.mem_cons_self _ _))
    obtain ⟨g2, e2, c2, t2, x2⟩ := turn_line_plays rest line hline
      (fun x hx => hq x (List.mem_cons_of_mem _ hx)) g1 q1
    exact ⟨g1, g2, e1, by simpa using e2, by rw [c2, c1], by rw [t2, t1], x2⟩

/-- Before turn count 2 the turn advance plays nothing: it raises the turn count, flips the
turn and leaves the display and the queue as they are. -/
theorem nextTurn_early (nx : Game → Option Game) (g : Game) (hc : g.turnCount < 2) :
    ∃ g1, nextTurn nx g = some g1 ∧ g1.turnCount = g.turnCount + 1 ∧
      g1.turn = (if g.turn = Turn.PLAYER then Turn.ENEMY else Turn.PLAYER) ∧
      g1.textElement = g.textElement ∧ g1.queue = g.queue := by
  refine ⟨_, nextTurn_plain nx g (by omega) (by omega), ?_⟩
  split <;> simp_all

/-- C12: `performSpeak` branches by priority. (1) With the queen warned or dead it pushes the
fixed taunt line, whose callback is `nextTurn`, and calls `next()`: behind a queue of entries
that do not advance the turn the line is displayed after as many clicks as the queue had
entries (at once on an empty queue), and the turn has advanced by one then. (2) Otherwise,
from turn count 2 on, it only puts the choice of exactly two options (warn, taunt) on
display: no line is shown, the queue and the turn are left alone; choosing warn sets
`warnedQueen` and starts the `WARN_QUEEN` event, choosing taunt pushes a line that is
displayed the same way and advances the turn. (3) Otherwise it hands a flavour line picked
at random to `showDialogue` (displayed at once when nothing is showing, queued otherwise)
and advances the turn. In particular at turn count 2 with the queen alive and not warned the
choice is presented. -/
theorem C12_speak_branches_by_priority (d : Nat) (pick : Fin 8) (g : Game) :
    ((g.warnedQueen = true ∨ g.queen.isDead = true) →
      performSpeak (next (d + 2)) pick g =
        next (d + 2) { g with queue := g.queue ++ [wantonLine] } ∧
      wantonLine.callback = some Callback.nextTurn ∧
      (noTurnCallback g.queue →
        ∃ g1 g2, performSpeak (next (d + 2)) pick g = some g1 ∧
          run g1 (List.replicate g.queue.length Input.advance) = some g2 ∧
          g2.turnCount = g.turnCount + 1 ∧
          g2.turn = (if g.turn = Turn.PLAYER then Turn.ENEMY else Turn.PLAYER) ∧
          g2.textElement =
            Display.line (some "Hamlet") "I am afeard you make a wanton of me.")) ∧
    ((g.warnedQueen = false ∧ g.queen.isDead = false ∧ 2 ≤ g.turnCount) →
      performSpeak (next (d + 2)) pick g = some (showChoice speakOptions g) ∧
      (showChoice speakOptions g).textElement =
        Display.choice [⟨"Warn Mother about the cup", ChoiceCallback.warnQueen⟩,
          ⟨"Taunt Laertes", ChoiceCallback.tauntLaertes⟩] ∧
      (showChoice speakOptions g).trace = g.trace ∧
      (showChoice speakOptions g).queue = g.queue ∧
      (showChoice speakOptions g).turnCount = g.turnCount ∧
      (showChoice speakOptions g).turn = g.turn ∧
      (∃ g1, selectChoice (next (d + 2)) 0 (showChoice speakOptions g) = some g1 ∧
        g1.warnedQueen = true ∧
        g1.trace = g.trace ++ [TraceItem.event "WARN_QUEEN",
          TraceItem.shown ⟨some "Hamlet", "Mother, do not drink!", none⟩] ∧
        g1.queue = warnQueenSequence.tail) ∧
      (noTurnCallback g.queue →
        ∃ g1 g2, selectChoice (next (d + 2)) 1 (showChoice speakOptions g) = some g1 ∧
          run g1 (List.replicate g.queue.length Input.advance) = some g2 ∧
          g2.turnCount = g.turnCount + 1 ∧
          g2.turn = (if g.turn = Turn.PLAYER then Turn.ENEMY else Turn.PLAYER) ∧
          g2.textElement =
            Display.line (some "Hamlet") "Come, for the third, Laertes: you but dally.")) ∧
    ((g.warnedQueen = false ∧ g.queen.isDead = false ∧ g.turnCount < 2) →
      performSpeak (next (d + 2)) pick g =
        (showDialogue (next (d + 2)) (combatLines pick).1 (combatLines pick).2 g).bind
          (nextTurn (next (d + 2))) ∧
      (noTurnCallback g.queue →
        ∃ g1, performSpeak (next (d + 2)) pick g = some g1 ∧
          g1.turnCount = g.turnCount + 1 ∧
          g1.turn = (if g.turn = Turn.PLAYER then Turn.ENEMY else Turn.PLAYER) ∧
          ((g.queue = [] ∧ g.isShowing = false) →
            g1.textElement = Display.line (some (combatLines pick).1) (combatLines pick).2 ∧
            g1.queue = []) ∧
          (g.isShowing = true →
            g1.queue = g.queue ++ [⟨some (combatLines pick).1, (combatLines pick).2, none⟩] ∧
            g1.textElement = g.textElement))) ∧
    ((g.warnedQueen = false ∧ g.queen.isDead = false ∧ g.turnCount = 2) →
      performSpeak (next (d + 2)) pick g = some (showChoice speakOptions g)) := by
  refine ⟨?_, ?_, ?_, ?_⟩
  · intro hwd
    have hperf : performSpeak (next (d + 2)) pick g =
        next (d + 2) { g with queue := g.queue ++ [wantonLine] } := by
      simp only [performSpeak]
      rw [if_pos hwd]
    refine ⟨hperf, rfl, ?_⟩
    intro hq
    obtain ⟨g1, g2, e1, e2, c2, t2, x2⟩ := pushed_turn_line_plays d g wantonLine rfl hq
    exact ⟨g1, g2, by rw [hperf]; exact e1, e2, c2, t2, x2⟩
  · rintro ⟨hw, hd, hc⟩
    have hperf : performSpeak (next (d + 2)) pick g = some (showChoice speakOptions g) := by
      simp [performSpeak, hw, hd, hc]
    refine ⟨hperf, rfl, rfl, rfl, rfl, rfl, ?_, ?_⟩
    · refine ⟨_, by
        simp only [selectChoice, showChoice, speakOptions, List.get?, runChoice]
        exact triggerEvent_warn (d + 1) _, rfl, rfl, rfl⟩
    · intro hq
      obtain ⟨g1, g2, e1, e2, c2, t2, x2⟩ := pushed_turn_line_plays d
        { showChoice speakOptions g with textElement := Display.empty } dallyLine rfl hq
      exact ⟨g1, g2, by
        simp only [selectChoice, showChoice, speakOptions, List.get?, runChoice]
        exact e1, e2, c2, t2, x2⟩
  · rintro ⟨hw, hd, hc⟩
    have hperf : performSpeak (next (d + 2)) pick g =
        (showDialogue (next (d + 2)) (combatLines pick).1 (combatLines pick).2 g).bind
          (nextTurn (next (d + 2))) := by
      simp only [performSpeak, triggerCombatDialogue]
      rw [if_neg (by simp [hw, hd]), if_neg (by omega)]
    refine ⟨hperf, ?_⟩
    intro hq
    rw [hperf]
    have hspeaker : ∀ p : Fin 8, (combatLines p).1 ≠ "" := by
      decide
    have hq2 : noTurnCallback
        ({ g with queue := g.queue ++
            [⟨some (combatLines pick).1, (combatLines pick).2, none⟩] } : Game).queue := by
      intro e he
      simp only [List.mem_append, List.mem_singleton] at he
      rcases he with he | he
      · exact hq e he
      · simp [he]
    by_cases hs : g.isShowing = false
    · obtain ⟨g0, e0, c0, -, t0⟩ := next_noTurnCallback (d + 1) _ hq2
      obtain ⟨g1, e1, c1, t1, x1, q1⟩ := nextTurn_early (next (d + 2)) g0 (by rw [c0]; exact hc)
      refine ⟨g1, ?_, by rw [c1, c0], ?_, ?_, ?_⟩
      · simp only [showDialogue]
        rw [if_pos hs, e0]
        exact e1
      · rw [t1, (t0 (by simp)).1]
      · rintro ⟨hgq, -⟩
        have e0b := next_cons_none (d + 1)
          { g with queue := g.queue ++
              [⟨some (combatLines pick).1, (combatLines pick).2, none⟩] }
          ⟨some (combatLines pick).1, (combatLines pick).2, none⟩ [] (by simp [hgq]) rfl
        rw [e0] at e0b
        simp only [Option.some.injEq] at e0b
        rw [x1, q1, e0b]
        simp [Game.record, hspeaker pick]
      · intro h
        rw [h] at hs
        cases hs
    · obtain ⟨g1, e1, c1, t1, x1, q1⟩ := nextTurn_early (next (d + 2))
        { g with queue := g.queue ++
            [⟨some (combatLines pick).1, (combatLines pick).2, none⟩] } hc
      refine ⟨g1, ?_, c1, t1, ?_, ?_⟩
      · simp only [showDialogue]
        rw [if_neg hs]
        exact e1
      · rintro ⟨-, h⟩
        exact absurd h hs
      · intro _
        exact ⟨q1, x1⟩
  · rintro ⟨hw, hd, hc⟩
    simp [performSpeak, hw, hd, hc]

/-- C12 at concrete games: after one exchange (turn count 2, the queen alive and not warned)
`performSpeak` presents the choice; with the queen warned (turn count 6) it shows the taunt
line and the turn count becomes 7; right after the intro (turn count 0) it shows a flavour
line and the turn count becomes 1. -/
theorem C12_speak_branches_by_priority_witness :
    (∃ g, run Game.new (Scenario.intro ++ Scenario.exchange "attack") = some g ∧
      g.turnCount = 2 ∧ performSpeak (next 2) 0 g = some (showChoice speakOptions g)) ∧
    (∃ g g1, run Game.new Scenario.queenWarned = some g ∧ g.warnedQueen = true ∧
      performSpeak (next 2) 0 g = some g1 ∧ g1.turnCount = 7 ∧
      g1.textElement = Display.line (some "Hamlet") "I am afeard you make a wanton of me.") ∧
    (∃ g g1, run Game.new Scenario.intro = some g ∧ g.turnCount = 0 ∧
      performSpeak (next 2) 0 g = some g1 ∧ g1.turnCount = 1 ∧
      g1.textElement = Display.line (some "Hamlet") "Come on, sir.") := by
  refine ⟨?_, ?_, ?_⟩
  · obtain ⟨g, hg, -⟩ := run_reach (Scenario.intro ++ Scenario.exchange "attack") Game.new
    have hview : (run Game.new (Scenario.intro ++ Scenario.exchange "attack")).map
        (fun s => (s.turnCount, s.warnedQueen, s.queen.isDead)) = some (2, false, false) := by
      decide
    rw [hg] at hview
    simp only [Option.map_some', Option.some.injEq, Prod.mk.injEq] at hview
    obtain ⟨hc, hw, hd⟩ := hview
    exact ⟨g, hg, hc, (C12_speak_branches_by_priority 0 0 g).2.2.2 ⟨hw, hd, hc⟩⟩
  · obtain ⟨g, hg, -⟩ := run_reach Scenario.queenWarned Game.new
    have hview : (run Game.new Scenario.queenWarned).map
        (fun s => (s.turnCount, s.warnedQueen, s.queue)) = some (6, true, []) := by
      decide
    rw [hg] at hview
    simp only [Option.map_some', Option.some.injEq, Prod.mk.injEq] at hview
    obtain ⟨hc, hw, hq⟩ := hview
    obtain ⟨-, -, hplay⟩ := (C12_speak_branches_by_priority 0 0 g).1 (Or.inl hw)
    obtain ⟨g1, g2, e1, e2, c2, -, x2⟩ := hplay (by rw [hq]; intro e he; cases he)
    rw [hq] at e2
    simp only [List.length_nil, List.replicate, run, Option.some.injEq] at e2
    subst e2
    exact ⟨g, g1, hg, hw, e1, by rw [c2, hc], x2⟩
  · obtain ⟨g, hg, -⟩ := run_reach Scenario.intro Game.new
    have hview : (run Game.new Scenario.intro).map
        (fun s => (s.turnCount, s.warnedQueen, s.queen.isDead, s.queue, s.isShowing)) =
          some (0, false, false, [], false) := by
      decide
    rw [hg] at hview
    simp only [Option.map_some', Option.some.injEq, Prod.mk.injEq] at hview
    obtain ⟨hc, hw, hd, hq, hs⟩ := hview
    obtain ⟨-, hplay⟩ := (C12_speak_branches_by_priority 0 0 g).2.2.1 ⟨hw, hd, by omega⟩
    obtain ⟨g1, e1, c1, -, x1, -⟩ := hplay (by rw [hq]; intro e he; cases he)
    exact ⟨g, g1, hg, hc, e1, by rw [c1, hc], (x1 ⟨hq, hs⟩).1⟩

end Hamlet
